import Mathlib

/-! Ownership labeller.

A shallow embedding of `pkg/controller/operators/labeller/labels.go`:
the marker predicate `hasLabel`, the two reconcilers `ObjectLabeler`
(server-side apply) and `ObjectPatchLabeler` (JSON merge patch), and the
ownership classifier `HasOLMOwnerRef`.

Effects of a reconcile call (collaborator calls, log lines, `os.Exit`) are
recorded in an explicit trace; collaborators are functions passed as
arguments, exactly as in the source.
-/

set_option autoImplicit false

namespace Labeller

/-! ## Go maps with string keys -/

/-- Lookup of a key in an association list, first match. -/
def assocLookup {β : Type} (k : String) : List (String × β) → Option β
  | [] => none
  | (k', v) :: rest => if k' = k then some v else assocLookup k rest

/-- Assignment `m[k] = v` on an association list: overwrite in place when the
key is present, add the entry otherwise. -/
def assocSet {β : Type} (k : String) (v : β) : List (String × β) → List (String × β)
  | [] => [(k, v)]
  | (k', v') :: rest => if k' = k then (k, v) :: rest else (k', v') :: assocSet k v rest

/-- A non-nil Go `map[string]string`: finitely many entries, keys unique. -/
structure StringMap where
  entries : List (String × String)
  nodupKeys : (entries.map Prod.fst).Nodup

namespace StringMap

/-- The map literal `map[string]string{}`. -/
def empty : StringMap := ⟨[], by simp⟩

/-- The map literal `map[string]string{k: v}`. -/
def singleton (k v : String) : StringMap := ⟨[(k, v)], by simp⟩

/-- Value stored under `k`, if any. -/
def lookup (m : StringMap) (k : String) : Option String := assocLookup k m.entries

/-- The assignment `m[k] = v`. -/
def set (m : StringMap) (k v : String) : StringMap :=
  ⟨assocSet k v m.entries, by
    have key : ∀ l : List (String × String), (l.map Prod.fst).Nodup →
        ((assocSet k v l).map Prod.fst).Nodup ∧
          ∀ x, x ∈ (assocSet k v l).map Prod.fst → x = k ∨ x ∈ l.map Prod.fst := by
      intro l
      induction l with
      | nil => intro _; simp [assocSet]
      | cons hd rest ih =>
        obtain ⟨k', v'⟩ := hd
        intro h
        rw [List.map_cons, List.nodup_cons] at h
        obtain ⟨ih1, ih2⟩ := ih h.2
        by_cases hk : k' = k
        · subst hk
          simp only [assocSet, if_true, List.map_cons]
          exact ⟨List.nodup_cons.mpr h, fun x hx => Or.inr hx⟩
        · simp only [assocSet, hk, if_false, List.map_cons]
          refine ⟨List.nodup_cons.mpr ⟨?_, ih1⟩, ?_⟩
          · intro hmem
            rcases ih2 k' hmem with h1 | h1
            · exact hk h1
            · exact h.1 h1
          · intro x hx
            rcases List.mem_cons.mp hx with h1 | h1
            · exact Or.inr (List.mem_cons.mpr (Or.inl h1))
            · rcases ih2 x h1 with h2 | h2
              · exact Or.inl h2
              · exact Or.inr (List.mem_cons.mpr (Or.inr h2))
    exact (key m.entries m.nodupKeys).1⟩

/-- The keys of the map, as `for key := range m` visits them. -/
def keys (m : StringMap) : List String := m.entries.map Prod.fst

end StringMap

/-- The comma-ok index expression `value, ok := m[k]` on a possibly nil map:
a missing key (or a nil map) gives the zero value `""` and `false`. -/
def mapIndex (m : Option StringMap) (k : String) : String × Bool :=
  match m with
  | none => ("", false)
  | some m =>
    match m.lookup k with
    | none => ("", false)
    | some v => (v, true)

/-! ## JSON documents and `encoding/json` -/

/-- A JSON document as `encoding/json` produces and `json.Unmarshal` reads
into `interface{}`: objects are association lists of members. -/
inductive Json where
  | null
  | bool (b : Bool)
  | num (n : Int)
  | str (s : String)
  | arr (items : List Json)
  | obj (members : List (String × Json))

/-- Members of a marshalled struct: a field whose value is `none` is left
out (`omitempty` on an empty value). -/
def structMembers (fs : List (String × Option Json)) : List (String × Json) :=
  fs.filterMap (fun f => f.2.map (fun v => (f.1, v)))

/-- A string field tagged `omitempty`. -/
def omitemptyString (s : String) : Option Json :=
  if s = "" then none else some (Json.str s)

/-- An integer field tagged `omitempty`. -/
def omitemptyInt (n : Int) : Option Json :=
  if n = 0 then none else some (Json.num n)

/-- A `map[string]string` field tagged `omitempty`: nil and empty maps are
left out. -/
def omitemptyMap (m : Option StringMap) : Option Json :=
  match m with
  | none => none
  | some m =>
    if m.entries.isEmpty then none
    else some (Json.obj (m.entries.map (fun kv => (kv.1, Json.str kv.2))))

/-- A slice field tagged `omitempty`: nil and empty slices are left out. -/
def omitemptySlice (items : List Json) : Option Json :=
  if items.isEmpty then none else some (Json.arr items)

/-! ## `metav1` types -/

/-- The `metav1.OwnerReference` struct. -/
structure OwnerReference where
  APIVersion : String
  Kind : String
  Name : String
  UID : String
  Controller : Option Bool
  BlockOwnerDeletion : Option Bool

/-- The `metav1.TypeMeta` struct. -/
structure TypeMeta where
  Kind : String
  APIVersion : String

/-- The `metav1.ObjectMeta` struct (without `managedFields`, which the
labeller never reads or writes). Timestamps are kept in their serialized
form; a zero `creationTimestamp` is `none`. -/
structure ObjectMeta where
  Name : String
  GenerateName : String
  Namespace : String
  SelfLink : String
  UID : String
  ResourceVersion : String
  Generation : Int
  CreationTimestamp : Option String
  DeletionTimestamp : Option String
  DeletionGracePeriodSeconds : Option Int
  Labels : Option StringMap
  Annotations : Option StringMap
  OwnerReferences : List OwnerReference
  Finalizers : List String

/-- The `metav1.PartialObjectMetadata` struct; a value of this type stands
for the non-nil pointer the informer hands over. -/
structure PartialObjectMetadata where
  TypeMeta : TypeMeta
  ObjectMeta : ObjectMeta

/-- The part of the `metav1.Object` interface that the labeller uses. -/
class Object (T : Type) where
  GetNamespace : T → String
  GetName : T → String
  GetUID : T → String
  GetResourceVersion : T → String
  GetLabels : T → Option StringMap
  GetOwnerReferences : T → List OwnerReference

instance : Object PartialObjectMetadata where
  GetNamespace o := o.ObjectMeta.Namespace
  GetName o := o.ObjectMeta.Name
  GetUID o := o.ObjectMeta.UID
  GetResourceVersion o := o.ObjectMeta.ResourceVersion
  GetLabels o := o.ObjectMeta.Labels
  GetOwnerReferences o := o.ObjectMeta.OwnerReferences

namespace PartialObjectMetadata

/-- The setter `SetUID`. -/
def SetUID (o : PartialObjectMetadata) (uid : String) : PartialObjectMetadata :=
  { o with ObjectMeta := { o.ObjectMeta with UID := uid } }

/-- The setter `SetResourceVersion`. -/
def SetResourceVersion (o : PartialObjectMetadata) (rv : String) : PartialObjectMetadata :=
  { o with ObjectMeta := { o.ObjectMeta with ResourceVersion := rv } }

/-- The setter `SetLabels`. -/
def SetLabels (o : PartialObjectMetadata) (labels : StringMap) : PartialObjectMetadata :=
  { o with ObjectMeta := { o.ObjectMeta with Labels := some labels } }

/-- The generated `DeepCopy`: a fresh value with the same contents, so that
writes to the copy never reach the original. -/
def DeepCopy (o : PartialObjectMetadata) : PartialObjectMetadata := o

end PartialObjectMetadata

/-- The method `Time.MarshalJSON`: a zero time is `null`. -/
def marshalTime (t : Option String) : Json :=
  match t with
  | none => Json.null
  | some t => Json.str t

/-- JSON form of one owner reference. -/
def marshalOwnerReference (r : OwnerReference) : Json :=
  Json.obj (structMembers
    [("apiVersion", some (Json.str r.APIVersion)),
     ("kind", some (Json.str r.Kind)),
     ("name", some (Json.str r.Name)),
     ("uid", some (Json.str r.UID)),
     ("controller", r.Controller.map Json.bool),
     ("blockOwnerDeletion", r.BlockOwnerDeletion.map Json.bool)])

/-- The fields of `ObjectMeta` with their JSON names, in declaration order;
`none` marks a field that `omitempty` drops. -/
def objectMetaFields (m : ObjectMeta) : List (String × Option Json) :=
  [("name", omitemptyString m.Name),
   ("generateName", omitemptyString m.GenerateName),
   ("namespace", omitemptyString m.Namespace),
   ("selfLink", omitemptyString m.SelfLink),
   ("uid", omitemptyString m.UID),
   ("resourceVersion", omitemptyString m.ResourceVersion),
   ("generation", omitemptyInt m.Generation),
   ("creationTimestamp", some (marshalTime m.CreationTimestamp)),
   ("deletionTimestamp", m.DeletionTimestamp.map Json.str),
   ("deletionGracePeriodSeconds", m.DeletionGracePeriodSeconds.map Json.num),
   ("labels", omitemptyMap m.Labels),
   ("annotations", omitemptyMap m.Annotations),
   ("ownerReferences", omitemptySlice (m.OwnerReferences.map marshalOwnerReference)),
   ("finalizers", omitemptySlice (m.Finalizers.map Json.str))]

/-- The fields of `PartialObjectMetadata`: `TypeMeta` inlined, `ObjectMeta`
under `metadata`. -/
def partialObjectMetadataFields (o : PartialObjectMetadata) : List (String × Option Json) :=
  [("kind", omitemptyString o.TypeMeta.Kind),
   ("apiVersion", omitemptyString o.TypeMeta.APIVersion),
   ("metadata", some (Json.obj (structMembers (objectMetaFields o.ObjectMeta))))]

/-- The call `json.Marshal(obj)` on a `*PartialObjectMetadata`; `none` would
be a marshalling error, which these field types never raise. -/
def jsonMarshal (o : PartialObjectMetadata) : Option Json :=
  some (Json.obj (structMembers (partialObjectMetadataFields o)))

/-! ## `jsonpatch.CreateMergePatch` -/

mutual
/-- The library function `matchesValue`: deep equality of two decoded
documents. -/
def matchesValue : Json → Json → Bool
  | Json.null, Json.null => true
  | Json.bool a, Json.bool b => a == b
  | Json.num a, Json.num b => a == b
  | Json.str a, Json.str b => a == b
  | Json.arr a, Json.arr b => matchesArray a b
  | Json.obj a, Json.obj b => a.length == b.length && matchesMembers a b
  | _, _ => false
/-- The library function `matchesArray`: same length, equal item by item. -/
def matchesArray : List Json → List Json → Bool
  | [], [] => true
  | x :: xs, y :: ys => matchesValue x y && matchesArray xs ys
  | _, _ => false
/-- The loop of `matchesValue` over the members of the second object: each
key is present in the first object with a matching value. -/
def matchesMembers (a : List (String × Json)) : List (String × Json) → Bool
  | [] => true
  | (key, bv) :: rest =>
    (match assocLookup key a with
     | none => false
     | some av => matchesValue av bv) && matchesMembers a rest
end

/-- The second loop of `getDiff`: every key of `a` that `b` lacks is
recorded as deleted (`null`). -/
def getDiffDeleted (a b : List (String × Json)) : List (String × Json) :=
  a.filterMap (fun kv =>
    match assocLookup kv.1 b with
    | none => some (kv.1, Json.null)
    | some _ => none)

mutual
/-- The first loop of `getDiff` (`for key, bv := range b`): added and changed
members of `b` relative to `a`. -/
def getDiffChanged (a : List (String × Json)) : List (String × Json) → List (String × Json)
  | [] => []
  | (key, bv) :: rest =>
    (match assocLookup key a with
     | none => [(key, bv)]
     | some av =>
       match diffValue av bv with
       | none => []
       | some d => [(key, d)]) ++ getDiffChanged a rest
/-- The body of the first loop of `getDiff` for a key present on both sides:
`some d` when `into[key] = d` is executed, `none` when nothing is recorded. -/
def diffValue : Json → Json → Option Json
  | Json.obj aMembers, Json.obj bMembers =>
    let dst := getDiffChanged aMembers bMembers ++ getDiffDeleted aMembers bMembers
    if dst.length > 0 then some (Json.obj dst) else none
  | Json.str a, Json.str b => if a = b then none else some (Json.str b)
  | Json.num a, Json.num b => if a = b then none else some (Json.num b)
  | Json.bool a, Json.bool b => if a = b then none else some (Json.bool b)
  | Json.arr a, Json.arr b => if matchesArray a b then none else some (Json.arr b)
  | Json.null, Json.null => none
  | _, bv => some bv
end

/-- The library function `getDiff(a, b)` on two decoded objects. -/
def getDiff (a b : List (String × Json)) : List (String × Json) :=
  getDiffChanged a b ++ getDiffDeleted a b

/-- The library function `jsonpatch.CreateMergePatch(original, modified)` for
a pair of objects, the only case the labeller reaches; `none` stands for the
error return. -/
def CreateMergePatch (original modified : Json) : Option Json :=
  match original, modified with
  | Json.obj a, Json.obj b => some (Json.obj (getDiff a b))
  | _, _ => none

/-- What the first loop of `getDiff` records for one key, given the value
under that key on each side (`none`: the key is absent). -/
def memberDiff (key : String) (oa ob : Option Json) : List (String × Json) :=
  match ob with
  | none => []
  | some bv =>
    match oa with
    | none => [(key, bv)]
    | some av =>
      match diffValue av bv with
      | none => []
      | some d => [(key, d)]

/-- What the second loop of `getDiff` records for one key. -/
def memberDeleted (key : String) (oa ob : Option Json) : List (String × Json) :=
  match oa, ob with
  | some _, none => [(key, Json.null)]
  | _, _ => []

/-! ## Constants of the enclosing system -/

/-- The type `schema.GroupVersion`. -/
structure GroupVersion where
  Group : String
  Version : String

/-- The method `GroupVersion.String()`: `group/version`, or the bare version
for the core group. -/
def GroupVersion.toGoString (gv : GroupVersion) : String :=
  if gv.Group.length > 0 then gv.Group ++ "/" ++ gv.Version else gv.Version

/-- Constants that `labels.go` imports from sibling packages (`install`,
`ownerutil`, `decorators`, and the three operator API packages). Their
values live outside this file, so they are a parameter of the development. -/
structure Constants where
  OLMManagedLabelKey : String
  OLMManagedLabelValue : String
  OwnerKey : String
  OwnerNamespaceKey : String
  OwnerKind : String
  ComponentLabelKeyPrefix : String
  operatorsv1GroupVersion : GroupVersion
  operatorsv1alpha1SchemeGroupVersion : GroupVersion
  operatorsv1alpha2GroupVersion : GroupVersion

/-- The values the constants have in the operator-lifecycle-manager tree,
used for concrete examples. -/
def olmConstants : Constants where
  OLMManagedLabelKey := "olm.managed"
  OLMManagedLabelValue := "true"
  OwnerKey := "olm.owner"
  OwnerNamespaceKey := "olm.owner.namespace"
  OwnerKind := "olm.owner.kind"
  ComponentLabelKeyPrefix := "operators.coreos.com/"
  operatorsv1GroupVersion := ⟨"operators.coreos.com", "v1"⟩
  operatorsv1alpha1SchemeGroupVersion := ⟨"operators.coreos.com", "v1alpha1"⟩
  operatorsv1alpha2GroupVersion := ⟨"operators.coreos.com", "v1alpha2"⟩

/-! ## The marker predicate -/

/-- The function `hasLabel`. -/
def hasLabel {T : Type} [Object T] (c : Constants) (obj : T) : Bool :=
  let (value, ok) := mapIndex (Object.GetLabels obj) c.OLMManagedLabelKey
  ok && value == c.OLMManagedLabelValue

/-! ## Collaborators and effects -/

/-- A label selector as passed to `list`; `labels.Everything()` is
`Selector.Everything`. -/
inductive Selector where
  | Everything
  | Nothing
  | Requirements (reqs : List (String × String))

/-- The type `metav1.ApplyOptions`. -/
structure ApplyOptions where
  DryRun : List String
  Force : Bool
  FieldManager : String

/-- The type `metav1.PatchOptions`. -/
structure PatchOptions where
  DryRun : List String
  Force : Option Bool
  FieldManager : String
  FieldValidation : String

/-- The type `types.PatchType`. -/
inductive PatchType where
  | JSONPatchType
  | MergePatchType
  | StrategicMergePatchType
  | ApplyPatchType

/-- The interface `ApplyConfig[A]`. `WithLabels cfg entries` gives the
configuration that `cfg` denotes once the call has run, paired with the value
the call returns: a builder with a pointer receiver updates `cfg` in place
and returns it, one with a value receiver leaves `cfg` as it was. -/
class ApplyConfig (A : Type) where
  WithLabels : A → StringMap → A × A

/-- The dynamic value behind the `interface{}` argument of the sync handler:
either of the labeller's concrete type, or of some other Go type. -/
inductive Payload (T : Type) where
  | expected (obj : T)
  | foreign (goType : String)

/-- Severity of a log line. -/
inductive Level where
  | info
  | warn
  | error

/-- One observable step of a reconcile call, in program order. -/
inductive Call (T A : Type) where
  | check (obj : T)
  | list (selector : Selector)
  | done
  | applyConfigFor (name : String) (ns : String)
  | WithLabels (cfg : A) (entries : StringMap)
  | apply (ns : String) (cfg : A) (opts : ApplyOptions)
  | marshal (obj : T)
  | createMergePatch (oldData : Json) (newData : Json)
  | patch (name : String) (pt : PatchType) (data : Json) (opts : PatchOptions)
      (subresources : List String)
  | log (level : Level) (msg : String)
  | exit (code : Int)

/-- The error a reconcile call returns: one it builds itself, or the
collaborator's error handed back as it is. -/
inductive Error (E : Type) where
  | castingFailed (goType : String)
  | marshalFailed
  | createPatchFailed
  | fromClient (err : E)

/-- How a reconcile call ends: it returns an `error` (`none` is `nil`), or
the process is gone through `os.Exit`. -/
inductive Completion (E : Type) where
  | returned (err : Option (Error E))
  | exited (code : Int)

/-- Which of the three arms of the handler body ran. -/
inductive Branch where
  | typeError
  | skipAndCheck
  | mark
  deriving DecidableEq

/-- Everything one reconcile call does. -/
structure Run (T A E : Type) where
  branch : Branch
  trace : List (Call T A)
  completion : Completion E

/-- One iteration of the completion loop,
`gvrFullyLabelled = gvrFullyLabelled && (!check(item) || hasLabel(item))`,
on the flag and the calls made so far; `&&` skips `check` once the flag is
false. -/
def fullyLabelledStep {T A : Type} [Object T] (c : Constants) (check : T → Bool)
    (st : Bool × List (Call T A)) (item : T) : Bool × List (Call T A) :=
  if st.1 then (!check item || hasLabel c item, st.2 ++ [Call.check item])
  else (false, st.2)

/-! ## The two reconcilers

`ctx` and `logger` are left implicit: the context is only handed on to the
client call, and what the logger receives is part of the trace. The
collaborators `list`, `done`, `apply` and `patch` are each called at most once
per reconcile call, so a function of the arguments describes them fully;
`check` is taken to answer the same for the same object within one call. -/

/-- The sync handler returned by `ObjectLabeler(ctx, logger, check, list,
applyConfigFor, apply)(done)`, applied to `obj`. -/
def ObjectLabeler {T A E : Type} [Object T] [ApplyConfig A] (c : Constants)
    (check : T → Bool)
    (list : Selector → Except E (List T))
    (applyConfigFor : String → String → A)
    (apply : String → A → ApplyOptions → Except E T)
    (done : Unit → Bool) (obj : Payload T) : Run T A E :=
  match obj with
  | Payload.foreign goType =>
    { branch := Branch.typeError
      trace := [Call.log Level.error "casting failed"]
      completion := Completion.returned (some (Error.castingFailed goType)) }
  | Payload.expected cast =>
    if !check cast || hasLabel c cast then
      match list Selector.Everything with
      | Except.error _ =>
        { branch := Branch.skipAndCheck
          trace := [Call.check cast, Call.list Selector.Everything,
            Call.log Level.warn "failed to list all objects to check for labelling completion"]
          completion := Completion.returned none }
      | Except.ok items =>
        let loop := items.foldl (fullyLabelledStep c check) (true, [])
        let gvrFullyLabelled := loop.1
        let soFar := [Call.check cast, Call.list Selector.Everything] ++ loop.2
        if gvrFullyLabelled then
          let allObjectsLabelled := done ()
          if allObjectsLabelled then
            { branch := Branch.skipAndCheck
              trace := soFar ++ [Call.done,
                Call.log Level.info
                  "detected that every object is labelled, exiting to re-start the process...",
                Call.exit 0]
              completion := Completion.exited 0 }
          else
            { branch := Branch.skipAndCheck
              trace := soFar ++ [Call.done]
              completion := Completion.returned none }
        else
          { branch := Branch.skipAndCheck
            trace := soFar
            completion := Completion.returned none }
    else
      let cfg := applyConfigFor (Object.GetName cast) (Object.GetNamespace cast)
      let entries := StringMap.singleton c.OLMManagedLabelKey c.OLMManagedLabelValue
      let cfg' := (ApplyConfig.WithLabels cfg entries).1
      let opts : ApplyOptions :=
        { DryRun := [], Force := false, FieldManager := "olm-ownership-labeller" }
      { branch := Branch.mark
        trace := [Call.check cast,
          Call.log Level.info "applying ownership label",
          Call.applyConfigFor (Object.GetName cast) (Object.GetNamespace cast),
          Call.WithLabels cfg entries,
          Call.apply (Object.GetNamespace cast) cfg' opts]
        completion :=
          match apply (Object.GetNamespace cast) cfg' opts with
          | Except.ok _ => Completion.returned none
          | Except.error err => Completion.returned (some (Error.fromClient err)) }

/-- The "before" snapshot of `ObjectPatchLabeler`:
`previous := cast.DeepCopy(); previous.SetUID(""); previous.SetResourceVersion("")`. -/
def previousSnapshot (cast : PartialObjectMetadata) : PartialObjectMetadata :=
  (cast.DeepCopy.SetUID "").SetResourceVersion ""

/-- The "after" snapshot of `ObjectPatchLabeler`: a deep copy with the UID and
resource version set to the observed ones and the marker written into its
label map; `getD StringMap.empty` is the `if labels == nil` assignment of a
fresh map. -/
def updatedSnapshot (c : Constants) (cast : PartialObjectMetadata) : PartialObjectMetadata :=
  let uid := Object.GetUID cast
  let rv := Object.GetResourceVersion cast
  let updated := (cast.DeepCopy.SetUID uid).SetResourceVersion rv
  let labels := (Object.GetLabels updated).getD StringMap.empty
  let labels := labels.set c.OLMManagedLabelKey c.OLMManagedLabelValue
  updated.SetLabels labels

/-- The sync handler returned by `ObjectPatchLabeler(ctx, logger, check, list,
patch)(done)`, applied to `obj`. -/
def ObjectPatchLabeler {E R : Type} (c : Constants)
    (check : PartialObjectMetadata → Bool)
    (list : Selector → Except E (List PartialObjectMetadata))
    (patch : String → PatchType → Json → PatchOptions → List String → Except E R)
    (done : Unit → Bool) (obj : Payload PartialObjectMetadata) :
    Run PartialObjectMetadata Empty E :=
  match obj with
  | Payload.foreign goType =>
    { branch := Branch.typeError
      trace := [Call.log Level.error "casting failed"]
      completion := Completion.returned (some (Error.castingFailed goType)) }
  | Payload.expected cast =>
    if !check cast || hasLabel c cast then
      match list Selector.Everything with
      | Except.error _ =>
        { branch := Branch.skipAndCheck
          trace := [Call.check cast, Call.list Selector.Everything,
            Call.log Level.warn "failed to list all objects to check for labelling completion"]
          completion := Completion.returned none }
      | Except.ok items =>
        let loop := items.foldl (fullyLabelledStep c check) (true, [])
        let gvrFullyLabelled := loop.1
        let soFar := [Call.check cast, Call.list Selector.Everything] ++ loop.2
        if gvrFullyLabelled then
          let allObjectsLabelled := done ()
          if allObjectsLabelled then
            { branch := Branch.skipAndCheck
              trace := soFar ++ [Call.done,
                Call.log Level.info
                  "detected that every object is labelled, exiting to re-start the process...",
                Call.exit 0]
              completion := Completion.exited 0 }
          else
            { branch := Branch.skipAndCheck
              trace := soFar ++ [Call.done]
              completion := Completion.returned none }
        else
          { branch := Branch.skipAndCheck
            trace := soFar
            completion := Completion.returned none }
    else
      let previous := previousSnapshot cast
      match jsonMarshal previous with
      | none =>
        { branch := Branch.mark
          trace := [Call.check cast, Call.marshal previous]
          completion := Completion.returned (some Error.marshalFailed) }
      | some oldData =>
        let updated := updatedSnapshot c cast
        match jsonMarshal updated with
        | none =>
          { branch := Branch.mark
            trace := [Call.check cast, Call.marshal previous, Call.marshal updated]
            completion := Completion.returned (some Error.marshalFailed) }
        | some newData =>
          let soFar := [Call.check cast, Call.marshal previous, Call.marshal updated,
            Call.log Level.info "patching ownership label",
            Call.createMergePatch oldData newData]
          match CreateMergePatch oldData newData with
          | none =>
            { branch := Branch.mark
              trace := soFar
              completion := Completion.returned (some Error.createPatchFailed) }
          | some patchBytes =>
            let opts : PatchOptions :=
              { DryRun := [], Force := none, FieldManager := "olm-ownership-labeller",
                FieldValidation := "" }
            { branch := Branch.mark
              trace := soFar ++
                [Call.patch (Object.GetName cast) PatchType.MergePatchType patchBytes opts []]
              completion :=
                match patch (Object.GetName cast) PatchType.MergePatchType patchBytes opts [] with
                | Except.ok _ => Completion.returned none
                | Except.error err => Completion.returned (some (Error.fromClient err)) }

/-! ## Ownership classification -/

/-- The function `HasOLMOwnerRef`. The nested loops return `true` at the
first owner reference whose API version is one of the three group-versions;
otherwise the three owner labels are looked up in turn. -/
def HasOLMOwnerRef {T : Type} [Object T] (c : Constants) (object : T) : Bool :=
  if (Object.GetOwnerReferences object).any (fun ref =>
      [c.operatorsv1GroupVersion, c.operatorsv1alpha1SchemeGroupVersion,
        c.operatorsv1alpha2GroupVersion].any
        (fun gv => ref.APIVersion == gv.toGoString)) then
    true
  else
    [c.OwnerKey, c.OwnerNamespaceKey, c.OwnerKind].foldl
      (fun hasOLMOwnerLabels label =>
        let (_, found) := mapIndex (Object.GetLabels object) label
        hasOLMOwnerLabels && found)
      true

/-! ## Observations on traces -/

/-- Whether a call is a submission to the cluster, `apply` or `patch`. -/
def Call.isSubmission {T A : Type} : Call T A → Bool
  | Call.apply _ _ _ => true
  | Call.patch _ _ _ _ _ => true
  | _ => false

/-- The call with the apply configuration it carries forgotten, so that
traces of labellers over different configuration types can be compared. -/
def Call.eraseConfig {T A : Type} : Call T A → Call T Unit
  | Call.check obj => Call.check obj
  | Call.list selector => Call.list selector
  | Call.done => Call.done
  | Call.applyConfigFor name ns => Call.applyConfigFor name ns
  | Call.WithLabels _ entries => Call.WithLabels () entries
  | Call.apply ns _ opts => Call.apply ns () opts
  | Call.marshal obj => Call.marshal obj
  | Call.createMergePatch oldData newData => Call.createMergePatch oldData newData
  | Call.patch name pt data opts subresources => Call.patch name pt data opts subresources
  | Call.log level msg => Call.log level msg
  | Call.exit code => Call.exit code

/-! ## Component labels -/

/-- The function `strings.HasPrefix(s, pre)`. Go compares bytes; on the valid
UTF-8 that label keys are, a byte prefix is a prefix of characters. -/
def HasPrefix (s pre : String) : Bool := pre.data.isPrefixOf s.data

/-- The keys that `for key := range m` visits; none for a nil map. -/
def rangeKeys (m : Option StringMap) : List String :=
  match m with
  | none => []
  | some m => m.keys

/-- The function `HasOLMLabel`: the loop returns `true` at the first key with
the component prefix. -/
def HasOLMLabel {T : Type} [Object T] (c : Constants) (object : T) : Bool :=
  (rangeKeys (Object.GetLabels object)).any
    (fun key => HasPrefix key c.ComponentLabelKeyPrefix)

/-! ## Snapshots in memory -/

/-- A `PartialObjectMetadata` struct in memory. Its label map is a reference:
`labels` is the address of the map, `none` for a nil map. The other fields are
those of `fields`, whose own `Labels` is not read. -/
structure StoredObject where
  fields : PartialObjectMetadata
  labels : Option Nat

/-- Go memory as far as the snapshots go: the maps and the structs that have
been allocated, each at the address that is its position. -/
structure Memory where
  maps : List StringMap
  objs : List StoredObject

namespace Memory

/-- The value of the struct at address `p`, its label map read through the
reference; `none` when `p` or the reference is not allocated. -/
def load (μ : Memory) (p : Nat) : Option PartialObjectMetadata :=
  match μ.objs[p]? with
  | none => none
  | some s =>
    match s.labels with
    | none =>
      some { s.fields with ObjectMeta := { s.fields.ObjectMeta with Labels := none } }
    | some r =>
      match μ.maps[r]? with
      | none => none
      | some m =>
        some { s.fields with ObjectMeta := { s.fields.ObjectMeta with Labels := some m } }

/-- The generated `DeepCopy` on the struct at `p`: a new struct with the same
fields and, when the label map is not nil, a new map with the same entries. -/
def DeepCopy (μ : Memory) (p : Nat) : Option (Memory × Nat) :=
  match μ.objs[p]? with
  | none => none
  | some s =>
    match s.labels with
    | none =>
      some ({ μ with objs := μ.objs ++ [{ fields := s.fields, labels := none }] },
        μ.objs.length)
    | some r =>
      match μ.maps[r]? with
      | none => none
      | some m =>
        some ({ maps := μ.maps ++ [m],
                objs := μ.objs ++ [{ fields := s.fields, labels := some μ.maps.length }] },
          μ.objs.length)

/-- The getter `GetUID` through the pointer `p`. -/
def GetUID (μ : Memory) (p : Nat) : Option String :=
  μ.objs[p]?.map (fun s => s.fields.ObjectMeta.UID)

/-- The getter `GetResourceVersion` through the pointer `p`. -/
def GetResourceVersion (μ : Memory) (p : Nat) : Option String :=
  μ.objs[p]?.map (fun s => s.fields.ObjectMeta.ResourceVersion)

/-- The getter `GetLabels` through the pointer `p`: the map reference held by
the struct. -/
def GetLabels (μ : Memory) (p : Nat) : Option (Option Nat) :=
  μ.objs[p]?.map (fun s => s.labels)

/-- The setter `SetUID` through the pointer `p`. -/
def SetUID (μ : Memory) (p : Nat) (uid : String) : Option Memory :=
  μ.objs[p]?.map (fun s =>
    { μ with objs := μ.objs.set p { s with fields := s.fields.SetUID uid } })

/-- The setter `SetResourceVersion` through the pointer `p`. -/
def SetResourceVersion (μ : Memory) (p : Nat) (rv : String) : Option Memory :=
  μ.objs[p]?.map (fun s =>
    { μ with objs := μ.objs.set p { s with fields := s.fields.SetResourceVersion rv } })

/-- The setter `SetLabels` through the pointer `p`: the struct now refers to
the map at `r`. -/
def SetLabels (μ : Memory) (p : Nat) (r : Nat) : Option Memory :=
  μ.objs[p]?.map (fun s => { μ with objs := μ.objs.set p { s with labels := some r } })

/-- The expression `map[string]string{}`: a new, empty map. -/
def makeMap (μ : Memory) : Memory × Nat :=
  ({ μ with maps := μ.maps ++ [StringMap.empty] }, μ.maps.length)

/-- The statement `if labels == nil { labels = map[string]string{} }`. -/
def orMakeMap (μ : Memory) (labels : Option Nat) : Memory × Nat :=
  match labels with
  | none => μ.makeMap
  | some r => (μ, r)

/-- The assignment `labels[k] = v` on the map at address `r`. -/
def mapAssign (μ : Memory) (r : Nat) (k v : String) : Option Memory :=
  μ.maps[r]?.map (fun m => { μ with maps := μ.maps.set r (m.set k v) })

end Memory

/-- Lines 134 to 156 of `ObjectPatchLabeler` run on memory, with `cast` a
pointer: the two snapshots are built by `DeepCopy`, setters and one map
assignment. The result is the memory afterwards and the pointers `previous`
and `updated`; `none` stands for a nil dereference. -/
def buildSnapshots (c : Constants) (μ : Memory) (cast : Nat) : Option (Memory × Nat × Nat) :=
  (μ.GetUID cast).bind fun uid =>
  (μ.GetResourceVersion cast).bind fun rv =>
  (μ.DeepCopy cast).bind fun copied =>
  let previous := copied.2
  (copied.1.SetUID previous "").bind fun μ =>
  (μ.SetResourceVersion previous "").bind fun μ =>
  (μ.DeepCopy cast).bind fun copied =>
  let updated := copied.2
  (copied.1.SetUID updated uid).bind fun μ =>
  (μ.SetResourceVersion updated rv).bind fun μ =>
  (μ.GetLabels updated).bind fun labels =>
  let made := μ.orMakeMap labels
  (made.1.mapAssign made.2 c.OLMManagedLabelKey c.OLMManagedLabelValue).bind fun μ =>
  (μ.SetLabels updated made.2).bind fun μ =>
  some (μ, previous, updated)

/-! ## Applying a merge patch and decoding the result -/

/-- The statement `delete(m, k)` on an association list. -/
def assocErase {β : Type} (k : String) (l : List (String × β)) : List (String × β) :=
  l.filter (fun kv => !(kv.1 == k))

/-- The members of a document that is an object; a document that is not an
object has none. -/
def Json.members : Json → List (String × Json)
  | Json.obj ms => ms
  | _ => []

mutual
/-- The function `MergePatch(Target, Patch)` of RFC 7386, which the API server
runs for a patch of type `MergePatchType`. -/
def MergePatch (target : Json) : Json → Json
  | Json.obj patchMembers => Json.obj (mergeMembers target.members patchMembers)
  | patch => patch
/-- The loop of `MergePatch` over the members of the patch: a `null` removes
the name from the target, any other value is merged into what the target has
under that name. -/
def mergeMembers (target : List (String × Json)) :
    List (String × Json) → List (String × Json)
  | [] => target
  | (name, value) :: rest =>
    match value with
    | Json.null => mergeMembers (assocErase name target) rest
    | _ =>
      mergeMembers
        (assocSet name (MergePatch ((assocLookup name target).getD Json.null) value) target)
        rest
end

/-- `json.Unmarshal` into a `string` field: an absent member or `null` leaves
the zero value, a string is stored, any other document is an error. -/
def unmarshalString : Option Json → Option String
  | none => some ""
  | some Json.null => some ""
  | some (Json.str s) => some s
  | some _ => none

/-- `json.Unmarshal` into an `int64` field. -/
def unmarshalInt : Option Json → Option Int
  | none => some 0
  | some Json.null => some 0
  | some (Json.num n) => some n
  | some _ => none

/-- `json.Unmarshal` into a field that may stay unset: a time or a `*Time`,
kept in serialized form. -/
def unmarshalOptionalString : Option Json → Option (Option String)
  | none => some none
  | some Json.null => some none
  | some (Json.str s) => some (some s)
  | some _ => none

/-- `json.Unmarshal` into an `*int64` field. -/
def unmarshalOptionalInt : Option Json → Option (Option Int)
  | none => some none
  | some Json.null => some none
  | some (Json.num n) => some (some n)
  | some _ => none

/-- `json.Unmarshal` into a `*bool` field. -/
def unmarshalOptionalBool : Option Json → Option (Option Bool)
  | none => some none
  | some Json.null => some none
  | some (Json.bool b) => some (some b)
  | some _ => none

/-- The members of a JSON object written one by one into a Go map, in document
order; a value that is not a string is an error. -/
def unmarshalEntries (acc : StringMap) : List (String × Json) → Option StringMap
  | [] => some acc
  | (k, Json.str s) :: rest => unmarshalEntries (acc.set k s) rest
  | (k, Json.null) :: rest => unmarshalEntries (acc.set k "") rest
  | _ :: _ => none

/-- `json.Unmarshal` into a `map[string]string` field: absent or `null` leaves
the map nil, an object gives a map with its members. -/
def unmarshalStringMap : Option Json → Option (Option StringMap)
  | none => some none
  | some Json.null => some none
  | some (Json.obj ms) => (unmarshalEntries StringMap.empty ms).map some
  | some _ => none

/-- Every item of a JSON array decoded with `f`; one error fails the whole. -/
def unmarshalItems {α : Type} (f : Json → Option α) : List Json → Option (List α)
  | [] => some []
  | x :: xs =>
    match f x with
    | none => none
    | some a => (unmarshalItems f xs).map (fun as => a :: as)

/-- `json.Unmarshal` into a slice field: absent or `null` leaves the slice
nil, an array gives its decoded items. -/
def unmarshalSlice {α : Type} (f : Json → Option α) : Option Json → Option (List α)
  | none => some []
  | some Json.null => some []
  | some (Json.arr items) => unmarshalItems f items
  | some _ => none

/-- `json.Unmarshal` of one string item. -/
def unmarshalStringItem : Json → Option String
  | Json.str s => some s
  | Json.null => some ""
  | _ => none

/-- `json.Unmarshal` into an `OwnerReference`. -/
def unmarshalOwnerReference (j : Json) : Option OwnerReference :=
  match j with
  | Json.obj ms =>
    (unmarshalString (assocLookup "apiVersion" ms)).bind fun apiVersion =>
    (unmarshalString (assocLookup "kind" ms)).bind fun kind =>
    (unmarshalString (assocLookup "name" ms)).bind fun name =>
    (unmarshalString (assocLookup "uid" ms)).bind fun uid =>
    (unmarshalOptionalBool (assocLookup "controller" ms)).bind fun controller =>
    (unmarshalOptionalBool (assocLookup "blockOwnerDeletion" ms)).bind fun block =>
    some { APIVersion := apiVersion, Kind := kind, Name := name, UID := uid,
           Controller := controller, BlockOwnerDeletion := block }
  | _ => none

/-- `json.Unmarshal` of the members under `metadata` into an `ObjectMeta`. -/
def unmarshalObjectMeta (ms : List (String × Json)) : Option ObjectMeta :=
  (unmarshalString (assocLookup "name" ms)).bind fun name =>
  (unmarshalString (assocLookup "generateName" ms)).bind fun generateName =>
  (unmarshalString (assocLookup "namespace" ms)).bind fun ns =>
  (unmarshalString (assocLookup "selfLink" ms)).bind fun selfLink =>
  (unmarshalString (assocLookup "uid" ms)).bind fun uid =>
  (unmarshalString (assocLookup "resourceVersion" ms)).bind fun resourceVersion =>
  (unmarshalInt (assocLookup "generation" ms)).bind fun generation =>
  (unmarshalOptionalString (assocLookup "creationTimestamp" ms)).bind fun created =>
  (unmarshalOptionalString (assocLookup "deletionTimestamp" ms)).bind fun deleted =>
  (unmarshalOptionalInt (assocLookup "deletionGracePeriodSeconds" ms)).bind fun grace =>
  (unmarshalStringMap (assocLookup "labels" ms)).bind fun labels =>
  (unmarshalStringMap (assocLookup "annotations" ms)).bind fun annotations =>
  (unmarshalSlice unmarshalOwnerReference (assocLookup "ownerReferences" ms)).bind fun owners =>
  (unmarshalSlice unmarshalStringItem (assocLookup "finalizers" ms)).bind fun finalizers =>
  some { Name := name, GenerateName := generateName, Namespace := ns, SelfLink := selfLink,
         UID := uid, ResourceVersion := resourceVersion, Generation := generation,
         CreationTimestamp := created, DeletionTimestamp := deleted,
         DeletionGracePeriodSeconds := grace, Labels := labels, Annotations := annotations,
         OwnerReferences := owners, Finalizers := finalizers }

/-- The call `json.Unmarshal(data, &obj)` for a `PartialObjectMetadata`; `none`
is the error return. -/
def jsonUnmarshal (doc : Json) : Option PartialObjectMetadata :=
  match doc with
  | Json.obj ms =>
    (unmarshalString (assocLookup "kind" ms)).bind fun kind =>
    (unmarshalString (assocLookup "apiVersion" ms)).bind fun apiVersion =>
    (unmarshalObjectMeta ((assocLookup "metadata" ms).getD Json.null).members).bind fun m =>
    some { TypeMeta := { Kind := kind, APIVersion := apiVersion }, ObjectMeta := m }
  | _ => none

/-- What the API server stores for a merge patch on the object `o`: the
object is serialized, the patch merged into the document, and the document
decoded. Validation and admission are left out. -/
def applyMergePatch (o : PartialObjectMetadata) (patch : Json) :
    Option PartialObjectMetadata :=
  (jsonMarshal o).bind fun doc => jsonUnmarshal (MergePatch doc patch)

/-! ## A concrete setting for examples -/

/-- An apply configuration shaped like the builders that client-go generates:
identity plus an optional label map. -/
structure MetaApplyConfiguration where
  Name : Option String
  Namespace : Option String
  Labels : Option StringMap

/-- The generated builder method `WithLabels`: it has a pointer receiver,
creates the label map when it is nil and there is something to add, writes
every entry into it, and returns the receiver. -/
def MetaApplyConfiguration.WithLabels (b : MetaApplyConfiguration) (entries : StringMap) :
    MetaApplyConfiguration :=
  match entries.entries with
  | [] => b
  | kv :: rest =>
    { b with
      Labels := some ((kv :: rest).foldl (fun m e => m.set e.1 e.2)
        (match b.Labels with
         | none => StringMap.empty
         | some m => m)) }

instance : ApplyConfig MetaApplyConfiguration where
  WithLabels b entries := (b.WithLabels entries, b.WithLabels entries)

/-- A constructor in the style of `applyconfigurations` packages: name and
namespace set, nothing else. -/
def newMetaApplyConfiguration (name ns : String) : MetaApplyConfiguration :=
  { Name := some name, Namespace := some ns, Labels := none }

/-- An object with the given name and labels, UID `u-1` and resource version
`42`, and no other metadata. -/
def exampleObject (name : String) (labels : Option StringMap) : PartialObjectMetadata :=
  { TypeMeta := { Kind := "CustomResourceDefinition", APIVersion := "apiextensions.k8s.io/v1" }
    ObjectMeta :=
      { Name := name, GenerateName := "", Namespace := "", SelfLink := "", UID := "u-1",
        ResourceVersion := "42", Generation := 1, CreationTimestamp := none,
        DeletionTimestamp := none, DeletionGracePeriodSeconds := none, Labels := labels,
        Annotations := none, OwnerReferences := [], Finalizers := [] } }

/-- The label map `{"a": "1"}`. -/
def unmarkedLabels : StringMap := ⟨[("a", "1")], by simp⟩

/-- The label map `{"a": "1", "olm.managed": "true"}`. -/
def markedLabels : StringMap := ⟨[("a", "1"), ("olm.managed", "true")], by decide⟩

/-- The label map `{"olm.managed": "false"}`: marker key, wrong value. -/
def wrongValueLabels : StringMap := ⟨[("olm.managed", "false")], by simp⟩

/-- A constructor that hands out a configuration which already carries the
label `a: 1`, next to name and namespace. -/
def labelledMetaApplyConfiguration (name ns : String) : MetaApplyConfiguration :=
  { Name := some name, Namespace := some ns, Labels := some unmarkedLabels }

/-- An apply configuration with the same fields whose methods have a value
receiver. -/
structure ValueApplyConfiguration where
  Name : Option String
  Namespace : Option String
  Labels : Option StringMap

/-- A builder method `WithLabels` with a value receiver: it sets the labels
of its copy of the configuration and returns that copy. -/
def ValueApplyConfiguration.WithLabels (b : ValueApplyConfiguration) (entries : StringMap) :
    ValueApplyConfiguration :=
  { b with Labels := some entries }

instance : ApplyConfig ValueApplyConfiguration where
  WithLabels b entries := (b, b.WithLabels entries)

/-- A constructor for the value-receiver configuration: name and namespace
set, nothing else. -/
def newValueApplyConfiguration (name ns : String) : ValueApplyConfiguration :=
  { Name := some name, Namespace := some ns, Labels := none }

/-- A memory holding one struct, `crd` with UID `u-1`, whose label map
`{"a": "1"}` is at address 0. -/
def exampleMemory : Memory :=
  { maps := [unmarkedLabels], objs := [{ fields := exampleObject "crd" none, labels := some 0 }] }

/-! ## Basic facts about maps and the marker -/

theorem assocLookup_assocSet {β : Type} (k : String) (v : β) (k' : String) :
    ∀ l : List (String × β),
      assocLookup k' (assocSet k v l) = if k' = k then some v else assocLookup k' l
  | [] => by
    by_cases h : k' = k
    · simp [assocSet, assocLookup, h]
    · have h' : ¬ k = k' := fun e => h e.symm
      simp [assocSet, assocLookup, h, h']
  | (k1, v1) :: rest => by
    have ih := assocLookup_assocSet k v k' rest
    by_cases h1 : k1 = k
    · subst h1
      by_cases h : k' = k1
      · simp [assocSet, assocLookup, h]
      · have h' : ¬ k1 = k' := fun e => h e.symm
        simp [assocSet, assocLookup, h, h']
    · by_cases h : k1 = k'
      · subst h
        simp [assocSet, assocLookup, h1]
      · simp [assocSet, assocLookup, h1, h, ih]

theorem StringMap.lookup_set (m : StringMap) (k v k' : String) :
    (m.set k v).lookup k' = if k' = k then some v else m.lookup k' :=
  assocLookup_assocSet k v k' m.entries

theorem mapIndex_snd (m : Option StringMap) (k : String) :
    (mapIndex m k).2 = true ↔ ∃ l v, m = some l ∧ l.lookup k = some v := by
  cases m with
  | none => simp [mapIndex]
  | some l =>
    cases h : l.lookup k with
    | none => simp [mapIndex, h]
    | some v => simp [mapIndex, h]

theorem hasLabel_eq_true_iff {T : Type} [Object T] (c : Constants) (obj : T) :
    hasLabel c obj = true ↔
      ∃ m, Object.GetLabels obj = some m ∧
        m.lookup c.OLMManagedLabelKey = some c.OLMManagedLabelValue := by
  unfold hasLabel
  cases hl : Object.GetLabels obj with
  | none => simp [mapIndex]
  | some l =>
    cases h : l.lookup c.OLMManagedLabelKey with
    | none => simp [mapIndex, h]
    | some v => simp [mapIndex, h]

/-! ## The completion loop -/

theorem foldl_fullyLabelledStep_fst {T A : Type} [Object T] (c : Constants)
    (check : T → Bool) :
    ∀ (items : List T) (b : Bool) (tr : List (Call T A)),
      (items.foldl (fullyLabelledStep c check) (b, tr)).1 =
        (b && items.all (fun item => !check item || hasLabel c item))
  | [], b, tr => by simp
  | item :: rest, b, tr => by
    cases b with
    | false =>
      simp only [List.foldl_cons, fullyLabelledStep]
      rw [foldl_fullyLabelledStep_fst c check rest]
      simp
    | true =>
      simp only [List.foldl_cons, fullyLabelledStep, if_true]
      rw [foldl_fullyLabelledStep_fst c check rest]
      simp

theorem foldl_fullyLabelledStep_snd {T A : Type} [Object T] (c : Constants)
    (check : T → Bool) :
    ∀ (items : List T) (b : Bool) (tr : List (Call T A)) (e : Call T A),
      e ∈ (items.foldl (fullyLabelledStep c check) (b, tr)).2 →
        e ∈ tr ∨ ∃ item, item ∈ items ∧ e = Call.check item
  | [], b, tr, e, h => by simpa using h
  | item :: rest, b, tr, e, h => by
    cases b with
    | false =>
      simp only [List.foldl_cons, fullyLabelledStep] at h
      rcases foldl_fullyLabelledStep_snd c check rest _ _ e h with h1 | ⟨i, hi, he⟩
      · exact Or.inl h1
      · exact Or.inr ⟨i, List.mem_cons_of_mem _ hi, he⟩
    | true =>
      simp only [List.foldl_cons, fullyLabelledStep, if_true] at h
      rcases foldl_fullyLabelledStep_snd c check rest _ _ e h with h1 | ⟨i, hi, he⟩
      · rcases List.mem_append.mp h1 with h2 | h2
        · exact Or.inl h2
        · exact Or.inr ⟨item, List.mem_cons_self _ _, by simpa using h2⟩
      · exact Or.inr ⟨i, List.mem_cons_of_mem _ hi, he⟩

/-! ## Closed forms of the three arms -/

theorem ObjectLabeler_skip_ok {T A E : Type} [Object T] [ApplyConfig A] (c : Constants)
    (check : T → Bool) (list : Selector → Except E (List T))
    (applyConfigFor : String → String → A)
    (apply : String → A → ApplyOptions → Except E T)
    (done : Unit → Bool) (cast : T) (items : List T)
    (hs : (!check cast || hasLabel c cast) = true)
    (hl : list Selector.Everything = Except.ok items) :
    ObjectLabeler c check list applyConfigFor apply done (Payload.expected cast) =
      { branch := Branch.skipAndCheck
        trace := [Call.check cast, Call.list Selector.Everything] ++
          (items.foldl (fullyLabelledStep c check) (true, [])).2 ++
          (if (items.all (fun item => !check item || hasLabel c item)) = true then
            (if done () = true then
              [Call.done,
                Call.log Level.info
                  "detected that every object is labelled, exiting to re-start the process...",
                Call.exit 0]
            else [Call.done])
          else [])
        completion :=
          if (items.all (fun item => !check item || hasLabel c item) && done ()) = true then
            Completion.exited 0
          else Completion.returned none } := by
  unfold ObjectLabeler
  simp only [hs, if_true, hl, foldl_fullyLabelledStep_fst, Bool.true_and]
  by_cases hall : (items.all fun item => !check item || hasLabel c item) = true
  · by_cases hd : done () = true
    · simp [hall, hd]
    · simp [hall, hd]
  · simp [hall]

theorem ObjectLabeler_skip_error {T A E : Type} [Object T] [ApplyConfig A] (c : Constants)
    (check : T → Bool) (list : Selector → Except E (List T))
    (applyConfigFor : String → String → A)
    (apply : String → A → ApplyOptions → Except E T)
    (done : Unit → Bool) (cast : T) (err : E)
    (hs : (!check cast || hasLabel c cast) = true)
    (hl : list Selector.Everything = Except.error err) :
    ObjectLabeler c check list applyConfigFor apply done (Payload.expected cast) =
      { branch := Branch.skipAndCheck
        trace := [Call.check cast, Call.list Selector.Everything,
          Call.log Level.warn "failed to list all objects to check for labelling completion"]
        completion := Completion.returned none } := by
  unfold ObjectLabeler
  simp only [hs, if_true, hl]

theorem ObjectLabeler_mark {T A E : Type} [Object T] [ApplyConfig A] (c : Constants)
    (check : T → Bool) (list : Selector → Except E (List T))
    (applyConfigFor : String → String → A)
    (apply : String → A → ApplyOptions → Except E T)
    (done : Unit → Bool) (cast : T)
    (hs : (!check cast || hasLabel c cast) = false) :
    ObjectLabeler c check list applyConfigFor apply done (Payload.expected cast) =
      { branch := Branch.mark
        trace := [Call.check cast,
          Call.log Level.info "applying ownership label",
          Call.applyConfigFor (Object.GetName cast) (Object.GetNamespace cast),
          Call.WithLabels (applyConfigFor (Object.GetName cast) (Object.GetNamespace cast))
            (StringMap.singleton c.OLMManagedLabelKey c.OLMManagedLabelValue),
          Call.apply (Object.GetNamespace cast)
            (ApplyConfig.WithLabels
              (applyConfigFor (Object.GetName cast) (Object.GetNamespace cast))
              (StringMap.singleton c.OLMManagedLabelKey c.OLMManagedLabelValue)).1
            { DryRun := [], Force := false, FieldManager := "olm-ownership-labeller" }]
        completion :=
          match apply (Object.GetNamespace cast)
            (ApplyConfig.WithLabels
              (applyConfigFor (Object.GetName cast) (Object.GetNamespace cast))
              (StringMap.singleton c.OLMManagedLabelKey c.OLMManagedLabelValue)).1
            { DryRun := [], Force := false, FieldManager := "olm-ownership-labeller" } with
          | Except.ok _ => Completion.returned none
          | Except.error err => Completion.returned (some (Error.fromClient err)) } := by
  unfold ObjectLabeler
  simp only [hs]
  rfl

theorem ObjectPatchLabeler_skip_ok {E R : Type} (c : Constants)
    (check : PartialObjectMetadata → Bool)
    (list : Selector → Except E (List PartialObjectMetadata))
    (patch : String → PatchType → Json → PatchOptions → List String → Except E R)
    (done : Unit → Bool) (cast : PartialObjectMetadata) (items : List PartialObjectMetadata)
    (hs : (!check cast || hasLabel c cast) = true)
    (hl : list Selector.Everything = Except.ok items) :
    ObjectPatchLabeler c check list patch done (Payload.expected cast) =
      { branch := Branch.skipAndCheck
        trace := [Call.check cast, Call.list Selector.Everything] ++
          (items.foldl (fullyLabelledStep c check) (true, [])).2 ++
          (if (items.all (fun item => !check item || hasLabel c item)) = true then
            (if done () = true then
              [Call.done,
                Call.log Level.info
                  "detected that every object is labelled, exiting to re-start the process...",
                Call.exit 0]
            else [Call.done])
          else [])
        completion :=
          if (items.all (fun item => !check item || hasLabel c item) && done ()) = true then
            Completion.exited 0
          else Completion.returned none } := by
  unfold ObjectPatchLabeler
  simp only [hs, if_true, hl, foldl_fullyLabelledStep_fst, Bool.true_and]
  by_cases hall : (items.all fun item => !check item || hasLabel c item) = true
  · by_cases hd : done () = true
    · simp [hall, hd]
    · simp [hall, hd]
  · simp [hall]

theorem ObjectPatchLabeler_skip_error {E R : Type} (c : Constants)
    (check : PartialObjectMetadata → Bool)
    (list : Selector → Except E (List PartialObjectMetadata))
    (patch : String → PatchType → Json → PatchOptions → List String → Except E R)
    (done : Unit → Bool) (cast : PartialObjectMetadata) (err : E)
    (hs : (!check cast || hasLabel c cast) = true)
    (hl : list Selector.Everything = Except.error err) :
    ObjectPatchLabeler c check list patch done (Payload.expected cast) =
      { branch := Branch.skipAndCheck
        trace := [Call.check cast, Call.list Selector.Everything,
          Call.log Level.warn "failed to list all objects to check for labelling completion"]
        completion := Completion.returned none } := by
  unfold ObjectPatchLabeler
  simp only [hs, if_true, hl]

theorem ObjectPatchLabeler_mark {E R : Type} (c : Constants)
    (check : PartialObjectMetadata → Bool)
    (list : Selector → Except E (List PartialObjectMetadata))
    (patch : String → PatchType → Json → PatchOptions → List String → Except E R)
    (done : Unit → Bool) (cast : PartialObjectMetadata)
    (hs : (!check cast || hasLabel c cast) = false) :
    ObjectPatchLabeler c check list patch done (Payload.expected cast) =
      { branch := Branch.mark
        trace := [Call.check cast, Call.marshal (previousSnapshot cast),
          Call.marshal (updatedSnapshot c cast),
          Call.log Level.info "patching ownership label",
          Call.createMergePatch
            (Json.obj (structMembers (partialObjectMetadataFields (previousSnapshot cast))))
            (Json.obj (structMembers (partialObjectMetadataFields (updatedSnapshot c cast)))),
          Call.patch (Object.GetName cast) PatchType.MergePatchType
            (Json.obj (getDiff
              (structMembers (partialObjectMetadataFields (previousSnapshot cast)))
              (structMembers (partialObjectMetadataFields (updatedSnapshot c cast)))))
            { DryRun := [], Force := none, FieldManager := "olm-ownership-labeller",
              FieldValidation := "" } []]
        completion :=
          match patch (Object.GetName cast) PatchType.MergePatchType
            (Json.obj (getDiff
              (structMembers (partialObjectMetadataFields (previousSnapshot cast)))
              (structMembers (partialObjectMetadataFields (updatedSnapshot c cast)))))
            { DryRun := [], Force := none, FieldManager := "olm-ownership-labeller",
              FieldValidation := "" } [] with
          | Except.ok _ => Completion.returned none
          | Except.error err => Completion.returned (some (Error.fromClient err)) } := by
  unfold ObjectPatchLabeler
  simp only [hs]
  rfl

/-! ## What the skip-and-check arm can do -/

/-- Calls of the skip-and-check arm after a successful listing. -/
theorem mem_skip_trace {T A : Type} [Object T] (c : Constants) (check : T → Bool)
    (cast : T) (items : List T) (d : Bool) (e : Call T A)
    (h : e ∈ [Call.check cast, Call.list Selector.Everything] ++
          (items.foldl (fullyLabelledStep c check) (true, [])).2 ++
          (if (items.all (fun item => !check item || hasLabel c item)) = true then
            (if d = true then
              [Call.done,
                Call.log Level.info
                  "detected that every object is labelled, exiting to re-start the process...",
                Call.exit 0]
            else [Call.done])
          else [])) :
    (∃ x, e = Call.check x) ∨ e = Call.list Selector.Everything ∨
      (e = Call.done ∧ (items.all (fun item => !check item || hasLabel c item)) = true) ∨
      ((∃ m, e = Call.log Level.info m) ∧ d = true ∧
        (items.all (fun item => !check item || hasLabel c item)) = true) ∨
      (e = Call.exit 0 ∧ d = true ∧
        (items.all (fun item => !check item || hasLabel c item)) = true) := by
  rcases List.mem_append.mp h with h1 | h1
  · rcases List.mem_append.mp h1 with h2 | h2
    · rcases List.mem_cons.mp h2 with h3 | h3
      · exact Or.inl ⟨cast, h3⟩
      · right; left; simpa using h3
    · rcases foldl_fullyLabelledStep_snd c check items true [] e h2 with h3 | ⟨i, _, he⟩
      · simp at h3
      · exact Or.inl ⟨i, he⟩
  · by_cases hall : (items.all fun item => !check item || hasLabel c item) = true
    · rw [if_pos hall] at h1
      by_cases hd : d = true
      · rw [if_pos hd] at h1
        simp only [List.mem_cons, List.mem_singleton, List.not_mem_nil, or_false] at h1
        rcases h1 with h2 | h2 | h2
        · exact Or.inr (Or.inr (Or.inl ⟨h2, hall⟩))
        · exact Or.inr (Or.inr (Or.inr (Or.inl ⟨⟨_, h2⟩, hd, hall⟩)))
        · exact Or.inr (Or.inr (Or.inr (Or.inr ⟨h2, hd, hall⟩)))
      · rw [if_neg hd] at h1
        simp only [List.mem_singleton] at h1
        exact Or.inr (Or.inr (Or.inl ⟨h1, hall⟩))
    · rw [if_neg hall] at h1
      simp at h1

theorem done_mem_skip_trace {T A : Type} [Object T] (c : Constants) (check : T → Bool)
    (cast : T) (items : List T) (d : Bool) :
    (Call.done : Call T A) ∈ [Call.check cast, Call.list Selector.Everything] ++
          (items.foldl (fullyLabelledStep c check) (true, [])).2 ++
          (if (items.all (fun item => !check item || hasLabel c item)) = true then
            (if d = true then
              [Call.done,
                Call.log Level.info
                  "detected that every object is labelled, exiting to re-start the process...",
                Call.exit 0]
            else [Call.done])
          else []) ↔
      (items.all (fun item => !check item || hasLabel c item)) = true := by
  constructor
  · intro h
    rcases mem_skip_trace c check cast items d _ h with ⟨x, hx⟩ | hx | ⟨_, hx⟩ | ⟨⟨m, hm⟩, _⟩ | ⟨hx, _⟩
    · cases hx
    · cases hx
    · exact hx
    · cases hm
    · cases hx
  · intro hall
    rw [if_pos hall]
    by_cases hd : d = true
    · rw [if_pos hd]; simp
    · rw [if_neg hd]; simp

theorem ObjectLabeler_skip_calls {T A E : Type} [Object T] [ApplyConfig A] (c : Constants)
    (check : T → Bool) (list : Selector → Except E (List T))
    (applyConfigFor : String → String → A)
    (apply : String → A → ApplyOptions → Except E T)
    (done : Unit → Bool) (cast : T)
    (hs : (!check cast || hasLabel c cast) = true) (e : Call T A)
    (he : e ∈ (ObjectLabeler c check list applyConfigFor apply done
      (Payload.expected cast)).trace) :
    (∃ x, e = Call.check x) ∨ e = Call.list Selector.Everything ∨ e = Call.done ∨
      (∃ l m, e = Call.log l m) ∨ e = Call.exit 0 := by
  cases hl : list Selector.Everything with
  | error err =>
    rw [ObjectLabeler_skip_error c check list applyConfigFor apply done cast err hs hl] at he
    simp only [List.mem_cons, List.mem_singleton, List.not_mem_nil, or_false] at he
    rcases he with h | h | h
    · exact Or.inl ⟨_, h⟩
    · exact Or.inr (Or.inl h)
    · exact Or.inr (Or.inr (Or.inr (Or.inl ⟨_, _, h⟩)))
  | ok items =>
    rw [ObjectLabeler_skip_ok c check list applyConfigFor apply done cast items hs hl] at he
    rcases mem_skip_trace c check cast items (done ()) e he with
      h | h | ⟨h, _⟩ | ⟨⟨m, h⟩, _⟩ | ⟨h, _⟩
    · exact Or.inl h
    · exact Or.inr (Or.inl h)
    · exact Or.inr (Or.inr (Or.inl h))
    · exact Or.inr (Or.inr (Or.inr (Or.inl ⟨_, m, h⟩)))
    · exact Or.inr (Or.inr (Or.inr (Or.inr h)))

theorem ObjectPatchLabeler_skip_calls {E R : Type} (c : Constants)
    (check : PartialObjectMetadata → Bool)
    (list : Selector → Except E (List PartialObjectMetadata))
    (patch : String → PatchType → Json → PatchOptions → List String → Except E R)
    (done : Unit → Bool) (cast : PartialObjectMetadata)
    (hs : (!check cast || hasLabel c cast) = true) (e : Call PartialObjectMetadata Empty)
    (he : e ∈ (ObjectPatchLabeler c check list patch done (Payload.expected cast)).trace) :
    (∃ x, e = Call.check x) ∨ e = Call.list Selector.Everything ∨ e = Call.done ∨
      (∃ l m, e = Call.log l m) ∨ e = Call.exit 0 := by
  cases hl : list Selector.Everything with
  | error err =>
    rw [ObjectPatchLabeler_skip_error c check list patch done cast err hs hl] at he
    simp only [List.mem_cons, List.mem_singleton, List.not_mem_nil, or_false] at he
    rcases he with h | h | h
    · exact Or.inl ⟨_, h⟩
    · exact Or.inr (Or.inl h)
    · exact Or.inr (Or.inr (Or.inr (Or.inl ⟨_, _, h⟩)))
  | ok items =>
    rw [ObjectPatchLabeler_skip_ok c check list patch done cast items hs hl] at he
    rcases mem_skip_trace c check cast items (done ()) e he with
      h | h | ⟨h, _⟩ | ⟨⟨m, h⟩, _⟩ | ⟨h, _⟩
    · exact Or.inl h
    · exact Or.inr (Or.inl h)
    · exact Or.inr (Or.inr (Or.inl h))
    · exact Or.inr (Or.inr (Or.inr (Or.inl ⟨_, m, h⟩)))
    · exact Or.inr (Or.inr (Or.inr (Or.inr h)))

theorem skip_condition_iff {T : Type} [Object T] (c : Constants) (check : T → Bool)
    (x : T) :
    (!check x || hasLabel c x) = true ↔ (check x = false ∨ hasLabel c x = true) := by
  simp

theorem all_skip_condition_iff {T : Type} [Object T] (c : Constants) (check : T → Bool)
    (items : List T) :
    (items.all (fun item => !check item || hasLabel c item)) = true ↔
      ∀ item, item ∈ items → check item = false ∨ hasLabel c item = true := by
  simp

theorem ObjectLabeler_done_mem {T A E : Type} [Object T] [ApplyConfig A] (c : Constants)
    (check : T → Bool) (list : Selector → Except E (List T))
    (applyConfigFor : String → String → A)
    (apply : String → A → ApplyOptions → Except E T)
    (done : Unit → Bool) (obj : Payload T) :
    Call.done ∈ (ObjectLabeler c check list applyConfigFor apply done obj).trace ↔
      ∃ cast, obj = Payload.expected cast ∧ (check cast = false ∨ hasLabel c cast = true) ∧
        ∃ items, list Selector.Everything = Except.ok items ∧
          ∀ item, item ∈ items → check item = false ∨ hasLabel c item = true := by
  cases obj with
  | foreign ty => simp [ObjectLabeler]
  | expected cast =>
    by_cases hs : (!check cast || hasLabel c cast) = true
    · have hs' := (skip_condition_iff c check cast).mp hs
      cases hl : list Selector.Everything with
      | error err =>
        rw [ObjectLabeler_skip_error c check list applyConfigFor apply done cast err hs hl]
        simp
      | ok items =>
        rw [ObjectLabeler_skip_ok c check list applyConfigFor apply done cast items hs hl]
        simp only [done_mem_skip_trace]
        rw [all_skip_condition_iff]
        constructor
        · intro h
          exact ⟨cast, rfl, hs', items, rfl, h⟩
        · rintro ⟨cast', hc, _, items', hi, h⟩
          cases hi
          exact h
    · have hs0 : (!check cast || hasLabel c cast) = false := by simpa using hs
      rw [ObjectLabeler_mark c check list applyConfigFor apply done cast hs0]
      constructor
      · intro h
        simp at h
      · rintro ⟨cast', hc, hs', _⟩
        cases hc
        exact absurd ((skip_condition_iff c check cast).mpr hs') hs

theorem ObjectPatchLabeler_done_mem {E R : Type} (c : Constants)
    (check : PartialObjectMetadata → Bool)
    (list : Selector → Except E (List PartialObjectMetadata))
    (patch : String → PatchType → Json → PatchOptions → List String → Except E R)
    (done : Unit → Bool) (obj : Payload PartialObjectMetadata) :
    Call.done ∈ (ObjectPatchLabeler c check list patch done obj).trace ↔
      ∃ cast, obj = Payload.expected cast ∧ (check cast = false ∨ hasLabel c cast = true) ∧
        ∃ items, list Selector.Everything = Except.ok items ∧
          ∀ item, item ∈ items → check item = false ∨ hasLabel c item = true := by
  cases obj with
  | foreign ty => simp [ObjectPatchLabeler]
  | expected cast =>
    by_cases hs : (!check cast || hasLabel c cast) = true
    · have hs' := (skip_condition_iff c check cast).mp hs
      cases hl : list Selector.Everything with
      | error err =>
        rw [ObjectPatchLabeler_skip_error c check list patch done cast err hs hl]
        simp
      | ok items =>
        rw [ObjectPatchLabeler_skip_ok c check list patch done cast items hs hl]
        simp only [done_mem_skip_trace]
        rw [all_skip_condition_iff]
        constructor
        · intro h
          exact ⟨cast, rfl, hs', items, rfl, h⟩
        · rintro ⟨cast', hc, _, items', hi, h⟩
          cases hi
          exact h
    · have hs0 : (!check cast || hasLabel c cast) = false := by simpa using hs
      rw [ObjectPatchLabeler_mark c check list patch done cast hs0]
      constructor
      · intro h
        simp at h
      · rintro ⟨cast', hc, hs', _⟩
        cases hc
        exact absurd ((skip_condition_iff c check cast).mpr hs') hs

theorem ObjectLabeler_exited_iff {T A E : Type} [Object T] [ApplyConfig A] (c : Constants)
    (check : T → Bool) (list : Selector → Except E (List T))
    (applyConfigFor : String → String → A)
    (apply : String → A → ApplyOptions → Except E T)
    (done : Unit → Bool) (obj : Payload T) (code : Int) :
    (ObjectLabeler c check list applyConfigFor apply done obj).completion =
        Completion.exited code ↔
      code = 0 ∧ ∃ cast, obj = Payload.expected cast ∧
        (check cast = false ∨ hasLabel c cast = true) ∧
        ∃ items, list Selector.Everything = Except.ok items ∧
          (∀ item, item ∈ items → check item = false ∨ hasLabel c item = true) ∧
          done () = true := by
  cases obj with
  | foreign ty => simp [ObjectLabeler]
  | expected cast =>
    by_cases hs : (!check cast || hasLabel c cast) = true
    · have hs' := (skip_condition_iff c check cast).mp hs
      cases hl : list Selector.Everything with
      | error err =>
        rw [ObjectLabeler_skip_error c check list applyConfigFor apply done cast err hs hl]
        simp
      | ok items =>
        rw [ObjectLabeler_skip_ok c check list applyConfigFor apply done cast items hs hl]
        by_cases hall : (items.all (fun item => !check item || hasLabel c item)) = true
        · have hall' := (all_skip_condition_iff c check items).mp hall
          by_cases hd : done () = true
          · simp only [hall, hd, Bool.and_self, if_true]
            constructor
            · intro h
              cases h
              exact ⟨rfl, cast, rfl, hs', items, rfl, hall', trivial⟩
            · rintro ⟨h, _⟩
              rw [h]
          · have hd0 : done () = false := by simpa using hd
            simp only [hall, hd0, Bool.and_false, if_false]
            constructor
            · intro h
              cases h
            · rintro ⟨_, cast', _, _, items', _, _, h⟩
              cases h
        · have hall0 : (items.all (fun item => !check item || hasLabel c item)) = false := by
            simpa using hall
          simp only [hall0, Bool.false_and, if_false]
          constructor
          · intro h
            cases h
          · rintro ⟨_, cast', _, _, items', hi, h, _⟩
            cases hi
            exact absurd ((all_skip_condition_iff c check items).mpr h) hall
    · have hs0 : (!check cast || hasLabel c cast) = false := by simpa using hs
      rw [ObjectLabeler_mark c check list applyConfigFor apply done cast hs0]
      constructor
      · intro h
        simp only at h
        split at h <;> cases h
      · rintro ⟨_, cast', hc, hs', _⟩
        cases hc
        exact absurd ((skip_condition_iff c check cast).mpr hs') hs

theorem ObjectPatchLabeler_exited_iff {E R : Type} (c : Constants)
    (check : PartialObjectMetadata → Bool)
    (list : Selector → Except E (List PartialObjectMetadata))
    (patch : String → PatchType → Json → PatchOptions → List String → Except E R)
    (done : Unit → Bool) (obj : Payload PartialObjectMetadata) (code : Int) :
    (ObjectPatchLabeler c check list patch done obj).completion =
        Completion.exited code ↔
      code = 0 ∧ ∃ cast, obj = Payload.expected cast ∧
        (check cast = false ∨ hasLabel c cast = true) ∧
        ∃ items, list Selector.Everything = Except.ok items ∧
          (∀ item, item ∈ items → check item = false ∨ hasLabel c item = true) ∧
          done () = true := by
  cases obj with
  | foreign ty => simp [ObjectPatchLabeler]
  | expected cast =>
    by_cases hs : (!check cast || hasLabel c cast) = true
    · have hs' := (skip_condition_iff c check cast).mp hs
      cases hl : list Selector.Everything with
      | error err =>
        rw [ObjectPatchLabeler_skip_error c check list patch done cast err hs hl]
        simp
      | ok items =>
        rw [ObjectPatchLabeler_skip_ok c check list patch done cast items hs hl]
        by_cases hall : (items.all (fun item => !check item || hasLabel c item)) = true
        · have hall' := (all_skip_condition_iff c check items).mp hall
          by_cases hd : done () = true
          · simp only [hall, hd, Bool.and_self, if_true]
            constructor
            · intro h
              cases h
              exact ⟨rfl, cast, rfl, hs', items, rfl, hall', trivial⟩
            · rintro ⟨h, _⟩
              rw [h]
          · have hd0 : done () = false := by simpa using hd
            simp only [hall, hd0, Bool.and_false, if_false]
            constructor
            · intro h
              cases h
            · rintro ⟨_, cast', _, _, items', _, _, h⟩
              cases h
        · have hall0 : (items.all (fun item => !check item || hasLabel c item)) = false := by
            simpa using hall
          simp only [hall0, Bool.false_and, if_false]
          constructor
          · intro h
            cases h
          · rintro ⟨_, cast', _, _, items', hi, h, _⟩
            cases hi
            exact absurd ((all_skip_condition_iff c check items).mpr h) hall
    · have hs0 : (!check cast || hasLabel c cast) = false := by simpa using hs
      rw [ObjectPatchLabeler_mark c check list patch done cast hs0]
      constructor
      · intro h
        simp only at h
        split at h <;> cases h
      · rintro ⟨_, cast', hc, hs', _⟩
        cases hc
        exact absurd ((skip_condition_iff c check cast).mpr hs') hs

theorem skip_calls_not_submission {T A : Type} (e : Call T A)
    (h : (∃ x, e = Call.check x) ∨ e = Call.list Selector.Everything ∨ e = Call.done ∨
      (∃ l m, e = Call.log l m) ∨ e = Call.exit 0) :
    (∀ ns cfg opts, e ≠ Call.apply ns cfg opts) ∧
      (∀ name pt data opts subs, e ≠ Call.patch name pt data opts subs) ∧
      (∀ name ns, e ≠ Call.applyConfigFor name ns) ∧
      (∀ cfg entries, e ≠ Call.WithLabels cfg entries) ∧
      (∀ obj, e ≠ Call.marshal obj) ∧
      (∀ oldData newData, e ≠ Call.createMergePatch oldData newData) := by
  rcases h with ⟨x, h⟩ | h | h | ⟨l, m, h⟩ | h <;> subst h <;>
    refine ⟨?_, ?_, ?_, ?_, ?_, ?_⟩ <;> intros <;> intro hc <;> cases hc

/-! ## The merge patch between the two snapshots -/

theorem structMembers_nil : structMembers [] = [] := rfl

theorem structMembers_cons_none (k : String) (rest : List (String × Option Json)) :
    structMembers ((k, none) :: rest) = structMembers rest := rfl

theorem structMembers_cons_some (k : String) (v : Json) (rest : List (String × Option Json)) :
    structMembers ((k, some v) :: rest) = (k, v) :: structMembers rest := rfl

theorem assocLookup_structMembers_of_not_mem (k : String) :
    ∀ fs : List (String × Option Json), k ∉ fs.map Prod.fst →
      assocLookup k (structMembers fs) = none
  | [], _ => rfl
  | (k', o) :: rest, h => by
    have hk : ¬ k' = k := fun e => h (by simp [e])
    have hrest : k ∉ rest.map Prod.fst := fun hm => h (by simp [hm])
    cases o with
    | none =>
      rw [structMembers_cons_none]
      exact assocLookup_structMembers_of_not_mem k rest hrest
    | some v =>
      rw [structMembers_cons_some]
      simp only [assocLookup, hk, if_false]
      exact assocLookup_structMembers_of_not_mem k rest hrest

theorem assocLookup_structMembers (k : String) :
    ∀ fs : List (String × Option Json), (fs.map Prod.fst).Nodup →
      assocLookup k (structMembers fs) = (assocLookup k fs).bind id
  | [], _ => rfl
  | (k', o) :: rest, h => by
    rw [List.map_cons, List.nodup_cons] at h
    by_cases hk : k' = k
    · subst hk
      cases o with
      | none =>
        rw [structMembers_cons_none]
        simp only [assocLookup, if_true, Option.some_bind, id]
        exact assocLookup_structMembers_of_not_mem k' rest h.1
      | some v =>
        rw [structMembers_cons_some]
        simp [assocLookup]
    · cases o with
      | none =>
        rw [structMembers_cons_none]
        simp only [assocLookup, hk, if_false]
        exact assocLookup_structMembers k rest h.2
      | some v =>
        rw [structMembers_cons_some]
        simp only [assocLookup, hk, if_false]
        exact assocLookup_structMembers k rest h.2

theorem getDiffChanged_structMembers_cons (a : List (String × Json)) (k : String)
    (o : Option Json) (rest : List (String × Option Json)) :
    getDiffChanged a (structMembers ((k, o) :: rest)) =
      memberDiff k (assocLookup k a) o ++ getDiffChanged a (structMembers rest) := by
  cases o with
  | none => rw [structMembers_cons_none]; simp [memberDiff]
  | some bv =>
    rw [structMembers_cons_some, getDiffChanged]
    cases h : assocLookup k a with
    | none => simp [memberDiff]
    | some av =>
      cases hd : diffValue av bv with
      | none => simp [memberDiff, hd]
      | some d => simp [memberDiff, hd]

theorem getDiffChanged_nil (a : List (String × Json)) : getDiffChanged a [] = [] := by
  rw [getDiffChanged]

theorem getDiffDeleted_structMembers_cons (b : List (String × Json)) (k : String)
    (o : Option Json) (rest : List (String × Option Json)) :
    getDiffDeleted (structMembers ((k, o) :: rest)) b =
      memberDeleted k o (assocLookup k b) ++ getDiffDeleted (structMembers rest) b := by
  cases o with
  | none => rw [structMembers_cons_none]; simp [memberDeleted]
  | some av =>
    rw [structMembers_cons_some]
    cases h : assocLookup k b with
    | none => simp [getDiffDeleted, memberDeleted, h]
    | some bv => simp [getDiffDeleted, memberDeleted, h]

theorem getDiffDeleted_nil (b : List (String × Json)) : getDiffDeleted [] b = [] := rfl

theorem memberDeleted_self (k : String) (o : Option Json) : memberDeleted k o o = [] := by
  cases o <;> rfl

theorem memberDiff_self (k : String) (o : Option Json)
    (h : ∀ v, o = some v → diffValue v v = none) : memberDiff k o o = [] := by
  cases o with
  | none => rfl
  | some v => simp [memberDiff, h v rfl]


theorem diffValue_str_self (s : String) : diffValue (Json.str s) (Json.str s) = none := by
  simp [diffValue]

theorem diffValue_num_self (n : Int) : diffValue (Json.num n) (Json.num n) = none := by
  simp [diffValue]

theorem diffValue_null_self : diffValue Json.null Json.null = none := by
  simp [diffValue]

theorem matchesArray_self :
    ∀ l : List Json, (∀ x, x ∈ l → matchesValue x x = true) → matchesArray l l = true
  | [], _ => by simp [matchesArray]
  | x :: xs, h => by
    rw [matchesArray, h x (List.mem_cons_self _ _),
      matchesArray_self xs (fun y hy => h y (List.mem_cons_of_mem _ hy))]
    rfl

theorem diffValue_arr_self (l : List Json) (h : ∀ x, x ∈ l → matchesValue x x = true) :
    diffValue (Json.arr l) (Json.arr l) = none := by
  simp [diffValue, matchesArray_self l h]

theorem matchesValue_str_self (s : String) : matchesValue (Json.str s) (Json.str s) = true := by
  simp [matchesValue]

theorem matchesValue_marshalOwnerReference_self (r : OwnerReference) :
    matchesValue (marshalOwnerReference r) (marshalOwnerReference r) = true := by
  unfold marshalOwnerReference
  cases r.Controller <;> cases r.BlockOwnerDeletion <;>
    simp [structMembers, matchesValue, matchesMembers, assocLookup]

theorem assocLookup_map_str (k : String) :
    ∀ es : List (String × String),
      assocLookup k (es.map (fun kv => (kv.1, Json.str kv.2))) =
        (assocLookup k es).map Json.str
  | [] => rfl
  | (k', v) :: rest => by
    by_cases hk : k' = k
    · simp [assocLookup, hk]
    · simp [assocLookup, hk, assocLookup_map_str k rest]

theorem assocLookup_of_mem {β : Type} (k : String) (v : β) :
    ∀ es : List (String × β), (es.map Prod.fst).Nodup → (k, v) ∈ es →
      assocLookup k es = some v
  | [], _, h => by cases h
  | (k', v') :: rest, hn, h => by
    rw [List.map_cons, List.nodup_cons] at hn
    rcases List.mem_cons.mp h with h1 | h1
    · cases h1
      simp [assocLookup]
    · have hk : ¬ k' = k := by
        intro e
        subst e
        exact hn.1 (List.mem_map.mpr ⟨(k', v), h1, rfl⟩)
      simp only [assocLookup, hk, if_false]
      exact assocLookup_of_mem k v rest hn.2 h1

theorem getDiffChanged_map_str_eq_nil (a : List (String × String)) :
    ∀ es : List (String × String), (∀ kv, kv ∈ es → assocLookup kv.1 a = some kv.2) →
      getDiffChanged (a.map (fun kv => (kv.1, Json.str kv.2)))
        (es.map (fun kv => (kv.1, Json.str kv.2))) = []
  | [], _ => by simp [getDiffChanged]
  | (k, v) :: rest, h => by
    have h1 := h (k, v) (List.mem_cons_self _ _)
    have ih := getDiffChanged_map_str_eq_nil a rest
      (fun kv hkv => h kv (List.mem_cons_of_mem _ hkv))
    simp only [List.map_cons, getDiffChanged, assocLookup_map_str, h1, Option.map_some',
      diffValue_str_self, List.nil_append]
    exact ih

theorem getDiffDeleted_eq_nil (b : List (String × Json)) :
    ∀ a : List (String × Json), (∀ kv, kv ∈ a → assocLookup kv.1 b ≠ none) →
      getDiffDeleted a b = []
  | [], _ => rfl
  | (k, v) :: rest, h => by
    have h1 := h (k, v) (List.mem_cons_self _ _)
    have ih := getDiffDeleted_eq_nil b rest (fun kv hkv => h kv (List.mem_cons_of_mem _ hkv))
    unfold getDiffDeleted at ih ⊢
    cases hb : assocLookup k b with
    | none => exact absurd hb h1
    | some bv => simp [hb, ih]

theorem diffValue_stringMap_self (es : List (String × String))
    (hn : (es.map Prod.fst).Nodup) :
    diffValue (Json.obj (es.map (fun kv => (kv.1, Json.str kv.2))))
      (Json.obj (es.map (fun kv => (kv.1, Json.str kv.2)))) = none := by
  have h1 := getDiffChanged_map_str_eq_nil es es
    (fun kv hkv => assocLookup_of_mem kv.1 kv.2 es hn hkv)
  have h2 := getDiffDeleted_eq_nil (es.map (fun kv => (kv.1, Json.str kv.2)))
    (es.map (fun kv => (kv.1, Json.str kv.2))) (by
      intro kv hkv
      obtain ⟨kv', hkv', he⟩ := List.mem_map.mp hkv
      subst he
      rw [assocLookup_map_str, assocLookup_of_mem kv'.1 kv'.2 es hn hkv']
      simp)
  simp [diffValue, h1, h2]


theorem assocSet_ne_nil {β : Type} (k : String) (v : β) :
    ∀ es : List (String × β), assocSet k v es ≠ []
  | [] => by simp [assocSet]
  | (k', v') :: rest => by
    by_cases hk : k' = k <;> simp [assocSet, hk]

theorem getDiffChanged_entry_marker (a : List (String × String)) (k v : String)
    (hk : assocLookup k a ≠ some v) (rest : List (String × Json)) :
    getDiffChanged (a.map (fun kv => (kv.1, Json.str kv.2))) ((k, Json.str v) :: rest) =
      (k, Json.str v) ::
        getDiffChanged (a.map (fun kv => (kv.1, Json.str kv.2))) rest := by
  rw [getDiffChanged, assocLookup_map_str]
  cases h : assocLookup k a with
  | none => simp
  | some w =>
    have hw : ¬ w = v := fun e => hk (by rw [h, e])
    simp [diffValue, hw]

theorem getDiffChanged_assocSet (a : List (String × String)) (k v : String)
    (hk : assocLookup k a ≠ some v) :
    ∀ es : List (String × String), (∀ kv, kv ∈ es → assocLookup kv.1 a = some kv.2) →
      getDiffChanged (a.map (fun kv => (kv.1, Json.str kv.2)))
        ((assocSet k v es).map (fun kv => (kv.1, Json.str kv.2))) = [(k, Json.str v)]
  | [], _ => by
    simp only [assocSet, List.map_cons, List.map_nil]
    rw [getDiffChanged_entry_marker a k v hk, getDiffChanged_nil]
  | (k1, v1) :: rest, h => by
    have hrest : ∀ kv, kv ∈ rest → assocLookup kv.1 a = some kv.2 :=
      fun kv hkv => h kv (List.mem_cons_of_mem _ hkv)
    by_cases h1 : k1 = k
    · simp only [assocSet, h1, if_true, List.map_cons]
      rw [getDiffChanged_entry_marker a k v hk, getDiffChanged_map_str_eq_nil a rest hrest]
    · have hv := h (k1, v1) (List.mem_cons_self _ _)
      simp only [assocSet, h1, if_false, List.map_cons, getDiffChanged, assocLookup_map_str,
        hv, Option.map_some', diffValue_str_self, List.nil_append]
      exact getDiffChanged_assocSet a k v hk rest hrest

theorem getDiffDeleted_assocSet (a : List (String × String)) (k v : String)
    (hn : (a.map Prod.fst).Nodup) :
    getDiffDeleted (a.map (fun kv => (kv.1, Json.str kv.2)))
      ((assocSet k v a).map (fun kv => (kv.1, Json.str kv.2))) = [] := by
  apply getDiffDeleted_eq_nil
  intro kv hkv
  obtain ⟨kv', hkv', he⟩ := List.mem_map.mp hkv
  subst he
  rw [assocLookup_map_str, assocLookup_assocSet]
  by_cases h : kv'.1 = k
  · simp [h]
  · simp [h, assocLookup_of_mem kv'.1 kv'.2 a hn hkv']

theorem memberDiff_none_left (k : String) (o : Option Json) :
    memberDiff k none o = structMembers [(k, o)] := by
  cases o <;> rfl

theorem memberDeleted_none_left (k : String) (o : Option Json) :
    memberDeleted k none o = [] := by
  cases o <;> rfl

theorem memberDeleted_some_right (k : String) (o : Option Json) (v : Json) :
    memberDeleted k o (some v) = [] := by
  cases o <;> rfl

/-- The label map of the "after" snapshot, serialized: never omitted. -/
theorem omitemptyMap_set (m : StringMap) (k v : String) :
    omitemptyMap (some (m.set k v)) =
      some (Json.obj ((assocSet k v m.entries).map (fun kv => (kv.1, Json.str kv.2)))) := by
  have hne := assocSet_ne_nil k v m.entries
  simp [omitemptyMap, StringMap.set, hne]

theorem memberDiff_labels (l : Option StringMap) (k v : String)
    (hu : ∀ m, l = some m → m.lookup k ≠ some v) :
    memberDiff "labels" (omitemptyMap l)
        (omitemptyMap (some ((l.getD StringMap.empty).set k v))) =
      [("labels", Json.obj [(k, Json.str v)])] := by
  rw [omitemptyMap_set]
  cases l with
  | none => simp [omitemptyMap, memberDiff, assocSet, StringMap.empty]
  | some m =>
    by_cases he : m.entries = []
    · simp [omitemptyMap, he, memberDiff, assocSet]
    · have hk : assocLookup k m.entries ≠ some v := hu m rfl
      have h1 := getDiffChanged_assocSet m.entries k v hk m.entries
        (fun kv hkv => assocLookup_of_mem kv.1 kv.2 m.entries m.nodupKeys hkv)
      have h2 := getDiffDeleted_assocSet m.entries k v m.nodupKeys
      simp [omitemptyMap, he, memberDiff, diffValue, h1, h2]


theorem objectMetaFields_nodup (m : ObjectMeta) :
    ((objectMetaFields m).map Prod.fst).Nodup := by
  simp [objectMetaFields]

theorem assocLookup_objectMetaMembers (m : ObjectMeta) (k : String) :
    assocLookup k (structMembers (objectMetaFields m)) =
      (assocLookup k (objectMetaFields m)).bind id :=
  assocLookup_structMembers k _ (objectMetaFields_nodup m)

theorem memberDiff_omitemptyString (k s : String) :
    memberDiff k (omitemptyString s) (omitemptyString s) = [] :=
  memberDiff_self k _ (by
    intro v hv
    unfold omitemptyString at hv
    split at hv
    · cases hv
    · cases hv; exact diffValue_str_self s)

theorem memberDiff_omitemptyInt (k : String) (n : Int) :
    memberDiff k (omitemptyInt n) (omitemptyInt n) = [] :=
  memberDiff_self k _ (by
    intro v hv
    unfold omitemptyInt at hv
    split at hv
    · cases hv
    · cases hv; exact diffValue_num_self n)

theorem memberDiff_timestamp (k : String) (t : Option String) :
    memberDiff k (some (marshalTime t)) (some (marshalTime t)) = [] :=
  memberDiff_self k _ (by
    intro v hv
    cases hv
    cases t with
    | none => exact diffValue_null_self
    | some t => exact diffValue_str_self t)

theorem memberDiff_map_str (k : String) (o : Option String) :
    memberDiff k (o.map Json.str) (o.map Json.str) = [] :=
  memberDiff_self k _ (by
    intro v hv
    cases o with
    | none => cases hv
    | some s => cases hv; exact diffValue_str_self s)

theorem memberDiff_map_num (k : String) (o : Option Int) :
    memberDiff k (o.map Json.num) (o.map Json.num) = [] :=
  memberDiff_self k _ (by
    intro v hv
    cases o with
    | none => cases hv
    | some n => cases hv; exact diffValue_num_self n)

theorem memberDiff_omitemptyMap (k : String) (l : Option StringMap) :
    memberDiff k (omitemptyMap l) (omitemptyMap l) = [] :=
  memberDiff_self k _ (by
    intro v hv
    cases l with
    | none => cases hv
    | some m =>
      unfold omitemptyMap at hv
      simp only at hv
      split at hv
      · cases hv
      · cases hv; exact diffValue_stringMap_self m.entries m.nodupKeys)

theorem memberDiff_omitemptySlice (k : String) (l : List Json)
    (h : ∀ x, x ∈ l → matchesValue x x = true) :
    memberDiff k (omitemptySlice l) (omitemptySlice l) = [] :=
  memberDiff_self k _ (by
    intro v hv
    unfold omitemptySlice at hv
    split at hv
    · cases hv
    · cases hv; exact diffValue_arr_self l h)

theorem memberDiff_ownerReferences (k : String) (refs : List OwnerReference) :
    memberDiff k (omitemptySlice (refs.map marshalOwnerReference))
      (omitemptySlice (refs.map marshalOwnerReference)) = [] :=
  memberDiff_omitemptySlice k _ (by
    intro x hx
    obtain ⟨r, _, he⟩ := List.mem_map.mp hx
    subst he
    exact matchesValue_marshalOwnerReference_self r)

theorem memberDiff_finalizers (k : String) (fs : List String) :
    memberDiff k (omitemptySlice (fs.map Json.str)) (omitemptySlice (fs.map Json.str)) = [] :=
  memberDiff_omitemptySlice k _ (by
    intro x hx
    obtain ⟨r, _, he⟩ := List.mem_map.mp hx
    subst he
    exact matchesValue_str_self r)

theorem omitemptyString_empty : omitemptyString "" = none := rfl

theorem getDiffChanged_objectMetaFields (m1 m2 : ObjectMeta) :
    getDiffChanged (structMembers (objectMetaFields m1)) (structMembers (objectMetaFields m2)) =
      memberDiff "name" (omitemptyString m1.Name) (omitemptyString m2.Name) ++
      memberDiff "generateName" (omitemptyString m1.GenerateName) (omitemptyString m2.GenerateName) ++
      memberDiff "namespace" (omitemptyString m1.Namespace) (omitemptyString m2.Namespace) ++
      memberDiff "selfLink" (omitemptyString m1.SelfLink) (omitemptyString m2.SelfLink) ++
      memberDiff "uid" (omitemptyString m1.UID) (omitemptyString m2.UID) ++
      memberDiff "resourceVersion" (omitemptyString m1.ResourceVersion) (omitemptyString m2.ResourceVersion) ++
      memberDiff "generation" (omitemptyInt m1.Generation) (omitemptyInt m2.Generation) ++
      memberDiff "creationTimestamp" (some (marshalTime m1.CreationTimestamp)) (some (marshalTime m2.CreationTimestamp)) ++
      memberDiff "deletionTimestamp" (m1.DeletionTimestamp.map Json.str) (m2.DeletionTimestamp.map Json.str) ++
      memberDiff "deletionGracePeriodSeconds" (m1.DeletionGracePeriodSeconds.map Json.num) (m2.DeletionGracePeriodSeconds.map Json.num) ++
      memberDiff "labels" (omitemptyMap m1.Labels) (omitemptyMap m2.Labels) ++
      memberDiff "annotations" (omitemptyMap m1.Annotations) (omitemptyMap m2.Annotations) ++
      memberDiff "ownerReferences" (omitemptySlice (m1.OwnerReferences.map marshalOwnerReference)) (omitemptySlice (m2.OwnerReferences.map marshalOwnerReference)) ++
      memberDiff "finalizers" (omitemptySlice (m1.Finalizers.map Json.str)) (omitemptySlice (m2.Finalizers.map Json.str)) := by
  conv => lhs; arg 2; unfold objectMetaFields
  simp only [getDiffChanged_structMembers_cons, structMembers_nil, getDiffChanged_nil,
    assocLookup_objectMetaMembers]
  simp only [objectMetaFields, assocLookup, String.reduceEq, if_true, if_false,
    Option.some_bind, id, List.append_nil, List.append_assoc]

theorem getDiffDeleted_objectMetaFields (m1 m2 : ObjectMeta) :
    getDiffDeleted (structMembers (objectMetaFields m1)) (structMembers (objectMetaFields m2)) =
      memberDeleted "name" (omitemptyString m1.Name) (omitemptyString m2.Name) ++
      memberDeleted "generateName" (omitemptyString m1.GenerateName) (omitemptyString m2.GenerateName) ++
      memberDeleted "namespace" (omitemptyString m1.Namespace) (omitemptyString m2.Namespace) ++
      memberDeleted "selfLink" (omitemptyString m1.SelfLink) (omitemptyString m2.SelfLink) ++
      memberDeleted "uid" (omitemptyString m1.UID) (omitemptyString m2.UID) ++
      memberDeleted "resourceVersion" (omitemptyString m1.ResourceVersion) (omitemptyString m2.ResourceVersion) ++
      memberDeleted "generation" (omitemptyInt m1.Generation) (omitemptyInt m2.Generation) ++
      memberDeleted "creationTimestamp" (some (marshalTime m1.CreationTimestamp)) (some (marshalTime m2.CreationTimestamp)) ++
      memberDeleted "deletionTimestamp" (m1.DeletionTimestamp.map Json.str) (m2.DeletionTimestamp.map Json.str) ++
      memberDeleted "deletionGracePeriodSeconds" (m1.DeletionGracePeriodSeconds.map Json.num) (m2.DeletionGracePeriodSeconds.map Json.num) ++
      memberDeleted "labels" (omitemptyMap m1.Labels) (omitemptyMap m2.Labels) ++
      memberDeleted "annotations" (omitemptyMap m1.Annotations) (omitemptyMap m2.Annotations) ++
      memberDeleted "ownerReferences" (omitemptySlice (m1.OwnerReferences.map marshalOwnerReference)) (omitemptySlice (m2.OwnerReferences.map marshalOwnerReference)) ++
      memberDeleted "finalizers" (omitemptySlice (m1.Finalizers.map Json.str)) (omitemptySlice (m2.Finalizers.map Json.str)) := by
  conv => lhs; arg 1; unfold objectMetaFields
  simp only [getDiffDeleted_structMembers_cons, structMembers_nil, getDiffDeleted_nil,
    assocLookup_objectMetaMembers]
  simp only [objectMetaFields, assocLookup, String.reduceEq, if_true, if_false,
    Option.some_bind, id, List.append_nil, List.append_assoc]

/-- The metadata part of the merge patch. -/
theorem getDiff_objectMetaFields (c : Constants) (cast : PartialObjectMetadata)
    (hu : hasLabel c cast = false) :
    getDiff (structMembers (objectMetaFields (previousSnapshot cast).ObjectMeta))
        (structMembers (objectMetaFields (updatedSnapshot c cast).ObjectMeta)) =
      structMembers
        [("uid", omitemptyString cast.ObjectMeta.UID),
         ("resourceVersion", omitemptyString cast.ObjectMeta.ResourceVersion),
         ("labels", some (Json.obj
            [(c.OLMManagedLabelKey, Json.str c.OLMManagedLabelValue)]))] := by
  have hlab : ∀ m, cast.ObjectMeta.Labels = some m →
      m.lookup c.OLMManagedLabelKey ≠ some c.OLMManagedLabelValue := by
    intro m hm hv
    have := (hasLabel_eq_true_iff c cast).mpr ⟨m, hm, hv⟩
    rw [hu] at this
    cases this
  rw [getDiff, getDiffChanged_objectMetaFields, getDiffDeleted_objectMetaFields]
  simp only [previousSnapshot, updatedSnapshot,
    PartialObjectMetadata.DeepCopy, PartialObjectMetadata.SetUID,
    PartialObjectMetadata.SetResourceVersion, PartialObjectMetadata.SetLabels,
    Object.GetLabels, Object.GetUID, Object.GetResourceVersion,
    memberDiff_omitemptyString, memberDiff_omitemptyInt, memberDiff_timestamp,
    memberDiff_map_str, memberDiff_map_num, memberDiff_omitemptyMap,
    memberDiff_ownerReferences, memberDiff_finalizers, omitemptyString_empty,
    memberDiff_none_left, memberDiff_labels cast.ObjectMeta.Labels _ _ hlab,
    memberDeleted_self, memberDeleted_none_left, List.nil_append, List.append_nil]
  simp only [omitemptyMap_set, memberDeleted_some_right, List.append_nil]
  cases omitemptyString cast.ObjectMeta.UID <;>
    cases omitemptyString cast.ObjectMeta.ResourceVersion <;> rfl

theorem partialObjectMetadataFields_nodup (o : PartialObjectMetadata) :
    ((partialObjectMetadataFields o).map Prod.fst).Nodup := by
  simp [partialObjectMetadataFields]

theorem previousSnapshot_TypeMeta (cast : PartialObjectMetadata) :
    (previousSnapshot cast).TypeMeta = cast.TypeMeta := rfl

theorem updatedSnapshot_TypeMeta (c : Constants) (cast : PartialObjectMetadata) :
    (updatedSnapshot c cast).TypeMeta = cast.TypeMeta := rfl

/-- The merge patch between the two snapshots of an unmarked object. -/
theorem getDiff_snapshots (c : Constants) (cast : PartialObjectMetadata)
    (hu : hasLabel c cast = false) :
    getDiff (structMembers (partialObjectMetadataFields (previousSnapshot cast)))
        (structMembers (partialObjectMetadataFields (updatedSnapshot c cast))) =
      [("metadata", Json.obj (structMembers
        [("uid", omitemptyString cast.ObjectMeta.UID),
         ("resourceVersion", omitemptyString cast.ObjectMeta.ResourceVersion),
         ("labels", some (Json.obj
            [(c.OLMManagedLabelKey, Json.str c.OLMManagedLabelValue)]))]))] := by
  have hmeta := getDiff_objectMetaFields c cast hu
  rw [getDiff] at hmeta
  have hmd : memberDiff "metadata"
      (some (Json.obj (structMembers (objectMetaFields (previousSnapshot cast).ObjectMeta))))
      (some (Json.obj (structMembers (objectMetaFields (updatedSnapshot c cast).ObjectMeta)))) =
      [("metadata", Json.obj (structMembers
        [("uid", omitemptyString cast.ObjectMeta.UID),
         ("resourceVersion", omitemptyString cast.ObjectMeta.ResourceVersion),
         ("labels", some (Json.obj
            [(c.OLMManagedLabelKey, Json.str c.OLMManagedLabelValue)]))]))] := by
    simp only [memberDiff, diffValue, hmeta]
    cases omitemptyString cast.ObjectMeta.UID <;>
      cases omitemptyString cast.ObjectMeta.ResourceVersion <;> rfl
  have hchanged :
      getDiffChanged (structMembers (partialObjectMetadataFields (previousSnapshot cast)))
        (structMembers (partialObjectMetadataFields (updatedSnapshot c cast))) =
      [("metadata", Json.obj (structMembers
        [("uid", omitemptyString cast.ObjectMeta.UID),
         ("resourceVersion", omitemptyString cast.ObjectMeta.ResourceVersion),
         ("labels", some (Json.obj
            [(c.OLMManagedLabelKey, Json.str c.OLMManagedLabelValue)]))]))] := by
    conv => lhs; arg 2; unfold partialObjectMetadataFields
    simp only [getDiffChanged_structMembers_cons, structMembers_nil, getDiffChanged_nil,
      assocLookup_structMembers _ _ (partialObjectMetadataFields_nodup _)]
    simp only [partialObjectMetadataFields, assocLookup, String.reduceEq, if_true, if_false,
      Option.some_bind, id, previousSnapshot_TypeMeta, updatedSnapshot_TypeMeta,
      memberDiff_omitemptyString, hmd, List.nil_append, List.append_nil]
  have hdeleted :
      getDiffDeleted (structMembers (partialObjectMetadataFields (previousSnapshot cast)))
        (structMembers (partialObjectMetadataFields (updatedSnapshot c cast))) = [] := by
    conv => lhs; arg 1; unfold partialObjectMetadataFields
    simp only [getDiffDeleted_structMembers_cons, structMembers_nil, getDiffDeleted_nil,
      assocLookup_structMembers _ _ (partialObjectMetadataFields_nodup _)]
    simp only [partialObjectMetadataFields, assocLookup, String.reduceEq, if_true, if_false,
      Option.some_bind, id, previousSnapshot_TypeMeta, updatedSnapshot_TypeMeta,
      memberDeleted_self, memberDeleted_some_right, List.nil_append, List.append_nil]
  rw [getDiff, hchanged, hdeleted, List.append_nil]

/-! ## Claims -/

/-- C10: `hasLabel` is true exactly when the object's label map contains the
marker key `install.OLMManagedLabelKey` with the value
`install.OLMManagedLabelValue` stored under it; an object that has the key
under any other value, or whose label map is nil, is not marked. -/
theorem hasLabel_iff_exact_marker {T : Type} [Object T] (c : Constants) (obj : T) :
    (hasLabel c obj = true ↔
      ∃ m, Object.GetLabels obj = some m ∧
        m.lookup c.OLMManagedLabelKey = some c.OLMManagedLabelValue) ∧
    (∀ m v, Object.GetLabels obj = some m → m.lookup c.OLMManagedLabelKey = some v →
      v ≠ c.OLMManagedLabelValue → hasLabel c obj = false) ∧
    (Object.GetLabels obj = none → hasLabel c obj = false) := by
  refine ⟨hasLabel_eq_true_iff c obj, ?_, ?_⟩
  · intro m v hm hv hne
    cases hb : hasLabel c obj with
    | false => rfl
    | true =>
      obtain ⟨m', hm', hv'⟩ := (hasLabel_eq_true_iff c obj).mp hb
      rw [hm] at hm'
      cases hm'
      rw [hv] at hv'
      cases hv'
      exact absurd rfl hne
  · intro hn
    cases hb : hasLabel c obj with
    | false => rfl
    | true =>
      obtain ⟨m', hm', _⟩ := (hasLabel_eq_true_iff c obj).mp hb
      rw [hn] at hm'
      cases hm'

/-- C10 on concrete objects: `{"a":"1","olm.managed":"true"}` is marked,
`{"olm.managed":"false"}` and a nil label map are not. -/
theorem hasLabel_iff_exact_marker_witness :
    hasLabel olmConstants (exampleObject "crd" (some markedLabels)) = true ∧
      hasLabel olmConstants (exampleObject "crd" (some wrongValueLabels)) = false ∧
      hasLabel olmConstants (exampleObject "crd" none) = false :=
  ⟨(hasLabel_iff_exact_marker olmConstants (exampleObject "crd" (some markedLabels))).1.mpr
      ⟨markedLabels, rfl, by decide⟩,
    (hasLabel_iff_exact_marker olmConstants (exampleObject "crd" (some wrongValueLabels))).2.1
      wrongValueLabels "false" rfl (by decide) (by decide),
    (hasLabel_iff_exact_marker olmConstants (exampleObject "crd" none)).2.2 rfl⟩

/-- C1: for both labellers, `done()` is invoked exactly when the payload has
the expected type, the object is not eligible or already marked, `list`
succeeds, and every listed item is not eligible or already marked. In
particular a listing of three eligible items one of which is unmarked never
leads to `done()`, and `done()` is never invoked when the object is eligible
and unmarked (the mark branch). -/
theorem done_invoked_iff_kind_fully_labelled {T A E EP R : Type} [Object T] [ApplyConfig A]
    (c : Constants)
    (check : T → Bool) (list : Selector → Except E (List T))
    (applyConfigFor : String → String → A)
    (apply : String → A → ApplyOptions → Except E T)
    (checkP : PartialObjectMetadata → Bool)
    (listP : Selector → Except EP (List PartialObjectMetadata))
    (patch : String → PatchType → Json → PatchOptions → List String → Except EP R)
    (done : Unit → Bool) :
    (∀ obj : Payload T,
      Call.done ∈ (ObjectLabeler c check list applyConfigFor apply done obj).trace ↔
        ∃ cast, obj = Payload.expected cast ∧
          (check cast = false ∨ hasLabel c cast = true) ∧
          ∃ items, list Selector.Everything = Except.ok items ∧
            ∀ item, item ∈ items → check item = false ∨ hasLabel c item = true) ∧
    (∀ obj : Payload PartialObjectMetadata,
      Call.done ∈ (ObjectPatchLabeler c checkP listP patch done obj).trace ↔
        ∃ cast, obj = Payload.expected cast ∧
          (checkP cast = false ∨ hasLabel c cast = true) ∧
          ∃ items, listP Selector.Everything = Except.ok items ∧
            ∀ item, item ∈ items → checkP item = false ∨ hasLabel c item = true) ∧
    (∀ (obj : Payload T) (i1 i2 i3 : T),
      list Selector.Everything = Except.ok [i1, i2, i3] →
      check i1 = true → check i2 = true → check i3 = true →
      (hasLabel c i1 = false ∨ hasLabel c i2 = false ∨ hasLabel c i3 = false) →
      Call.done ∉ (ObjectLabeler c check list applyConfigFor apply done obj).trace) ∧
    (∀ (obj : Payload PartialObjectMetadata) (i1 i2 i3 : PartialObjectMetadata),
      listP Selector.Everything = Except.ok [i1, i2, i3] →
      checkP i1 = true → checkP i2 = true → checkP i3 = true →
      (hasLabel c i1 = false ∨ hasLabel c i2 = false ∨ hasLabel c i3 = false) →
      Call.done ∉ (ObjectPatchLabeler c checkP listP patch done obj).trace) ∧
    (∀ cast : T, check cast = true → hasLabel c cast = false →
      Call.done ∉ (ObjectLabeler c check list applyConfigFor apply done
        (Payload.expected cast)).trace) ∧
    (∀ cast : PartialObjectMetadata, checkP cast = true → hasLabel c cast = false →
      Call.done ∉ (ObjectPatchLabeler c checkP listP patch done
        (Payload.expected cast)).trace) := by
  have threeItems : ∀ {U : Type} [Object U] (chk : U → Bool) (i1 i2 i3 : U) (items : List U),
      items = [i1, i2, i3] → chk i1 = true → chk i2 = true → chk i3 = true →
      (hasLabel c i1 = false ∨ hasLabel c i2 = false ∨ hasLabel c i3 = false) →
      ¬ ∀ item, item ∈ items → chk item = false ∨ hasLabel c item = true := by
    intro U _ chk i1 i2 i3 items hi h1 h2 h3 hu hall
    subst hi
    have a1 := hall i1 (by simp)
    have a2 := hall i2 (by simp)
    have a3 := hall i3 (by simp)
    rw [h1] at a1
    rw [h2] at a2
    rw [h3] at a3
    rcases hu with hu | hu | hu
    · rw [hu] at a1; simp at a1
    · rw [hu] at a2; simp at a2
    · rw [hu] at a3; simp at a3
  refine ⟨fun obj => ObjectLabeler_done_mem c check list applyConfigFor apply done obj,
    fun obj => ObjectPatchLabeler_done_mem c checkP listP patch done obj, ?_, ?_, ?_, ?_⟩
  · intro obj i1 i2 i3 hl h1 h2 h3 hu hmem
    obtain ⟨cast, _, _, items, hi, hall⟩ :=
      (ObjectLabeler_done_mem c check list applyConfigFor apply done obj).mp hmem
    rw [hl] at hi
    cases hi
    exact threeItems check i1 i2 i3 _ rfl h1 h2 h3 hu hall
  · intro obj i1 i2 i3 hl h1 h2 h3 hu hmem
    obtain ⟨cast, _, _, items, hi, hall⟩ :=
      (ObjectPatchLabeler_done_mem c checkP listP patch done obj).mp hmem
    rw [hl] at hi
    cases hi
    exact threeItems checkP i1 i2 i3 _ rfl h1 h2 h3 hu hall
  · intro cast hc hu hmem
    obtain ⟨cast', he, hs, _⟩ :=
      (ObjectLabeler_done_mem c check list applyConfigFor apply done _).mp hmem
    cases he
    rw [hc, hu] at hs
    simp at hs
  · intro cast hc hu hmem
    obtain ⟨cast', he, hs, _⟩ :=
      (ObjectPatchLabeler_done_mem c checkP listP patch done _).mp hmem
    cases he
    rw [hc, hu] at hs
    simp at hs

/-- C1 on the listings of the specification: with every object eligible, a
listing of two marked objects and one unmarked object does not lead to
`done()`, a listing of three marked objects does. -/
theorem done_invoked_iff_kind_fully_labelled_witness :
    Call.done ∉ (ObjectPatchLabeler (E := String) (R := Unit) olmConstants (fun _ => true)
        (fun _ => Except.ok [exampleObject "a" (some markedLabels),
          exampleObject "b" (some markedLabels), exampleObject "c" (some unmarkedLabels)])
        (fun _ _ _ _ _ => Except.ok ()) (fun _ => true)
        (Payload.expected (exampleObject "a" (some markedLabels)))).trace ∧
      Call.done ∈ (ObjectPatchLabeler (E := String) (R := Unit) olmConstants (fun _ => true)
        (fun _ => Except.ok [exampleObject "a" (some markedLabels),
          exampleObject "b" (some markedLabels), exampleObject "c" (some markedLabels)])
        (fun _ _ _ _ _ => Except.ok ()) (fun _ => true)
        (Payload.expected (exampleObject "a" (some markedLabels)))).trace :=
  ⟨(done_invoked_iff_kind_fully_labelled (T := PartialObjectMetadata)
      (A := MetaApplyConfiguration) (E := String) olmConstants (fun _ => true)
      (fun _ => Except.ok []) newMetaApplyConfiguration
      (fun _ _ _ => Except.error "unused") (fun _ => true)
      (fun _ => Except.ok [exampleObject "a" (some markedLabels),
        exampleObject "b" (some markedLabels), exampleObject "c" (some unmarkedLabels)])
      (fun _ _ _ _ _ => Except.ok ()) (fun _ => true)).2.2.2.1
      (Payload.expected (exampleObject "a" (some markedLabels)))
      _ _ _ rfl rfl rfl rfl (Or.inr (Or.inr (by decide))),
    ((done_invoked_iff_kind_fully_labelled (T := PartialObjectMetadata)
      (A := MetaApplyConfiguration) (E := String) olmConstants (fun _ => true)
      (fun _ => Except.ok []) newMetaApplyConfiguration
      (fun _ _ _ => Except.error "unused") (fun _ => true)
      (fun _ => Except.ok [exampleObject "a" (some markedLabels),
        exampleObject "b" (some markedLabels), exampleObject "c" (some markedLabels)])
      (fun _ _ _ _ _ => Except.ok ()) (fun _ => true)).2.1
      (Payload.expected (exampleObject "a" (some markedLabels)))).mpr
      ⟨_, rfl, Or.inr (by decide), _, rfl, by
        intro item hitem
        simp only [List.mem_cons, List.mem_singleton, List.not_mem_nil, or_false] at hitem
        rcases hitem with h | h | h <;> subst h <;> exact Or.inr (by decide)⟩⟩

theorem ObjectLabeler_skip_branch {T A E : Type} [Object T] [ApplyConfig A] (c : Constants)
    (check : T → Bool) (list : Selector → Except E (List T))
    (applyConfigFor : String → String → A)
    (apply : String → A → ApplyOptions → Except E T)
    (done : Unit → Bool) (cast : T)
    (hs : (!check cast || hasLabel c cast) = true) :
    (ObjectLabeler c check list applyConfigFor apply done (Payload.expected cast)).branch =
        Branch.skipAndCheck ∧
      ∀ e, e ∈ (ObjectLabeler c check list applyConfigFor apply done
          (Payload.expected cast)).trace →
        (∀ ns cfg opts, e ≠ Call.apply ns cfg opts) ∧
        (∀ name pt data opts subs, e ≠ Call.patch name pt data opts subs) ∧
        (∀ name ns, e ≠ Call.applyConfigFor name ns) ∧
        (∀ cfg entries, e ≠ Call.WithLabels cfg entries) ∧
        (∀ obj, e ≠ Call.marshal obj) ∧
        (∀ oldData newData, e ≠ Call.createMergePatch oldData newData) := by
  refine ⟨?_, fun e he => skip_calls_not_submission e
    (ObjectLabeler_skip_calls c check list applyConfigFor apply done cast hs e he)⟩
  cases hl : list Selector.Everything with
  | error err =>
    rw [ObjectLabeler_skip_error c check list applyConfigFor apply done cast err hs hl]
  | ok items =>
    rw [ObjectLabeler_skip_ok c check list applyConfigFor apply done cast items hs hl]

theorem ObjectPatchLabeler_skip_branch {E R : Type} (c : Constants)
    (check : PartialObjectMetadata → Bool)
    (list : Selector → Except E (List PartialObjectMetadata))
    (patch : String → PatchType → Json → PatchOptions → List String → Except E R)
    (done : Unit → Bool) (cast : PartialObjectMetadata)
    (hs : (!check cast || hasLabel c cast) = true) :
    (ObjectPatchLabeler c check list patch done (Payload.expected cast)).branch =
        Branch.skipAndCheck ∧
      ∀ e, e ∈ (ObjectPatchLabeler c check list patch done (Payload.expected cast)).trace →
        (∀ ns cfg opts, e ≠ Call.apply ns cfg opts) ∧
        (∀ name pt data opts subs, e ≠ Call.patch name pt data opts subs) ∧
        (∀ name ns, e ≠ Call.applyConfigFor name ns) ∧
        (∀ cfg entries, e ≠ Call.WithLabels cfg entries) ∧
        (∀ obj, e ≠ Call.marshal obj) ∧
        (∀ oldData newData, e ≠ Call.createMergePatch oldData newData) := by
  refine ⟨?_, fun e he => skip_calls_not_submission e
    (ObjectPatchLabeler_skip_calls c check list patch done cast hs e he)⟩
  cases hl : list Selector.Everything with
  | error err =>
    rw [ObjectPatchLabeler_skip_error c check list patch done cast err hs hl]
  | ok items =>
    rw [ObjectPatchLabeler_skip_ok c check list patch done cast items hs hl]

theorem exit_not_mem_skip_trace {T A : Type} [Object T] (c : Constants) (check : T → Bool)
    (cast : T) (items : List T) (code : Int) :
    (Call.exit code : Call T A) ∉ [Call.check cast, Call.list Selector.Everything] ++
          (items.foldl (fullyLabelledStep c check) (true, [])).2 ++
          (if (items.all (fun item => !check item || hasLabel c item)) = true then
            (if false = true then
              [Call.done,
                Call.log Level.info
                  "detected that every object is labelled, exiting to re-start the process...",
                Call.exit 0]
            else [Call.done])
          else []) := by
  intro h
  rcases mem_skip_trace c check cast items false _ h with
    ⟨x, hx⟩ | hx | ⟨hx, _⟩ | ⟨⟨m, hm⟩, _⟩ | ⟨_, hd, _⟩
  · cases hx
  · cases hx
  · cases hx
  · cases hm
  · cases hd

/-- C2: for both labellers the call ends in `os.Exit` exactly when the payload
has the expected type, the skip-and-check branch is taken, the listing
succeeds, every listed item is ineligible or marked, and `done()` returns
true, and the exit code is then 0. When the completion signal is true but
`done()` returns false, the call returns nil, nothing exits and no mutation is
submitted. -/
theorem exit_iff_done_confirms {T A E EP R : Type} [Object T] [ApplyConfig A]
    (c : Constants)
    (check : T → Bool) (list : Selector → Except E (List T))
    (applyConfigFor : String → String → A)
    (apply : String → A → ApplyOptions → Except E T)
    (checkP : PartialObjectMetadata → Bool)
    (listP : Selector → Except EP (List PartialObjectMetadata))
    (patch : String → PatchType → Json → PatchOptions → List String → Except EP R)
    (done : Unit → Bool) :
    (∀ (obj : Payload T) (code : Int),
      (ObjectLabeler c check list applyConfigFor apply done obj).completion =
          Completion.exited code ↔
        code = 0 ∧ ∃ cast, obj = Payload.expected cast ∧
          (check cast = false ∨ hasLabel c cast = true) ∧
          ∃ items, list Selector.Everything = Except.ok items ∧
            (∀ item, item ∈ items → check item = false ∨ hasLabel c item = true) ∧
            done () = true) ∧
    (∀ (obj : Payload PartialObjectMetadata) (code : Int),
      (ObjectPatchLabeler c checkP listP patch done obj).completion =
          Completion.exited code ↔
        code = 0 ∧ ∃ cast, obj = Payload.expected cast ∧
          (checkP cast = false ∨ hasLabel c cast = true) ∧
          ∃ items, listP Selector.Everything = Except.ok items ∧
            (∀ item, item ∈ items → checkP item = false ∨ hasLabel c item = true) ∧
            done () = true) ∧
    (∀ (cast : T) (items : List T),
      (check cast = false ∨ hasLabel c cast = true) →
      list Selector.Everything = Except.ok items →
      (∀ item, item ∈ items → check item = false ∨ hasLabel c item = true) →
      done () = false →
      (ObjectLabeler c check list applyConfigFor apply done
          (Payload.expected cast)).completion = Completion.returned none ∧
        (∀ code, Call.exit code ∉
          (ObjectLabeler c check list applyConfigFor apply done
            (Payload.expected cast)).trace) ∧
        (∀ ns cfg opts, Call.apply ns cfg opts ∉
          (ObjectLabeler c check list applyConfigFor apply done
            (Payload.expected cast)).trace)) ∧
    (∀ (cast : PartialObjectMetadata) (items : List PartialObjectMetadata),
      (checkP cast = false ∨ hasLabel c cast = true) →
      listP Selector.Everything = Except.ok items →
      (∀ item, item ∈ items → checkP item = false ∨ hasLabel c item = true) →
      done () = false →
      (ObjectPatchLabeler c checkP listP patch done
          (Payload.expected cast)).completion = Completion.returned none ∧
        (∀ code, Call.exit code ∉
          (ObjectPatchLabeler c checkP listP patch done (Payload.expected cast)).trace) ∧
        (∀ name pt data opts subs, Call.patch name pt data opts subs ∉
          (ObjectPatchLabeler c checkP listP patch done (Payload.expected cast)).trace)) := by
  refine ⟨fun obj code => ObjectLabeler_exited_iff c check list applyConfigFor apply done obj code,
    fun obj code => ObjectPatchLabeler_exited_iff c checkP listP patch done obj code, ?_, ?_⟩
  · intro cast items hs hl hall hd
    have hs' := (skip_condition_iff c check cast).mpr hs
    have hall' := (all_skip_condition_iff c check items).mpr hall
    refine ⟨?_, ?_, ?_⟩
    · rw [ObjectLabeler_skip_ok c check list applyConfigFor apply done cast items hs' hl]
      simp [hd]
    · intro code
      rw [ObjectLabeler_skip_ok c check list applyConfigFor apply done cast items hs' hl, hd]
      exact exit_not_mem_skip_trace c check cast items code
    · intro ns cfg opts hmem
      exact ((ObjectLabeler_skip_branch c check list applyConfigFor apply done cast hs').2
        _ hmem).1 ns cfg opts rfl
  · intro cast items hs hl hall hd
    have hs' := (skip_condition_iff c checkP cast).mpr hs
    have hall' := (all_skip_condition_iff c checkP items).mpr hall
    refine ⟨?_, ?_, ?_⟩
    · rw [ObjectPatchLabeler_skip_ok c checkP listP patch done cast items hs' hl]
      simp [hd]
    · intro code
      rw [ObjectPatchLabeler_skip_ok c checkP listP patch done cast items hs' hl, hd]
      exact exit_not_mem_skip_trace c checkP cast items code
    · intro name pt data opts subs hmem
      exact ((ObjectPatchLabeler_skip_branch c checkP listP patch done cast hs').2
        _ hmem).2.1 name pt data opts subs rfl

/-- C2 on a listing whose only object is marked: with `done()` returning
true the call exits with code 0, with `done()` returning false it returns nil
and no exit is recorded. -/
theorem exit_iff_done_confirms_witness :
    (ObjectPatchLabeler (E := String) (R := Unit) olmConstants (fun _ => true)
        (fun _ => Except.ok [exampleObject "a" (some markedLabels)])
        (fun _ _ _ _ _ => Except.ok ()) (fun _ => true)
        (Payload.expected (exampleObject "a" (some markedLabels)))).completion =
        Completion.exited 0 ∧
      (ObjectPatchLabeler (E := String) (R := Unit) olmConstants (fun _ => true)
        (fun _ => Except.ok [exampleObject "a" (some markedLabels)])
        (fun _ _ _ _ _ => Except.ok ()) (fun _ => false)
        (Payload.expected (exampleObject "a" (some markedLabels)))).completion =
        Completion.returned none :=
  ⟨((exit_iff_done_confirms (T := PartialObjectMetadata) (A := MetaApplyConfiguration)
      (E := String) olmConstants (fun _ => true) (fun _ => Except.ok [])
      newMetaApplyConfiguration (fun _ _ _ => Except.error "unused") (fun _ => true)
      (fun _ => Except.ok [exampleObject "a" (some markedLabels)])
      (fun _ _ _ _ _ => Except.ok ()) (fun _ => true)).2.1
      (Payload.expected (exampleObject "a" (some markedLabels))) 0).mpr
      ⟨rfl, _, rfl, Or.inr (by decide), _, rfl, by
        intro item hitem
        simp only [List.mem_singleton] at hitem
        subst hitem
        exact Or.inr (by decide), rfl⟩,
    ((exit_iff_done_confirms (T := PartialObjectMetadata) (A := MetaApplyConfiguration)
      (E := String) olmConstants (fun _ => true) (fun _ => Except.ok [])
      newMetaApplyConfiguration (fun _ _ _ => Except.error "unused") (fun _ => true)
      (fun _ => Except.ok [exampleObject "a" (some markedLabels)])
      (fun _ _ _ _ _ => Except.ok ()) (fun _ => false)).2.2.2
      (exampleObject "a" (some markedLabels)) [exampleObject "a" (some markedLabels)]
      (Or.inr (by decide)) rfl (by
        intro item hitem
        simp only [List.mem_singleton] at hitem
        subst hitem
        exact Or.inr (by decide)) rfl).1⟩

/-- C3: an object whose label map holds the marker key with the marker value
is never submitted: whatever `check` answers and whatever the other
collaborators do, both labellers take the skip-and-check branch and call
neither `apply` nor `patch`, on a first call and on a repeated call with the
same object (whose collaborators may by then answer differently). -/
theorem marked_object_is_never_submitted {T A E EP R : Type} [Object T] [ApplyConfig A]
    (c : Constants) (cast : T) (castP : PartialObjectMetadata)
    (hm : ∃ m, Object.GetLabels cast = some m ∧
      m.lookup c.OLMManagedLabelKey = some c.OLMManagedLabelValue)
    (hmP : ∃ m, Object.GetLabels castP = some m ∧
      m.lookup c.OLMManagedLabelKey = some c.OLMManagedLabelValue)
    (check check' : T → Bool) (list list' : Selector → Except E (List T))
    (applyConfigFor applyConfigFor' : String → String → A)
    (apply apply' : String → A → ApplyOptions → Except E T)
    (checkP checkP' : PartialObjectMetadata → Bool)
    (listP listP' : Selector → Except EP (List PartialObjectMetadata))
    (patch patch' : String → PatchType → Json → PatchOptions → List String → Except EP R)
    (done done' : Unit → Bool) :
    ((ObjectLabeler c check list applyConfigFor apply done (Payload.expected cast)).branch =
        Branch.skipAndCheck ∧
      ∀ ns cfg opts, Call.apply ns cfg opts ∉
        (ObjectLabeler c check list applyConfigFor apply done (Payload.expected cast)).trace) ∧
    ((ObjectLabeler c check' list' applyConfigFor' apply' done'
        (Payload.expected cast)).branch = Branch.skipAndCheck ∧
      ∀ ns cfg opts, Call.apply ns cfg opts ∉
        (ObjectLabeler c check' list' applyConfigFor' apply' done'
          (Payload.expected cast)).trace) ∧
    ((ObjectPatchLabeler c checkP listP patch done (Payload.expected castP)).branch =
        Branch.skipAndCheck ∧
      ∀ name pt data opts subs, Call.patch name pt data opts subs ∉
        (ObjectPatchLabeler c checkP listP patch done (Payload.expected castP)).trace) ∧
    ((ObjectPatchLabeler c checkP' listP' patch' done' (Payload.expected castP)).branch =
        Branch.skipAndCheck ∧
      ∀ name pt data opts subs, Call.patch name pt data opts subs ∉
        (ObjectPatchLabeler c checkP' listP' patch' done' (Payload.expected castP)).trace) := by
  have hl : hasLabel c cast = true := (hasLabel_eq_true_iff c cast).mpr hm
  have hlP : hasLabel c castP = true := (hasLabel_eq_true_iff c castP).mpr hmP
  have one : ∀ (chk : T → Bool) (lst : Selector → Except E (List T))
      (acf : String → String → A) (app : String → A → ApplyOptions → Except E T)
      (dn : Unit → Bool),
      (ObjectLabeler c chk lst acf app dn (Payload.expected cast)).branch =
          Branch.skipAndCheck ∧
        ∀ ns cfg opts, Call.apply ns cfg opts ∉
          (ObjectLabeler c chk lst acf app dn (Payload.expected cast)).trace := by
    intro chk lst acf app dn
    have hs : (!chk cast || hasLabel c cast) = true := by simp [hl]
    have h := ObjectLabeler_skip_branch c chk lst acf app dn cast hs
    exact ⟨h.1, fun ns cfg opts hmem => (h.2 _ hmem).1 ns cfg opts rfl⟩
  have oneP : ∀ (chk : PartialObjectMetadata → Bool)
      (lst : Selector → Except EP (List PartialObjectMetadata))
      (pch : String → PatchType → Json → PatchOptions → List String → Except EP R)
      (dn : Unit → Bool),
      (ObjectPatchLabeler c chk lst pch dn (Payload.expected castP)).branch =
          Branch.skipAndCheck ∧
        ∀ name pt data opts subs, Call.patch name pt data opts subs ∉
          (ObjectPatchLabeler c chk lst pch dn (Payload.expected castP)).trace := by
    intro chk lst pch dn
    have hs : (!chk castP || hasLabel c castP) = true := by simp [hlP]
    have h := ObjectPatchLabeler_skip_branch c chk lst pch dn castP hs
    exact ⟨h.1, fun name pt data opts subs hmem => (h.2 _ hmem).2.1 name pt data opts subs rfl⟩
  exact ⟨one check list applyConfigFor apply done, one check' list' applyConfigFor' apply' done',
    oneP checkP listP patch done, oneP checkP' listP' patch' done'⟩

/-- C3 on `{"a":"1","olm.managed":"true"}` with `check` answering true: the
patch labeller takes the skip-and-check branch on two calls in a row, the
second with a different listing and arbiter. -/
theorem marked_object_is_never_submitted_witness :
    (ObjectPatchLabeler (E := String) (R := Unit) olmConstants (fun _ => true)
        (fun _ => Except.ok []) (fun _ _ _ _ _ => Except.ok ()) (fun _ => false)
        (Payload.expected (exampleObject "crd" (some markedLabels)))).branch =
        Branch.skipAndCheck ∧
      (ObjectPatchLabeler (E := String) (R := Unit) olmConstants (fun _ => true)
        (fun _ => Except.error "unavailable") (fun _ _ _ _ _ => Except.ok ()) (fun _ => true)
        (Payload.expected (exampleObject "crd" (some markedLabels)))).branch =
        Branch.skipAndCheck :=
  have h := marked_object_is_never_submitted (T := PartialObjectMetadata)
    (A := MetaApplyConfiguration) (E := String) (R := Unit) olmConstants
    (exampleObject "crd" (some markedLabels)) (exampleObject "crd" (some markedLabels))
    ⟨markedLabels, rfl, by decide⟩ ⟨markedLabels, rfl, by decide⟩
    (fun _ => true) (fun _ => true) (fun _ => Except.ok []) (fun _ => Except.ok [])
    newMetaApplyConfiguration newMetaApplyConfiguration
    (fun _ _ _ => Except.error "unused") (fun _ _ _ => Except.error "unused")
    (fun _ => true) (fun _ => true)
    (fun _ => Except.ok []) (fun _ => Except.error "unavailable")
    (fun _ _ _ _ _ => Except.ok ()) (fun _ _ _ _ _ => Except.ok ())
    (fun _ => false) (fun _ => true)
  ⟨h.2.2.1.1, h.2.2.2.1⟩

/-- C4: an object for which `check` returns false, marked or not, is out of
scope: both labellers take the skip-and-check branch, never call `apply` or
`patch`, and never build an update for it (no `applyConfigFor`, `WithLabels`,
`json.Marshal` or `CreateMergePatch` call). -/
theorem ineligible_object_is_never_submitted {T A E EP R : Type} [Object T] [ApplyConfig A]
    (c : Constants) (cast : T) (castP : PartialObjectMetadata)
    (check : T → Bool) (list : Selector → Except E (List T))
    (applyConfigFor : String → String → A)
    (apply : String → A → ApplyOptions → Except E T)
    (checkP : PartialObjectMetadata → Bool)
    (listP : Selector → Except EP (List PartialObjectMetadata))
    (patch : String → PatchType → Json → PatchOptions → List String → Except EP R)
    (done : Unit → Bool)
    (hc : check cast = false) (hcP : checkP castP = false) :
    ((ObjectLabeler c check list applyConfigFor apply done (Payload.expected cast)).branch =
        Branch.skipAndCheck ∧
      (∀ ns cfg opts, Call.apply ns cfg opts ∉
        (ObjectLabeler c check list applyConfigFor apply done (Payload.expected cast)).trace) ∧
      (∀ name ns, Call.applyConfigFor name ns ∉
        (ObjectLabeler c check list applyConfigFor apply done (Payload.expected cast)).trace) ∧
      (∀ cfg entries, Call.WithLabels cfg entries ∉
        (ObjectLabeler c check list applyConfigFor apply done
          (Payload.expected cast)).trace)) ∧
    ((ObjectPatchLabeler c checkP listP patch done (Payload.expected castP)).branch =
        Branch.skipAndCheck ∧
      (∀ name pt data opts subs, Call.patch name pt data opts subs ∉
        (ObjectPatchLabeler c checkP listP patch done (Payload.expected castP)).trace) ∧
      (∀ obj, Call.marshal obj ∉
        (ObjectPatchLabeler c checkP listP patch done (Payload.expected castP)).trace) ∧
      (∀ oldData newData, Call.createMergePatch oldData newData ∉
        (ObjectPatchLabeler c checkP listP patch done (Payload.expected castP)).trace)) := by
  have hs : (!check cast || hasLabel c cast) = true := by simp [hc]
  have hsP : (!checkP castP || hasLabel c castP) = true := by simp [hcP]
  have h := ObjectLabeler_skip_branch c check list applyConfigFor apply done cast hs
  have hP := ObjectPatchLabeler_skip_branch c checkP listP patch done castP hsP
  exact ⟨⟨h.1, fun ns cfg opts hmem => (h.2 _ hmem).1 ns cfg opts rfl,
      fun name ns hmem => (h.2 _ hmem).2.2.1 name ns rfl,
      fun cfg entries hmem => (h.2 _ hmem).2.2.2.1 cfg entries rfl⟩,
    ⟨hP.1, fun name pt data opts subs hmem => (hP.2 _ hmem).2.1 name pt data opts subs rfl,
      fun obj hmem => (hP.2 _ hmem).2.2.2.2.1 obj rfl,
      fun oldData newData hmem => (hP.2 _ hmem).2.2.2.2.2 oldData newData rfl⟩⟩

/-- C4 on the unmarked object `{"a":"1"}` with `check` answering false: both
labellers take the skip-and-check branch. -/
theorem ineligible_object_is_never_submitted_witness :
    (ObjectLabeler (A := MetaApplyConfiguration) (E := String) olmConstants (fun _ => false)
        (fun _ => Except.ok []) newMetaApplyConfiguration
        (fun _ _ _ => Except.error "unused") (fun _ => false)
        (Payload.expected (exampleObject "crd" (some unmarkedLabels)))).branch =
        Branch.skipAndCheck ∧
      (ObjectPatchLabeler (E := String) (R := Unit) olmConstants (fun _ => false)
        (fun _ => Except.ok []) (fun _ _ _ _ _ => Except.ok ()) (fun _ => false)
        (Payload.expected (exampleObject "crd" (some unmarkedLabels)))).branch =
        Branch.skipAndCheck :=
  have h := ineligible_object_is_never_submitted (A := MetaApplyConfiguration) (E := String)
    (R := Unit) olmConstants
    (exampleObject "crd" (some unmarkedLabels)) (exampleObject "crd" (some unmarkedLabels))
    (fun _ => false) (fun _ => Except.ok []) newMetaApplyConfiguration
    (fun _ _ _ => Except.error "unused")
    (fun _ => false) (fun _ => Except.ok []) (fun _ _ _ _ _ => Except.ok ())
    (fun _ => false) rfl rfl
  ⟨h.1.1, h.2.1⟩

/-- C8: a payload that is not of the labeller's concrete type makes both
labellers return a non-nil error; the only thing the call does is write one
error-level log line, so `check`, `list`, `done`, `applyConfigFor`, `apply`
and `patch` are not invoked and the process does not exit. -/
theorem foreign_payload_is_rejected {T A E EP R : Type} [Object T] [ApplyConfig A]
    (c : Constants)
    (check : T → Bool) (list : Selector → Except E (List T))
    (applyConfigFor : String → String → A)
    (apply : String → A → ApplyOptions → Except E T)
    (checkP : PartialObjectMetadata → Bool)
    (listP : Selector → Except EP (List PartialObjectMetadata))
    (patch : String → PatchType → Json → PatchOptions → List String → Except EP R)
    (done : Unit → Bool) (goType : String) :
    ((∃ err, (ObjectLabeler c check list applyConfigFor apply done
          (Payload.foreign goType)).completion = Completion.returned (some err)) ∧
      (ObjectLabeler c check list applyConfigFor apply done
          (Payload.foreign goType)).branch = Branch.typeError ∧
      ∀ e, e ∈ (ObjectLabeler c check list applyConfigFor apply done
          (Payload.foreign goType)).trace → ∃ msg, e = Call.log Level.error msg) ∧
    ((∃ err, (ObjectPatchLabeler c checkP listP patch done
          (Payload.foreign goType)).completion = Completion.returned (some err)) ∧
      (ObjectPatchLabeler c checkP listP patch done
          (Payload.foreign goType)).branch = Branch.typeError ∧
      ∀ e, e ∈ (ObjectPatchLabeler c checkP listP patch done
          (Payload.foreign goType)).trace → ∃ msg, e = Call.log Level.error msg) := by
  refine ⟨⟨⟨_, rfl⟩, rfl, ?_⟩, ⟨⟨_, rfl⟩, rfl, ?_⟩⟩
  · intro e he
    simp only [ObjectLabeler, List.mem_singleton] at he
    exact ⟨_, he⟩
  · intro e he
    simp only [ObjectPatchLabeler, List.mem_singleton] at he
    exact ⟨_, he⟩

/-- C9: when the skip-and-check branch is taken and `list` returns an error,
both labellers return nil; `done()` is not invoked, the process does not exit
and nothing is submitted. -/
theorem listing_failure_is_swallowed {T A E EP R : Type} [Object T] [ApplyConfig A]
    (c : Constants) (cast : T) (castP : PartialObjectMetadata)
    (check : T → Bool) (list : Selector → Except E (List T))
    (applyConfigFor : String → String → A)
    (apply : String → A → ApplyOptions → Except E T)
    (checkP : PartialObjectMetadata → Bool)
    (listP : Selector → Except EP (List PartialObjectMetadata))
    (patch : String → PatchType → Json → PatchOptions → List String → Except EP R)
    (done : Unit → Bool) (err : E) (errP : EP)
    (hs : check cast = false ∨ hasLabel c cast = true)
    (hsP : checkP castP = false ∨ hasLabel c castP = true)
    (hl : list Selector.Everything = Except.error err)
    (hlP : listP Selector.Everything = Except.error errP) :
    ((ObjectLabeler c check list applyConfigFor apply done
          (Payload.expected cast)).completion = Completion.returned none ∧
      Call.done ∉ (ObjectLabeler c check list applyConfigFor apply done
          (Payload.expected cast)).trace ∧
      (∀ code, Call.exit code ∉ (ObjectLabeler c check list applyConfigFor apply done
          (Payload.expected cast)).trace) ∧
      (∀ ns cfg opts, Call.apply ns cfg opts ∉
        (ObjectLabeler c check list applyConfigFor apply done
          (Payload.expected cast)).trace)) ∧
    ((ObjectPatchLabeler c checkP listP patch done
          (Payload.expected castP)).completion = Completion.returned none ∧
      Call.done ∉ (ObjectPatchLabeler c checkP listP patch done
          (Payload.expected castP)).trace ∧
      (∀ code, Call.exit code ∉ (ObjectPatchLabeler c checkP listP patch done
          (Payload.expected castP)).trace) ∧
      (∀ name pt data opts subs, Call.patch name pt data opts subs ∉
        (ObjectPatchLabeler c checkP listP patch done (Payload.expected castP)).trace)) := by
  have hs' := (skip_condition_iff c check cast).mpr hs
  have hsP' := (skip_condition_iff c checkP castP).mpr hsP
  rw [ObjectLabeler_skip_error c check list applyConfigFor apply done cast err hs' hl,
    ObjectPatchLabeler_skip_error c checkP listP patch done castP errP hsP' hlP]
  simp

/-- C9 on a marked object with a failing `list`: the patch labeller returns
nil. -/
theorem listing_failure_is_swallowed_witness :
    (ObjectPatchLabeler (E := String) (R := Unit) olmConstants (fun _ => true)
        (fun _ => Except.error "connection refused") (fun _ _ _ _ _ => Except.ok ())
        (fun _ => true)
        (Payload.expected (exampleObject "crd" (some markedLabels)))).completion =
      Completion.returned none :=
  (listing_failure_is_swallowed (A := MetaApplyConfiguration) (E := String) (R := Unit)
    olmConstants
    (exampleObject "crd" (some markedLabels)) (exampleObject "crd" (some markedLabels))
    (fun _ => true) (fun _ => Except.error "connection refused") newMetaApplyConfiguration
    (fun _ _ _ => Except.error "unused")
    (fun _ => true) (fun _ => Except.error "connection refused")
    (fun _ _ _ _ _ => Except.ok ()) (fun _ => true)
    "connection refused" "connection refused"
    (Or.inr (by decide)) (Or.inr (by decide)) rfl rfl).2.1

theorem HasOLMOwnerRef_eq_true_iff {T : Type} [Object T] (c : Constants) (object : T) :
    HasOLMOwnerRef c object = true ↔
      (∃ ref, ref ∈ Object.GetOwnerReferences object ∧
        (ref.APIVersion = c.operatorsv1GroupVersion.toGoString ∨
          ref.APIVersion = c.operatorsv1alpha1SchemeGroupVersion.toGoString ∨
          ref.APIVersion = c.operatorsv1alpha2GroupVersion.toGoString)) ∨
      (∃ m, Object.GetLabels object = some m ∧
        (∃ v, m.lookup c.OwnerKey = some v) ∧
        (∃ v, m.lookup c.OwnerNamespaceKey = some v) ∧
        (∃ v, m.lookup c.OwnerKind = some v)) := by
  have hidx : ∀ k, (mapIndex (Object.GetLabels object) k).2 = true ↔
      ∃ m, Object.GetLabels object = some m ∧ ∃ v, m.lookup k = some v := by
    intro k
    rw [mapIndex_snd]
    constructor
    · rintro ⟨l, v, h1, h2⟩
      exact ⟨l, h1, v, h2⟩
    · rintro ⟨l, h1, v, h2⟩
      exact ⟨l, v, h1, h2⟩
  unfold HasOLMOwnerRef
  by_cases hany : ((Object.GetOwnerReferences object).any (fun ref =>
      [c.operatorsv1GroupVersion, c.operatorsv1alpha1SchemeGroupVersion,
        c.operatorsv1alpha2GroupVersion].any
        (fun gv => ref.APIVersion == gv.toGoString))) = true
  · rw [if_pos hany]
    simp only [true_iff]
    left
    simp only [List.any_eq_true, List.mem_cons, List.mem_singleton, List.not_mem_nil,
      or_false, beq_iff_eq] at hany
    obtain ⟨ref, href, gv, hgv, he⟩ := hany
    refine ⟨ref, href, ?_⟩
    rcases hgv with h | h | h <;> subst h
    · exact Or.inl he
    · exact Or.inr (Or.inl he)
    · exact Or.inr (Or.inr he)
  · rw [if_neg hany]
    simp only [List.any_eq_true, List.mem_cons, List.mem_singleton, List.not_mem_nil,
      or_false, beq_iff_eq, not_exists, not_and] at hany
    simp only [List.foldl_cons, List.foldl_nil, Bool.true_and, Bool.and_eq_true]
    rw [hidx, hidx, hidx]
    constructor
    · rintro ⟨⟨⟨m, hm, h1⟩, ⟨m2, hm2, h2⟩⟩, ⟨m3, hm3, h3⟩⟩
      rw [hm] at hm2 hm3
      cases hm2
      cases hm3
      exact Or.inr ⟨m, hm, h1, h2, h3⟩
    · rintro (⟨ref, href, hv⟩ | ⟨m, hm, h1, h2, h3⟩)
      · exfalso
        rcases hv with h | h | h
        · exact hany ref href _ (Or.inl rfl) h
        · exact hany ref href _ (Or.inr (Or.inl rfl)) h
        · exact hany ref href _ (Or.inr (Or.inr rfl)) h
      · exact ⟨⟨⟨m, hm, h1⟩, ⟨m, hm, h2⟩⟩, ⟨m, hm, h3⟩⟩

/-- C7: `HasOLMOwnerRef` is true exactly when some owner reference has an
API version equal to the string form of one of the three OLM group-versions,
or the label map contains the owner-key, owner-namespace and owner-kind label
keys, whatever their values. So an object with no matching owner reference
that lacks one of the three owner labels is not owned, and neither is an
object with nil labels and no owner references. -/
theorem HasOLMOwnerRef_iff_owner_reference_or_owner_labels {T : Type} [Object T]
    (c : Constants) (object : T) :
    (HasOLMOwnerRef c object = true ↔
      (∃ ref, ref ∈ Object.GetOwnerReferences object ∧
        (ref.APIVersion = c.operatorsv1GroupVersion.toGoString ∨
          ref.APIVersion = c.operatorsv1alpha1SchemeGroupVersion.toGoString ∨
          ref.APIVersion = c.operatorsv1alpha2GroupVersion.toGoString)) ∨
      (∃ m, Object.GetLabels object = some m ∧
        (∃ v, m.lookup c.OwnerKey = some v) ∧
        (∃ v, m.lookup c.OwnerNamespaceKey = some v) ∧
        (∃ v, m.lookup c.OwnerKind = some v))) ∧
    ((∀ ref, ref ∈ Object.GetOwnerReferences object →
        ref.APIVersion ≠ c.operatorsv1GroupVersion.toGoString ∧
        ref.APIVersion ≠ c.operatorsv1alpha1SchemeGroupVersion.toGoString ∧
        ref.APIVersion ≠ c.operatorsv1alpha2GroupVersion.toGoString) →
      (∀ m, Object.GetLabels object = some m →
        m.lookup c.OwnerKey = none ∨ m.lookup c.OwnerNamespaceKey = none ∨
          m.lookup c.OwnerKind = none) →
      HasOLMOwnerRef c object = false) ∧
    (Object.GetOwnerReferences object = [] → Object.GetLabels object = none →
      HasOLMOwnerRef c object = false) := by
  have hiff := HasOLMOwnerRef_eq_true_iff c object
  refine ⟨hiff, ?_, ?_⟩
  · intro hrefs hlabels
    cases hb : HasOLMOwnerRef c object with
    | false => rfl
    | true =>
      exfalso
      rcases hiff.mp hb with ⟨ref, href, hv⟩ | ⟨m, hm, ⟨v1, h1⟩, ⟨v2, h2⟩, ⟨v3, h3⟩⟩
      · obtain ⟨n1, n2, n3⟩ := hrefs ref href
        rcases hv with h | h | h
        · exact n1 h
        · exact n2 h
        · exact n3 h
      · rcases hlabels m hm with h | h | h
        · rw [h1] at h; cases h
        · rw [h2] at h; cases h
        · rw [h3] at h; cases h
  · intro hrefs hnil
    cases hb : HasOLMOwnerRef c object with
    | false => rfl
    | true =>
      exfalso
      rcases hiff.mp hb with ⟨ref, href, _⟩ | ⟨m, hm, _⟩
      · rw [hrefs] at href
        cases href
      · rw [hnil] at hm
        cases hm

/-- C7 on concrete objects without owner references: nil labels, and two of
the three owner labels, are not owned; the three owner labels with arbitrary
values are owned. -/
theorem HasOLMOwnerRef_iff_owner_reference_or_owner_labels_witness :
    HasOLMOwnerRef olmConstants (exampleObject "crd" none) = false ∧
      HasOLMOwnerRef olmConstants (exampleObject "crd" (some
        ⟨[("olm.owner", ""), ("olm.owner.namespace", "x")], by decide⟩)) = false ∧
      HasOLMOwnerRef olmConstants (exampleObject "crd" (some
        ⟨[("olm.owner", ""), ("olm.owner.namespace", "x"), ("olm.owner.kind", "y")],
          by decide⟩)) = true :=
  ⟨(HasOLMOwnerRef_iff_owner_reference_or_owner_labels olmConstants
      (exampleObject "crd" none)).2.2 rfl rfl,
    (HasOLMOwnerRef_iff_owner_reference_or_owner_labels olmConstants
      (exampleObject "crd" (some
        ⟨[("olm.owner", ""), ("olm.owner.namespace", "x")], by decide⟩))).2.1
      (fun _ href => by cases href)
      (fun m hm => by
        cases hm
        exact Or.inr (Or.inr (by decide))),
    (HasOLMOwnerRef_iff_owner_reference_or_owner_labels olmConstants
      (exampleObject "crd" (some
        ⟨[("olm.owner", ""), ("olm.owner.namespace", "x"), ("olm.owner.kind", "y")],
          by decide⟩))).1.mpr
      (Or.inr ⟨_, rfl, ⟨"", by decide⟩, ⟨"x", by decide⟩, ⟨"y", by decide⟩⟩)⟩

theorem omitemptyString_of_ne (s : String) (h : s ≠ "") :
    omitemptyString s = some (Json.str s) := by
  simp [omitemptyString, h]

/-- The patch call of the mark arm, with the patch body in closed form. -/
theorem ObjectPatchLabeler_patch_mem {E R : Type} (c : Constants)
    (check : PartialObjectMetadata → Bool)
    (list : Selector → Except E (List PartialObjectMetadata))
    (patch : String → PatchType → Json → PatchOptions → List String → Except E R)
    (done : Unit → Bool) (cast : PartialObjectMetadata)
    (he : check cast = true) (hu : hasLabel c cast = false)
    (name : String) (pt : PatchType) (data : Json) (opts : PatchOptions)
    (subs : List String) :
    Call.patch name pt data opts subs ∈
        (ObjectPatchLabeler c check list patch done (Payload.expected cast)).trace ↔
      name = cast.ObjectMeta.Name ∧ pt = PatchType.MergePatchType ∧
        data = Json.obj [("metadata", Json.obj (structMembers
          [("uid", omitemptyString cast.ObjectMeta.UID),
           ("resourceVersion", omitemptyString cast.ObjectMeta.ResourceVersion),
           ("labels", some (Json.obj
              [(c.OLMManagedLabelKey, Json.str c.OLMManagedLabelValue)]))]))] ∧
        opts = { DryRun := [], Force := none, FieldManager := "olm-ownership-labeller",
                 FieldValidation := "" } ∧
        subs = [] := by
  have hs : (!check cast || hasLabel c cast) = false := by simp [he, hu]
  rw [ObjectPatchLabeler_mark c check list patch done cast hs, getDiff_snapshots c cast hu]
  simp [Object.GetName]

/-- C6: for an eligible, unmarked `PartialObjectMetadata` with a non-empty UID
and resource version, `ObjectPatchLabeler` submits one merge patch, and its
body is exactly `metadata` holding `uid` and `resourceVersion` with the
observed object's values and `labels` holding the marker key with the marker
value: no other field and no other label key. -/
theorem merge_patch_is_preconditions_and_marker {E R : Type} (c : Constants)
    (check : PartialObjectMetadata → Bool)
    (list : Selector → Except E (List PartialObjectMetadata))
    (patch : String → PatchType → Json → PatchOptions → List String → Except E R)
    (done : Unit → Bool) (cast : PartialObjectMetadata)
    (he : check cast = true) (hu : hasLabel c cast = false)
    (huid : Object.GetUID cast ≠ "") (hrv : Object.GetResourceVersion cast ≠ "") :
    Call.patch (Object.GetName cast) PatchType.MergePatchType
        (Json.obj [("metadata", Json.obj
          [("uid", Json.str (Object.GetUID cast)),
           ("resourceVersion", Json.str (Object.GetResourceVersion cast)),
           ("labels", Json.obj [(c.OLMManagedLabelKey, Json.str c.OLMManagedLabelValue)])])])
        { DryRun := [], Force := none, FieldManager := "olm-ownership-labeller",
          FieldValidation := "" } [] ∈
        (ObjectPatchLabeler c check list patch done (Payload.expected cast)).trace ∧
      ∀ name pt data opts subs, Call.patch name pt data opts subs ∈
          (ObjectPatchLabeler c check list patch done (Payload.expected cast)).trace →
        pt = PatchType.MergePatchType ∧
        data = Json.obj [("metadata", Json.obj
          [("uid", Json.str (Object.GetUID cast)),
           ("resourceVersion", Json.str (Object.GetResourceVersion cast)),
           ("labels", Json.obj
              [(c.OLMManagedLabelKey, Json.str c.OLMManagedLabelValue)])])] := by
  have h1 : omitemptyString cast.ObjectMeta.UID = some (Json.str cast.ObjectMeta.UID) :=
    omitemptyString_of_ne _ huid
  have h2 : omitemptyString cast.ObjectMeta.ResourceVersion =
      some (Json.str cast.ObjectMeta.ResourceVersion) := omitemptyString_of_ne _ hrv
  have hbody : structMembers
      [("uid", omitemptyString cast.ObjectMeta.UID),
       ("resourceVersion", omitemptyString cast.ObjectMeta.ResourceVersion),
       ("labels", some (Json.obj
          [(c.OLMManagedLabelKey, Json.str c.OLMManagedLabelValue)]))] =
      [("uid", Json.str (Object.GetUID cast)),
       ("resourceVersion", Json.str (Object.GetResourceVersion cast)),
       ("labels", Json.obj [(c.OLMManagedLabelKey, Json.str c.OLMManagedLabelValue)])] := by
    rw [h1, h2]
    rfl
  constructor
  · rw [ObjectPatchLabeler_patch_mem c check list patch done cast he hu, hbody]
    exact ⟨rfl, rfl, rfl, rfl, rfl⟩
  · intro name pt data opts subs hmem
    rw [ObjectPatchLabeler_patch_mem c check list patch done cast he hu, hbody] at hmem
    exact ⟨hmem.2.1, hmem.2.2.1⟩

/-- C6 on the object `crd` with labels `{"a":"1"}`, UID `u-1` and resource
version `42`: the patch is submitted with exactly these three members. -/
theorem merge_patch_is_preconditions_and_marker_witness :
    Call.patch "crd" PatchType.MergePatchType
        (Json.obj [("metadata", Json.obj
          [("uid", Json.str "u-1"), ("resourceVersion", Json.str "42"),
           ("labels", Json.obj [("olm.managed", Json.str "true")])])])
        { DryRun := [], Force := none, FieldManager := "olm-ownership-labeller",
          FieldValidation := "" } [] ∈
      (ObjectPatchLabeler (E := String) (R := Unit) olmConstants (fun _ => true)
        (fun _ => Except.ok []) (fun _ _ _ _ _ => Except.ok ()) (fun _ => false)
        (Payload.expected (exampleObject "crd" (some unmarkedLabels)))).trace :=
  (merge_patch_is_preconditions_and_marker (E := String) (R := Unit) olmConstants
    (fun _ => true) (fun _ => Except.ok []) (fun _ _ _ _ _ => Except.ok ()) (fun _ => false)
    (exampleObject "crd" (some unmarkedLabels)) rfl (by decide) (by decide) (by decide)).1

theorem ObjectLabeler_apply_mem {T A E : Type} [Object T] [ApplyConfig A] (c : Constants)
    (check : T → Bool) (list : Selector → Except E (List T))
    (applyConfigFor : String → String → A)
    (apply : String → A → ApplyOptions → Except E T)
    (done : Unit → Bool) (cast : T)
    (he : check cast = true) (hu : hasLabel c cast = false)
    (ns : String) (cfg : A) (opts : ApplyOptions) :
    Call.apply ns cfg opts ∈
        (ObjectLabeler c check list applyConfigFor apply done (Payload.expected cast)).trace ↔
      ns = Object.GetNamespace cast ∧
        cfg = (ApplyConfig.WithLabels
          (applyConfigFor (Object.GetName cast) (Object.GetNamespace cast))
          (StringMap.singleton c.OLMManagedLabelKey c.OLMManagedLabelValue)).1 ∧
        opts = { DryRun := [], Force := false, FieldManager := "olm-ownership-labeller" } := by
  have hs : (!check cast || hasLabel c cast) = false := by simp [he, hu]
  rw [ObjectLabeler_mark c check list applyConfigFor apply done cast hs]
  simp

theorem StringMap.lookup_empty (k : String) : StringMap.empty.lookup k = none := rfl

theorem MetaApplyConfiguration.WithLabels_singleton (b : MetaApplyConfiguration)
    (k v : String) (hb : b.Labels = none) :
    (b.WithLabels (StringMap.singleton k v)).Labels = some (StringMap.empty.set k v) := by
  simp [MetaApplyConfiguration.WithLabels, StringMap.singleton, hb]

theorem updatedSnapshot_Labels (c : Constants) (cast : PartialObjectMetadata) :
    (updatedSnapshot c cast).ObjectMeta.Labels =
      some ((cast.ObjectMeta.Labels.getD StringMap.empty).set
        c.OLMManagedLabelKey c.OLMManagedLabelValue) := rfl

/-- C5, as stated, fails: for the eligible, unmarked object with labels
`{"a":"1"}`, the apply configuration that `ObjectLabeler` submits does not
contain the key `a`. -/
theorem submitted_labels_are_the_marker_only_counterexample :
    ¬ (∀ ns cfg opts, Call.apply ns cfg opts ∈
        (ObjectLabeler (E := String) olmConstants (fun _ => true) (fun _ => Except.ok [])
          newMetaApplyConfiguration (fun _ _ _ => Except.error "unused") (fun _ => false)
          (Payload.expected (exampleObject "crd" (some unmarkedLabels)))).trace →
        ∀ k v, unmarkedLabels.lookup k = some v →
          ∃ l, cfg.Labels = some l ∧ l.lookup k = some v) := by
  intro h
  obtain ⟨l, hl, hk⟩ := h ""
    ((newMetaApplyConfiguration "crd" "").WithLabels (StringMap.singleton "olm.managed" "true"))
    { DryRun := [], Force := false, FieldManager := "olm-ownership-labeller" }
    ((ObjectLabeler_apply_mem olmConstants (fun _ => true) (fun _ => Except.ok [])
      newMetaApplyConfiguration (fun _ _ _ => Except.error "unused") (fun _ => false)
      (exampleObject "crd" (some unmarkedLabels)) rfl (by decide) _ _ _).mpr ⟨rfl, rfl, rfl⟩)
    "a" "1" (by decide)
  cases hl
  revert hk
  decide

/-- C5, amended: for an eligible, unmarked object with label map `L`, the
label set that is submitted holds the marker key with the marker value and
nothing else: the apply configuration of `ObjectLabeler` (for a configuration
that `applyConfigFor` returns without labels) has exactly that label, and the
merge patch of `ObjectPatchLabeler` has exactly that member under
`metadata.labels`. The keys of `L` are not part of the submission. `L`
extended with the marker is the label map of the "after" snapshot from which
the patch is computed, where no key of `L` is missing. -/
theorem submitted_labels_are_the_marker_only {T E EP R : Type} [Object T] (c : Constants)
    (check : T → Bool) (list : Selector → Except E (List T))
    (applyConfigFor : String → String → MetaApplyConfiguration)
    (apply : String → MetaApplyConfiguration → ApplyOptions → Except E T)
    (checkP : PartialObjectMetadata → Bool)
    (listP : Selector → Except EP (List PartialObjectMetadata))
    (patch : String → PatchType → Json → PatchOptions → List String → Except EP R)
    (done : Unit → Bool) (cast : T) (castP : PartialObjectMetadata)
    (he : check cast = true) (hu : hasLabel c cast = false)
    (hfresh : (applyConfigFor (Object.GetName cast) (Object.GetNamespace cast)).Labels = none)
    (heP : checkP castP = true) (huP : hasLabel c castP = false) :
    ((∃ ns cfg opts, Call.apply ns cfg opts ∈
        (ObjectLabeler c check list applyConfigFor apply done (Payload.expected cast)).trace) ∧
      ∀ ns cfg opts, Call.apply ns cfg opts ∈
          (ObjectLabeler c check list applyConfigFor apply done (Payload.expected cast)).trace →
        ∃ l, cfg.Labels = some l ∧
          ∀ k, l.lookup k =
            if k = c.OLMManagedLabelKey then some c.OLMManagedLabelValue else none) ∧
    ((∃ name pt data opts subs, Call.patch name pt data opts subs ∈
        (ObjectPatchLabeler c checkP listP patch done (Payload.expected castP)).trace) ∧
      ∀ name pt data opts subs, Call.patch name pt data opts subs ∈
          (ObjectPatchLabeler c checkP listP patch done (Payload.expected castP)).trace →
        data = Json.obj [("metadata", Json.obj (structMembers
          [("uid", omitemptyString castP.ObjectMeta.UID),
           ("resourceVersion", omitemptyString castP.ObjectMeta.ResourceVersion),
           ("labels", some (Json.obj
              [(c.OLMManagedLabelKey, Json.str c.OLMManagedLabelValue)]))]))]) ∧
    (∃ l, (updatedSnapshot c castP).ObjectMeta.Labels = some l ∧
      ∀ k, l.lookup k =
        if k = c.OLMManagedLabelKey then some c.OLMManagedLabelValue
        else castP.ObjectMeta.Labels.bind (fun labels => labels.lookup k)) := by
  refine ⟨⟨⟨_, _, _, (ObjectLabeler_apply_mem c check list applyConfigFor apply done cast
      he hu _ _ _).mpr ⟨rfl, rfl, rfl⟩⟩, ?_⟩,
    ⟨⟨_, _, _, _, _, (ObjectPatchLabeler_patch_mem c checkP listP patch done castP heP huP
      _ _ _ _ _).mpr ⟨rfl, rfl, rfl, rfl, rfl⟩⟩, ?_⟩, ?_⟩
  · intro ns cfg opts hmem
    obtain ⟨_, hcfg, _⟩ :=
      (ObjectLabeler_apply_mem c check list applyConfigFor apply done cast he hu _ _ _).mp hmem
    subst hcfg
    refine ⟨StringMap.empty.set c.OLMManagedLabelKey c.OLMManagedLabelValue,
      MetaApplyConfiguration.WithLabels_singleton _ _ _ hfresh, ?_⟩
    intro k
    rw [StringMap.lookup_set, StringMap.lookup_empty]
  · intro name pt data opts subs hmem
    exact ((ObjectPatchLabeler_patch_mem c checkP listP patch done castP heP huP
      _ _ _ _ _).mp hmem).2.2.1
  · refine ⟨_, updatedSnapshot_Labels c castP, ?_⟩
    intro k
    rw [StringMap.lookup_set]
    cases castP.ObjectMeta.Labels with
    | none => simp [StringMap.lookup_empty]
    | some labels => simp

/-- C5, amended, on the object with labels `{"a":"1"}`: the submitted apply
configuration has a label map without the key `a`, and the "after" snapshot
of the patch labeller still has `a` mapped to `1`. -/
theorem submitted_labels_are_the_marker_only_witness :
    (∀ ns cfg opts, Call.apply ns cfg opts ∈
        (ObjectLabeler (E := String) olmConstants (fun _ => true) (fun _ => Except.ok [])
          newMetaApplyConfiguration (fun _ _ _ => Except.error "unused") (fun _ => false)
          (Payload.expected (exampleObject "crd" (some unmarkedLabels)))).trace →
        ∃ l, cfg.Labels = some l ∧
          ∀ k, l.lookup k = if k = "olm.managed" then some "true" else none) ∧
      ∃ l, (updatedSnapshot olmConstants
          (exampleObject "crd" (some unmarkedLabels))).ObjectMeta.Labels = some l ∧
        ∀ k, l.lookup k =
          if k = "olm.managed" then some "true"
          else (some unmarkedLabels).bind (fun labels => labels.lookup k) :=
  have h := submitted_labels_are_the_marker_only (E := String) (R := Unit) olmConstants
    (fun _ => true) (fun _ => Except.ok []) newMetaApplyConfiguration
    (fun _ _ _ => Except.error "unused")
    (fun _ => true) (fun _ => (Except.ok [] : Except String (List PartialObjectMetadata)))
    (fun _ _ _ _ _ => Except.ok ()) (fun _ => false)
    (exampleObject "crd" (some unmarkedLabels)) (exampleObject "crd" (some unmarkedLabels))
    rfl (by decide) rfl rfl (by decide)
  ⟨h.1.2, h.2.2⟩

/-- C11: for an eligible, unmarked object both labellers call the submission
function exactly once and return what it returned: nil when it succeeded, the
client's error as it is when it failed. On this branch `list` and `done` are
not invoked and the process does not exit. -/
theorem submission_result_is_returned {T A E EP R : Type} [Object T] [ApplyConfig A]
    (c : Constants)
    (check : T → Bool) (list : Selector → Except E (List T))
    (applyConfigFor : String → String → A)
    (apply : String → A → ApplyOptions → Except E T)
    (checkP : PartialObjectMetadata → Bool)
    (listP : Selector → Except EP (List PartialObjectMetadata))
    (patch : String → PatchType → Json → PatchOptions → List String → Except EP R)
    (done : Unit → Bool) (cast : T) (castP : PartialObjectMetadata)
    (he : check cast = true) (hu : hasLabel c cast = false)
    (heP : checkP castP = true) (huP : hasLabel c castP = false) :
    ((ObjectLabeler c check list applyConfigFor apply done
          (Payload.expected cast)).trace.countP Call.isSubmission = 1 ∧
      (∀ ns cfg opts, Call.apply ns cfg opts ∈
          (ObjectLabeler c check list applyConfigFor apply done
            (Payload.expected cast)).trace →
        (∀ result, apply ns cfg opts = Except.ok result →
          (ObjectLabeler c check list applyConfigFor apply done
            (Payload.expected cast)).completion = Completion.returned none) ∧
        (∀ err, apply ns cfg opts = Except.error err →
          (ObjectLabeler c check list applyConfigFor apply done
            (Payload.expected cast)).completion =
              Completion.returned (some (Error.fromClient err)))) ∧
      (∀ selector, Call.list selector ∉
        (ObjectLabeler c check list applyConfigFor apply done
          (Payload.expected cast)).trace) ∧
      Call.done ∉ (ObjectLabeler c check list applyConfigFor apply done
          (Payload.expected cast)).trace ∧
      (∀ code, Call.exit code ∉ (ObjectLabeler c check list applyConfigFor apply done
          (Payload.expected cast)).trace) ∧
      (∀ code, (ObjectLabeler c check list applyConfigFor apply done
          (Payload.expected cast)).completion ≠ Completion.exited code)) ∧
    ((ObjectPatchLabeler c checkP listP patch done
          (Payload.expected castP)).trace.countP Call.isSubmission = 1 ∧
      (∀ name pt data opts subs, Call.patch name pt data opts subs ∈
          (ObjectPatchLabeler c checkP listP patch done (Payload.expected castP)).trace →
        (∀ result, patch name pt data opts subs = Except.ok result →
          (ObjectPatchLabeler c checkP listP patch done
            (Payload.expected castP)).completion = Completion.returned none) ∧
        (∀ err, patch name pt data opts subs = Except.error err →
          (ObjectPatchLabeler c checkP listP patch done
            (Payload.expected castP)).completion =
              Completion.returned (some (Error.fromClient err)))) ∧
      (∀ selector, Call.list selector ∉
        (ObjectPatchLabeler c checkP listP patch done (Payload.expected castP)).trace) ∧
      Call.done ∉ (ObjectPatchLabeler c checkP listP patch done
          (Payload.expected castP)).trace ∧
      (∀ code, Call.exit code ∉ (ObjectPatchLabeler c checkP listP patch done
          (Payload.expected castP)).trace) ∧
      (∀ code, (ObjectPatchLabeler c checkP listP patch done
          (Payload.expected castP)).completion ≠ Completion.exited code)) := by
  have hs : (!check cast || hasLabel c cast) = false := by simp [he, hu]
  have hsP : (!checkP castP || hasLabel c castP) = false := by simp [heP, huP]
  constructor
  · rw [ObjectLabeler_mark c check list applyConfigFor apply done cast hs]
    refine ⟨by simp [List.countP_cons, Call.isSubmission], ?_, by simp, by simp, by simp, ?_⟩
    · intro ns cfg opts hmem
      simp at hmem
      obtain ⟨h1, h2, h3⟩ := hmem
      subst h1 h2 h3
      constructor
      · intro result hr
        simp only [hr]
      · intro err hr
        simp only [hr]
    · intro code
      simp only
      split <;> simp
  · rw [ObjectPatchLabeler_mark c checkP listP patch done castP hsP]
    refine ⟨by simp [List.countP_cons, Call.isSubmission], ?_, by simp, by simp, by simp, ?_⟩
    · intro name pt data opts subs hmem
      simp at hmem
      obtain ⟨h1, h2, h3, h4, h5⟩ := hmem
      subst h1 h2 h3 h4 h5
      constructor
      · intro result hr
        simp only [hr]
      · intro err hr
        simp only [hr]
    · intro code
      simp only
      split <;> simp

/-- C11 on the object with labels `{"a":"1"}` and a client that rejects the
update: the apply labeller returns the client's error `conflict` as it is,
and there is one submission in the trace of the patch labeller. -/
theorem submission_result_is_returned_witness :
    (ObjectLabeler (E := String) olmConstants (fun _ => true) (fun _ => Except.ok [])
        newMetaApplyConfiguration (fun _ _ _ => Except.error "conflict") (fun _ => true)
        (Payload.expected (exampleObject "crd" (some unmarkedLabels)))).completion =
        Completion.returned (some (Error.fromClient "conflict")) ∧
      (ObjectPatchLabeler (E := String) (R := Unit) olmConstants (fun _ => true)
        (fun _ => Except.ok []) (fun _ _ _ _ _ => Except.ok ()) (fun _ => true)
        (Payload.expected (exampleObject "crd" (some unmarkedLabels)))).trace.countP
          Call.isSubmission = 1 :=
  have h := submission_result_is_returned (E := String) (R := Unit) olmConstants
    (fun _ => true) (fun _ => Except.ok []) newMetaApplyConfiguration
    (fun _ _ _ => Except.error "conflict")
    (fun _ => true) (fun _ => (Except.ok [] : Except String (List PartialObjectMetadata)))
    (fun _ _ _ _ _ => Except.ok ()) (fun _ => true)
    (exampleObject "crd" (some unmarkedLabels)) (exampleObject "crd" (some unmarkedLabels))
    rfl (by decide) rfl (by decide)
  ⟨(h.1.2.1 _ _ _ ((ObjectLabeler_apply_mem olmConstants (fun _ => true)
      (fun _ => Except.ok []) newMetaApplyConfiguration
      (fun _ _ _ => Except.error "conflict") (fun _ => true)
      (exampleObject "crd" (some unmarkedLabels)) rfl (by decide) _ _ _).mpr
      ⟨rfl, rfl, rfl⟩)).2 "conflict" rfl, h.2.1⟩

theorem ObjectLabeler_list_mem {T A E : Type} [Object T] [ApplyConfig A] (c : Constants)
    (check : T → Bool) (list : Selector → Except E (List T))
    (applyConfigFor : String → String → A)
    (apply : String → A → ApplyOptions → Except E T)
    (done : Unit → Bool) (cast : T)
    (hs : (!check cast || hasLabel c cast) = true) :
    Call.list Selector.Everything ∈
      (ObjectLabeler c check list applyConfigFor apply done (Payload.expected cast)).trace := by
  cases hl : list Selector.Everything with
  | error err =>
    rw [ObjectLabeler_skip_error c check list applyConfigFor apply done cast err hs hl]
    simp
  | ok items =>
    rw [ObjectLabeler_skip_ok c check list applyConfigFor apply done cast items hs hl]
    simp

theorem ObjectPatchLabeler_list_mem {E R : Type} (c : Constants)
    (check : PartialObjectMetadata → Bool)
    (list : Selector → Except E (List PartialObjectMetadata))
    (patch : String → PatchType → Json → PatchOptions → List String → Except E R)
    (done : Unit → Bool) (cast : PartialObjectMetadata)
    (hs : (!check cast || hasLabel c cast) = true) :
    Call.list Selector.Everything ∈
      (ObjectPatchLabeler c check list patch done (Payload.expected cast)).trace := by
  cases hl : list Selector.Everything with
  | error err =>
    rw [ObjectPatchLabeler_skip_error c check list patch done cast err hs hl]
    simp
  | ok items =>
    rw [ObjectPatchLabeler_skip_ok c check list patch done cast items hs hl]
    simp

theorem ObjectLabeler_mark_no_list {T A E : Type} [Object T] [ApplyConfig A] (c : Constants)
    (check : T → Bool) (list : Selector → Except E (List T))
    (applyConfigFor : String → String → A)
    (apply : String → A → ApplyOptions → Except E T)
    (done : Unit → Bool) (cast : T)
    (he : check cast = true) (hu : hasLabel c cast = false) (selector : Selector) :
    Call.list selector ∉
      (ObjectLabeler c check list applyConfigFor apply done (Payload.expected cast)).trace := by
  have hs : (!check cast || hasLabel c cast) = false := by simp [he, hu]
  rw [ObjectLabeler_mark c check list applyConfigFor apply done cast hs]
  simp

theorem ObjectPatchLabeler_mark_no_list {E R : Type} (c : Constants)
    (check : PartialObjectMetadata → Bool)
    (list : Selector → Except E (List PartialObjectMetadata))
    (patch : String → PatchType → Json → PatchOptions → List String → Except E R)
    (done : Unit → Bool) (cast : PartialObjectMetadata)
    (he : check cast = true) (hu : hasLabel c cast = false) (selector : Selector) :
    Call.list selector ∉
      (ObjectPatchLabeler c check list patch done (Payload.expected cast)).trace := by
  have hs : (!check cast || hasLabel c cast) = false := by simp [he, hu]
  rw [ObjectPatchLabeler_mark c check list patch done cast hs]
  simp

/-- C14, as stated, fails: the object with labels `{"a":"1"}` is unmarked,
and with `check` answering true neither labeller calls `list` for it. -/
theorem listing_on_unmarked_object_counterexample :
    hasLabel olmConstants (exampleObject "crd" (some unmarkedLabels)) = false ∧
      (∀ selector, Call.list selector ∉
        (ObjectLabeler (E := String) olmConstants (fun _ => true) (fun _ => Except.ok [])
          newMetaApplyConfiguration (fun _ _ _ => Except.error "unused") (fun _ => true)
          (Payload.expected (exampleObject "crd" (some unmarkedLabels)))).trace) ∧
      (∀ selector, Call.list selector ∉
        (ObjectPatchLabeler (E := String) (R := Unit) olmConstants (fun _ => true)
          (fun _ => Except.ok []) (fun _ _ _ _ _ => Except.ok ()) (fun _ => true)
          (Payload.expected (exampleObject "crd" (some unmarkedLabels)))).trace) :=
  ⟨by decide,
    fun selector => ObjectLabeler_mark_no_list olmConstants (fun _ => true)
      (fun _ => Except.ok []) newMetaApplyConfiguration (fun _ _ _ => Except.error "unused")
      (fun _ => true) (exampleObject "crd" (some unmarkedLabels)) rfl (by decide) selector,
    fun selector => ObjectPatchLabeler_mark_no_list olmConstants (fun _ => true)
      (fun _ => Except.ok []) (fun _ _ _ _ _ => Except.ok ()) (fun _ => true)
      (exampleObject "crd" (some unmarkedLabels)) rfl (by decide) selector⟩

/-- C14, amended: on every reconcile call that finds an already marked object
or an out-of-scope object, both labellers call `list` with the
match-everything selector and with no other selector, and when the listing
succeeds `done()` is invoked exactly when every item of that listing is
ineligible or marked. A call that finds an eligible, unmarked object does not
call `list`. -/
theorem listing_on_marked_or_out_of_scope_object {T A E EP R : Type} [Object T]
    [ApplyConfig A] (c : Constants)
    (check : T → Bool) (list : Selector → Except E (List T))
    (applyConfigFor : String → String → A)
    (apply : String → A → ApplyOptions → Except E T)
    (checkP : PartialObjectMetadata → Bool)
    (listP : Selector → Except EP (List PartialObjectMetadata))
    (patch : String → PatchType → Json → PatchOptions → List String → Except EP R)
    (done : Unit → Bool) (cast : T) (castP : PartialObjectMetadata) :
    ((check cast = false ∨ hasLabel c cast = true) →
      Call.list Selector.Everything ∈
        (ObjectLabeler c check list applyConfigFor apply done (Payload.expected cast)).trace ∧
      (∀ selector, Call.list selector ∈
          (ObjectLabeler c check list applyConfigFor apply done
            (Payload.expected cast)).trace → selector = Selector.Everything) ∧
      (∀ items, list Selector.Everything = Except.ok items →
        (Call.done ∈ (ObjectLabeler c check list applyConfigFor apply done
            (Payload.expected cast)).trace ↔
          ∀ item, item ∈ items → check item = false ∨ hasLabel c item = true))) ∧
    ((checkP castP = false ∨ hasLabel c castP = true) →
      Call.list Selector.Everything ∈
        (ObjectPatchLabeler c checkP listP patch done (Payload.expected castP)).trace ∧
      (∀ selector, Call.list selector ∈
          (ObjectPatchLabeler c checkP listP patch done
            (Payload.expected castP)).trace → selector = Selector.Everything) ∧
      (∀ items, listP Selector.Everything = Except.ok items →
        (Call.done ∈ (ObjectPatchLabeler c checkP listP patch done
            (Payload.expected castP)).trace ↔
          ∀ item, item ∈ items → checkP item = false ∨ hasLabel c item = true))) ∧
    ((check cast = true ∧ hasLabel c cast = false) →
      ∀ selector, Call.list selector ∉
        (ObjectLabeler c check list applyConfigFor apply done (Payload.expected cast)).trace) ∧
    ((checkP castP = true ∧ hasLabel c castP = false) →
      ∀ selector, Call.list selector ∉
        (ObjectPatchLabeler c checkP listP patch done (Payload.expected castP)).trace) := by
  refine ⟨?_, ?_, ?_, ?_⟩
  · intro hs
    have hs' := (skip_condition_iff c check cast).mpr hs
    refine ⟨ObjectLabeler_list_mem c check list applyConfigFor apply done cast hs', ?_, ?_⟩
    · intro selector hmem
      rcases ObjectLabeler_skip_calls c check list applyConfigFor apply done cast hs' _ hmem
        with ⟨x, h⟩ | h | h | ⟨l, m, h⟩ | h
      · cases h
      · cases h; rfl
      · cases h
      · cases h
      · cases h
    · intro items hl
      rw [ObjectLabeler_done_mem]
      constructor
      · rintro ⟨cast', _, _, items', hi, hall⟩
        rw [hl] at hi
        cases hi
        exact hall
      · intro hall
        exact ⟨cast, rfl, hs, items, hl, hall⟩
  · intro hs
    have hs' := (skip_condition_iff c checkP castP).mpr hs
    refine ⟨ObjectPatchLabeler_list_mem c checkP listP patch done castP hs', ?_, ?_⟩
    · intro selector hmem
      rcases ObjectPatchLabeler_skip_calls c checkP listP patch done castP hs' _ hmem
        with ⟨x, h⟩ | h | h | ⟨l, m, h⟩ | h
      · cases h
      · cases h; rfl
      · cases h
      · cases h
      · cases h
    · intro items hl
      rw [ObjectPatchLabeler_done_mem]
      constructor
      · rintro ⟨cast', _, _, items', hi, hall⟩
        rw [hl] at hi
        cases hi
        exact hall
      · intro hall
        exact ⟨castP, rfl, hs, items, hl, hall⟩
  · rintro ⟨he, hu⟩ selector
    exact ObjectLabeler_mark_no_list c check list applyConfigFor apply done cast he hu selector
  · rintro ⟨he, hu⟩ selector
    exact ObjectPatchLabeler_mark_no_list c checkP listP patch done castP he hu selector

/-- C14, amended, on concrete objects: the marked object leads to a `list`
call with the match-everything selector, in both labellers. -/
theorem listing_on_marked_or_out_of_scope_object_witness :
    Call.list Selector.Everything ∈
        (ObjectLabeler (E := String) olmConstants (fun _ => true) (fun _ => Except.ok [])
          newMetaApplyConfiguration (fun _ _ _ => Except.error "unused") (fun _ => true)
          (Payload.expected (exampleObject "crd" (some markedLabels)))).trace ∧
      Call.list Selector.Everything ∈
        (ObjectPatchLabeler (E := String) (R := Unit) olmConstants (fun _ => true)
          (fun _ => Except.ok []) (fun _ _ _ _ _ => Except.ok ()) (fun _ => true)
          (Payload.expected (exampleObject "crd" (some markedLabels)))).trace :=
  have h := listing_on_marked_or_out_of_scope_object (E := String) (R := Unit) olmConstants
    (fun _ => true) (fun _ => Except.ok []) newMetaApplyConfiguration
    (fun _ _ _ => Except.error "unused")
    (fun _ => true) (fun _ => (Except.ok [] : Except String (List PartialObjectMetadata)))
    (fun _ _ _ _ _ => Except.ok ()) (fun _ => true)
    (exampleObject "crd" (some markedLabels)) (exampleObject "crd" (some markedLabels))
  ⟨(h.1 (Or.inr (by decide))).1, (h.2.1 (Or.inr (by decide))).1⟩

theorem MetaApplyConfiguration.WithLabels_singleton_Labels (b : MetaApplyConfiguration)
    (k v : String) :
    (b.WithLabels (StringMap.singleton k v)).Labels =
      some ((b.Labels.getD StringMap.empty).set k v) := by
  cases hb : b.Labels with
  | none => simp [MetaApplyConfiguration.WithLabels, StringMap.singleton, hb]
  | some m => simp [MetaApplyConfiguration.WithLabels, StringMap.singleton, hb]

/-- C15, as stated, fails on both counts. When `applyConfigFor` returns a
descriptor that already carries the label `a: 1`, the descriptor that reaches
`apply` carries `a: 1` and the marker, not the marker alone. When the
descriptor type has a value receiver for `WithLabels`, the call whose result
the handler drops leaves the descriptor as it was, and `apply` receives it
without any label. The object is eligible and unmarked in both runs. -/
theorem apply_descriptor_labels_depend_on_builder_counterexample :
    ¬ (∀ ns cfg opts, Call.apply ns cfg opts ∈
        (ObjectLabeler (E := String) olmConstants (fun _ => true) (fun _ => Except.ok [])
          labelledMetaApplyConfiguration (fun _ _ _ => Except.error "unused") (fun _ => false)
          (Payload.expected (exampleObject "crd" (some unmarkedLabels)))).trace →
        ∃ l, cfg.Labels = some l ∧ l.entries = [("olm.managed", "true")]) ∧
    ¬ (∀ ns cfg opts, Call.apply ns cfg opts ∈
        (ObjectLabeler (E := String) olmConstants (fun _ => true) (fun _ => Except.ok [])
          newValueApplyConfiguration (fun _ _ _ => Except.error "unused") (fun _ => false)
          (Payload.expected (exampleObject "crd" (some unmarkedLabels)))).trace →
        ∃ l, cfg.Labels = some l ∧ l.entries = [("olm.managed", "true")]) := by
  constructor
  · intro h
    obtain ⟨l, hl, hk⟩ := h ""
      ((labelledMetaApplyConfiguration "crd" "").WithLabels
        (StringMap.singleton "olm.managed" "true"))
      { DryRun := [], Force := false, FieldManager := "olm-ownership-labeller" }
      ((ObjectLabeler_apply_mem olmConstants (fun _ => true) (fun _ => Except.ok [])
        labelledMetaApplyConfiguration (fun _ _ _ => Except.error "unused") (fun _ => false)
        (exampleObject "crd" (some unmarkedLabels)) rfl (by decide) _ _ _).mpr ⟨rfl, rfl, rfl⟩)
    cases hl
    revert hk
    decide
  · intro h
    obtain ⟨l, hl, _⟩ := h "" (newValueApplyConfiguration "crd" "")
      { DryRun := [], Force := false, FieldManager := "olm-ownership-labeller" }
      ((ObjectLabeler_apply_mem olmConstants (fun _ => true) (fun _ => Except.ok [])
        newValueApplyConfiguration (fun _ _ _ => Except.error "unused") (fun _ => false)
        (exampleObject "crd" (some unmarkedLabels)) rfl (by decide) _ _ _).mpr ⟨rfl, rfl, rfl⟩)
    cases hl

/-- C15, amended: for an eligible, unmarked object, `ObjectLabeler` asks
`applyConfigFor` for a descriptor with the object's name and namespace, calls
`WithLabels` on it with a label set that is exactly the single marker pair,
and passes the descriptor, as that call left it, to `apply`, with the
object's namespace and the field manager `olm-ownership-labeller`; these are
the only calls of the three. For a descriptor whose `WithLabels` writes into
its receiver, as the generated builders do, the descriptor at `apply` has the
name and namespace that `applyConfigFor` gave it and carries the labels that
`applyConfigFor` gave it with the marker pair set on top; when
`applyConfigFor` returned it without labels, the label set at `apply` is
exactly the single marker pair. -/
theorem apply_descriptor_is_identity_and_marker {T A E : Type} [Object T] [ApplyConfig A]
    (c : Constants)
    (check : T → Bool) (list : Selector → Except E (List T))
    (applyConfigFor : String → String → A)
    (apply : String → A → ApplyOptions → Except E T)
    (applyConfigForB : String → String → MetaApplyConfiguration)
    (applyB : String → MetaApplyConfiguration → ApplyOptions → Except E T)
    (done : Unit → Bool) (cast : T)
    (he : check cast = true) (hu : hasLabel c cast = false) :
    (∀ name ns, Call.applyConfigFor name ns ∈
        (ObjectLabeler c check list applyConfigFor apply done (Payload.expected cast)).trace ↔
      name = Object.GetName cast ∧ ns = Object.GetNamespace cast) ∧
    (∀ cfg entries, Call.WithLabels cfg entries ∈
        (ObjectLabeler c check list applyConfigFor apply done (Payload.expected cast)).trace ↔
      cfg = applyConfigFor (Object.GetName cast) (Object.GetNamespace cast) ∧
        entries = StringMap.singleton c.OLMManagedLabelKey c.OLMManagedLabelValue) ∧
    (∀ ns cfg opts, Call.apply ns cfg opts ∈
        (ObjectLabeler c check list applyConfigFor apply done (Payload.expected cast)).trace ↔
      ns = Object.GetNamespace cast ∧
        cfg = (ApplyConfig.WithLabels
          (applyConfigFor (Object.GetName cast) (Object.GetNamespace cast))
          (StringMap.singleton c.OLMManagedLabelKey c.OLMManagedLabelValue)).1 ∧
        opts = { DryRun := [], Force := false, FieldManager := "olm-ownership-labeller" }) ∧
    ((∃ ns cfg opts, Call.apply ns cfg opts ∈
        (ObjectLabeler c check list applyConfigForB applyB done (Payload.expected cast)).trace) ∧
      ∀ ns cfg opts, Call.apply ns cfg opts ∈
          (ObjectLabeler c check list applyConfigForB applyB done (Payload.expected cast)).trace →
        ns = Object.GetNamespace cast ∧
          opts.FieldManager = "olm-ownership-labeller" ∧
          cfg.Name = (applyConfigForB (Object.GetName cast) (Object.GetNamespace cast)).Name ∧
          cfg.Namespace =
            (applyConfigForB (Object.GetName cast) (Object.GetNamespace cast)).Namespace ∧
          (∃ l, cfg.Labels = some l ∧
            ∀ k, l.lookup k =
              if k = c.OLMManagedLabelKey then some c.OLMManagedLabelValue
              else (applyConfigForB (Object.GetName cast) (Object.GetNamespace cast)).Labels.bind
                (fun labels => labels.lookup k)) ∧
          ((applyConfigForB (Object.GetName cast) (Object.GetNamespace cast)).Labels = none →
            ∃ l, cfg.Labels = some l ∧
              l.entries = [(c.OLMManagedLabelKey, c.OLMManagedLabelValue)])) := by
  have hs : (!check cast || hasLabel c cast) = false := by simp [he, hu]
  refine ⟨?_, ?_, ?_, ⟨_, _, _, (ObjectLabeler_apply_mem c check list applyConfigForB applyB
    done cast he hu _ _ _).mpr ⟨rfl, rfl, rfl⟩⟩, ?_⟩
  · intro name ns
    rw [ObjectLabeler_mark c check list applyConfigFor apply done cast hs]
    simp
  · intro cfg entries
    rw [ObjectLabeler_mark c check list applyConfigFor apply done cast hs]
    simp
  · intro ns cfg opts
    exact ObjectLabeler_apply_mem c check list applyConfigFor apply done cast he hu ns cfg opts
  · intro ns cfg opts hmem
    obtain ⟨h1, h2, h3⟩ :=
      (ObjectLabeler_apply_mem c check list applyConfigForB applyB done cast he hu
        ns cfg opts).mp hmem
    subst h1 h2 h3
    refine ⟨rfl, rfl, ?_, ?_, ?_, ?_⟩
    · simp [ApplyConfig.WithLabels, MetaApplyConfiguration.WithLabels, StringMap.singleton]
    · simp [ApplyConfig.WithLabels, MetaApplyConfiguration.WithLabels, StringMap.singleton]
    · refine ⟨_, MetaApplyConfiguration.WithLabels_singleton_Labels _ _ _, ?_⟩
      intro k
      rw [StringMap.lookup_set]
      cases (applyConfigForB (Object.GetName cast) (Object.GetNamespace cast)).Labels with
      | none => simp [StringMap.lookup_empty]
      | some labels => simp
    · intro hfresh
      exact ⟨StringMap.empty.set c.OLMManagedLabelKey c.OLMManagedLabelValue,
        MetaApplyConfiguration.WithLabels_singleton _ _ _ hfresh, rfl⟩

/-- C15, amended, on the object `crd` with labels `{"a":"1"}` and a
descriptor created with identity only: `apply` receives the namespace of the
object, the descriptor for `crd` carrying only `olm.managed: true`, and the
field manager `olm-ownership-labeller`; no descriptor that reaches `apply`
carries any other label. -/
theorem apply_descriptor_is_identity_and_marker_witness :
    Call.apply ""
        { Name := some "crd", Namespace := some "",
          Labels := some (StringMap.singleton "olm.managed" "true") }
        { DryRun := [], Force := false, FieldManager := "olm-ownership-labeller" } ∈
      (ObjectLabeler (E := String) olmConstants (fun _ => true) (fun _ => Except.ok [])
        newMetaApplyConfiguration (fun _ _ _ => Except.error "unused") (fun _ => true)
        (Payload.expected (exampleObject "crd" (some unmarkedLabels)))).trace ∧
      (∀ ns cfg opts, Call.apply ns cfg opts ∈
          (ObjectLabeler (E := String) olmConstants (fun _ => true) (fun _ => Except.ok [])
            newMetaApplyConfiguration (fun _ _ _ => Except.error "unused") (fun _ => true)
            (Payload.expected (exampleObject "crd" (some unmarkedLabels)))).trace →
        ∃ l, cfg.Labels = some l ∧ l.entries = [("olm.managed", "true")]) :=
  have h := apply_descriptor_is_identity_and_marker (E := String) olmConstants (fun _ => true)
    (fun _ => Except.ok []) newMetaApplyConfiguration (fun _ _ _ => Except.error "unused")
    newMetaApplyConfiguration (fun _ _ _ => Except.error "unused") (fun _ => true)
    (exampleObject "crd" (some unmarkedLabels)) rfl (by decide)
  ⟨(h.2.2.1 _ _ _).mpr ⟨rfl, rfl, rfl⟩,
    fun ns cfg opts hmem => (h.2.2.2.2 ns cfg opts hmem).2.2.2.2.2 rfl⟩

theorem foldl_fullyLabelledStep_eraseConfig {T A B : Type} [Object T] (c : Constants)
    (check : T → Bool) :
    ∀ (items : List T) (b : Bool) (tr : List (Call T A)) (tr' : List (Call T B)),
      tr.map Call.eraseConfig = tr'.map Call.eraseConfig →
      ((items.foldl (fullyLabelledStep c check) (b, tr)).2).map Call.eraseConfig =
        ((items.foldl (fullyLabelledStep c check) (b, tr')).2).map Call.eraseConfig
  | [], b, tr, tr', h => by simpa using h
  | item :: rest, b, tr, tr', h => by
    cases b with
    | false =>
      simp only [List.foldl_cons, fullyLabelledStep]
      exact foldl_fullyLabelledStep_eraseConfig c check rest false tr tr' h
    | true =>
      simp only [List.foldl_cons, fullyLabelledStep, if_true]
      apply foldl_fullyLabelledStep_eraseConfig c check rest
      simp [h, Call.eraseConfig]

/-- C17: over the same object type and with the same `check`, `list` and
`done`, the two labellers choose the same branch for every payload; off the
mark branch (type error and skip-and-check) they make the same calls in the
same order, in particular the same `list` and `done` calls, and end the same
way: the same exit or the same returned error. -/
theorem labellers_share_the_protocol {A E R : Type} [ApplyConfig A] (c : Constants)
    (check : PartialObjectMetadata → Bool)
    (list : Selector → Except E (List PartialObjectMetadata))
    (applyConfigFor : String → String → A)
    (apply : String → A → ApplyOptions → Except E PartialObjectMetadata)
    (patch : String → PatchType → Json → PatchOptions → List String → Except E R)
    (done : Unit → Bool) (obj : Payload PartialObjectMetadata) :
    (ObjectLabeler c check list applyConfigFor apply done obj).branch =
        (ObjectPatchLabeler c check list patch done obj).branch ∧
      ((ObjectLabeler c check list applyConfigFor apply done obj).branch ≠ Branch.mark →
        (ObjectLabeler c check list applyConfigFor apply done obj).trace.map
            Call.eraseConfig =
          (ObjectPatchLabeler c check list patch done obj).trace.map Call.eraseConfig ∧
        (ObjectLabeler c check list applyConfigFor apply done obj).completion =
          (ObjectPatchLabeler c check list patch done obj).completion) := by
  cases obj with
  | foreign ty =>
    refine ⟨rfl, fun _ => ⟨rfl, rfl⟩⟩
  | expected cast =>
    by_cases hs : (!check cast || hasLabel c cast) = true
    · cases hl : list Selector.Everything with
      | error err =>
        rw [ObjectLabeler_skip_error c check list applyConfigFor apply done cast err hs hl,
          ObjectPatchLabeler_skip_error c check list patch done cast err hs hl]
        exact ⟨rfl, fun _ => ⟨rfl, rfl⟩⟩
      | ok items =>
        rw [ObjectLabeler_skip_ok c check list applyConfigFor apply done cast items hs hl,
          ObjectPatchLabeler_skip_ok c check list patch done cast items hs hl]
        refine ⟨rfl, fun _ => ⟨?_, rfl⟩⟩
        have hloop := foldl_fullyLabelledStep_eraseConfig (A := A) (B := Empty) c check
          items true [] [] rfl
        simp only [List.map_append, hloop]
        congr 1
        by_cases hall : (items.all (fun item => !check item || hasLabel c item)) = true
        · by_cases hd : done () = true
          · simp [hall, hd, Call.eraseConfig]
          · simp [hall, hd, Call.eraseConfig]
        · simp [hall]
    · have hs0 : (!check cast || hasLabel c cast) = false := by simpa using hs
      rw [ObjectLabeler_mark c check list applyConfigFor apply done cast hs0,
        ObjectPatchLabeler_mark c check list patch done cast hs0]
      exact ⟨rfl, fun h => absurd rfl h⟩

/-- C17 on a marked object whose kind is fully labelled, with `done()`
answering true: both labellers end in the same exit. -/
theorem labellers_share_the_protocol_witness :
    (ObjectLabeler (E := String) olmConstants (fun _ => true)
        (fun _ => Except.ok [exampleObject "crd" (some markedLabels)])
        newMetaApplyConfiguration (fun _ _ _ => Except.error "unused") (fun _ => true)
        (Payload.expected (exampleObject "crd" (some markedLabels)))).completion =
      (ObjectPatchLabeler (E := String) (R := Unit) olmConstants (fun _ => true)
        (fun _ => Except.ok [exampleObject "crd" (some markedLabels)])
        (fun _ _ _ _ _ => Except.ok ()) (fun _ => true)
        (Payload.expected (exampleObject "crd" (some markedLabels)))).completion :=
  ((labellers_share_the_protocol (E := String) (R := Unit) olmConstants (fun _ => true)
    (fun _ => Except.ok [exampleObject "crd" (some markedLabels)])
    newMetaApplyConfiguration (fun _ _ _ => Except.error "unused")
    (fun _ _ _ _ _ => Except.ok ()) (fun _ => true)
    (Payload.expected (exampleObject "crd" (some markedLabels)))).2 (by decide)).2

theorem all_skip_condition_perm_append {T : Type} [Object T] (c : Constants)
    (check : T → Bool) (items items' extra : List T)
    (hp : items'.Perm (items ++ extra))
    (hx : ∀ x, x ∈ extra → check x = false ∨ hasLabel c x = true) :
    (∀ item, item ∈ items' → check item = false ∨ hasLabel c item = true) ↔
      ∀ item, item ∈ items → check item = false ∨ hasLabel c item = true := by
  constructor
  · intro h item hi
    exact h item (hp.mem_iff.mpr (List.mem_append.mpr (Or.inl hi)))
  · intro h item hi
    rcases List.mem_append.mp (hp.mem_iff.mp hi) with h1 | h1
    · exact h item h1
    · exact hx item h1

/-- C18: the completion signal is a function of the listing alone. With the
skip-and-check branch taken and an empty listing, `done()` is invoked. The
flag the loop computes, and with it whether `done()` is invoked, is the same
for a listing and for any reordering of it with further items that are
ineligible or already marked, whatever object each call observed. -/
theorem completion_signal_depends_on_listing_only {T A E EP R : Type} [Object T]
    [ApplyConfig A] (c : Constants)
    (check : T → Bool) (applyConfigFor : String → String → A)
    (apply : String → A → ApplyOptions → Except E T)
    (checkP : PartialObjectMetadata → Bool)
    (patch : String → PatchType → Json → PatchOptions → List String → Except EP R)
    (done : Unit → Bool) :
    (∀ (list : Selector → Except E (List T)) (cast : T),
      (check cast = false ∨ hasLabel c cast = true) →
      list Selector.Everything = Except.ok [] →
      Call.done ∈ (ObjectLabeler c check list applyConfigFor apply done
        (Payload.expected cast)).trace) ∧
    (∀ (listP : Selector → Except EP (List PartialObjectMetadata))
      (castP : PartialObjectMetadata),
      (checkP castP = false ∨ hasLabel c castP = true) →
      listP Selector.Everything = Except.ok [] →
      Call.done ∈ (ObjectPatchLabeler c checkP listP patch done
        (Payload.expected castP)).trace) ∧
    (∀ (items items' extra : List T), items'.Perm (items ++ extra) →
      (∀ x, x ∈ extra → check x = false ∨ hasLabel c x = true) →
      (items'.foldl (fullyLabelledStep c check) (true, ([] : List (Call T A)))).1 =
        (items.foldl (fullyLabelledStep c check) (true, ([] : List (Call T A)))).1) ∧
    (∀ (list list' : Selector → Except E (List T)) (cast cast' : T)
      (items items' extra : List T),
      (check cast = false ∨ hasLabel c cast = true) →
      (check cast' = false ∨ hasLabel c cast' = true) →
      list Selector.Everything = Except.ok items →
      list' Selector.Everything = Except.ok items' →
      items'.Perm (items ++ extra) →
      (∀ x, x ∈ extra → check x = false ∨ hasLabel c x = true) →
      (Call.done ∈ (ObjectLabeler c check list' applyConfigFor apply done
          (Payload.expected cast')).trace ↔
        Call.done ∈ (ObjectLabeler c check list applyConfigFor apply done
          (Payload.expected cast)).trace)) ∧
    (∀ (listP listP' : Selector → Except EP (List PartialObjectMetadata))
      (castP castP' : PartialObjectMetadata)
      (items items' extra : List PartialObjectMetadata),
      (checkP castP = false ∨ hasLabel c castP = true) →
      (checkP castP' = false ∨ hasLabel c castP' = true) →
      listP Selector.Everything = Except.ok items →
      listP' Selector.Everything = Except.ok items' →
      items'.Perm (items ++ extra) →
      (∀ x, x ∈ extra → checkP x = false ∨ hasLabel c x = true) →
      (Call.done ∈ (ObjectPatchLabeler c checkP listP' patch done
          (Payload.expected castP')).trace ↔
        Call.done ∈ (ObjectPatchLabeler c checkP listP patch done
          (Payload.expected castP)).trace)) := by
  refine ⟨?_, ?_, ?_, ?_, ?_⟩
  · intro list cast hs hl
    rw [ObjectLabeler_done_mem]
    exact ⟨cast, rfl, hs, [], hl, fun item hi => by cases hi⟩
  · intro listP castP hs hl
    rw [ObjectPatchLabeler_done_mem]
    exact ⟨castP, rfl, hs, [], hl, fun item hi => by cases hi⟩
  · intro items items' extra hp hx
    rw [foldl_fullyLabelledStep_fst, foldl_fullyLabelledStep_fst, Bool.true_and, Bool.true_and]
    have h := all_skip_condition_perm_append c check items items' extra hp hx
    rw [← all_skip_condition_iff, ← all_skip_condition_iff] at h
    exact Bool.eq_iff_iff.mpr h
  · intro list list' cast cast' items items' extra hs hs' hl hl' hp hx
    rw [ObjectLabeler_done_mem, ObjectLabeler_done_mem]
    have h := all_skip_condition_perm_append c check items items' extra hp hx
    constructor
    · rintro ⟨x, hx1, _, its, hi, hall⟩
      rw [hl'] at hi
      cases hi
      exact ⟨cast, rfl, hs, items, hl, h.mp hall⟩
    · rintro ⟨x, hx1, _, its, hi, hall⟩
      rw [hl] at hi
      cases hi
      exact ⟨cast', rfl, hs', items', hl', h.mpr hall⟩
  · intro listP listP' castP castP' items items' extra hs hs' hl hl' hp hx
    rw [ObjectPatchLabeler_done_mem, ObjectPatchLabeler_done_mem]
    have h := all_skip_condition_perm_append c checkP items items' extra hp hx
    constructor
    · rintro ⟨x, hx1, _, its, hi, hall⟩
      rw [hl'] at hi
      cases hi
      exact ⟨castP, rfl, hs, items, hl, h.mp hall⟩
    · rintro ⟨x, hx1, _, its, hi, hall⟩
      rw [hl] at hi
      cases hi
      exact ⟨castP', rfl, hs', items', hl', h.mpr hall⟩

/-- C18 on an empty listing: with a marked object observed, the patch
labeller invokes `done()`. -/
theorem completion_signal_depends_on_listing_only_witness :
    Call.done ∈
      (ObjectPatchLabeler (E := String) (R := Unit) olmConstants (fun _ => true)
        (fun _ => Except.ok []) (fun _ _ _ _ _ => Except.ok ()) (fun _ => false)
        (Payload.expected (exampleObject "crd" (some markedLabels)))).trace :=
  (completion_signal_depends_on_listing_only (T := PartialObjectMetadata)
    (A := MetaApplyConfiguration) (E := String) (R := Unit) olmConstants
    (fun _ => true) newMetaApplyConfiguration (fun _ _ _ => Except.error "unused")
    (fun _ => true) (fun _ _ _ _ _ => Except.ok ()) (fun _ => false)).2.1
    (fun _ => Except.ok []) (exampleObject "crd" (some markedLabels))
    (Or.inr (by decide)) rfl

theorem HasPrefix_iff (s pre : String) :
    HasPrefix s pre = true ↔ ∃ rest : String, s = pre ++ rest := by
  unfold HasPrefix
  rw [List.isPrefixOf_iff_prefix]
  constructor
  · rintro ⟨t, ht⟩
    refine ⟨⟨t⟩, ?_⟩
    apply String.ext
    rw [String.data_append, ht]
  · rintro ⟨rest, hr⟩
    refine ⟨rest.data, ?_⟩
    rw [hr, String.data_append]

theorem HasOLMLabel_eq_true_iff {T : Type} [Object T] (c : Constants) (object : T) :
    HasOLMLabel c object = true ↔
      ∃ m, Object.GetLabels object = some m ∧
        ∃ key, key ∈ m.keys ∧ ∃ rest : String, key = c.ComponentLabelKeyPrefix ++ rest := by
  unfold HasOLMLabel
  rw [List.any_eq_true]
  cases h : Object.GetLabels object with
  | none => simp [rangeKeys]
  | some m =>
    simp only [rangeKeys, HasPrefix_iff]
    constructor
    · rintro ⟨key, hk, hp⟩
      exact ⟨m, rfl, key, hk, hp⟩
    · rintro ⟨m', hm, key, hk, hp⟩
      cases hm
      exact ⟨key, hk, hp⟩

/-- C12: `HasOLMLabel` is true exactly when some key of the object's label
map starts with `decorators.ComponentLabelKeyPrefix`. The values play no part:
two objects whose label maps have the same keys get the same answer. An object
with a nil or an empty label map gets `false`. -/
theorem HasOLMLabel_iff_some_key_is_component_key {T : Type} [Object T]
    (c : Constants) (object : T) :
    (HasOLMLabel c object = true ↔
      ∃ m, Object.GetLabels object = some m ∧
        ∃ key, key ∈ m.keys ∧ ∃ rest : String, key = c.ComponentLabelKeyPrefix ++ rest) ∧
    (∀ (other : T) (m m' : StringMap), Object.GetLabels object = some m →
      Object.GetLabels other = some m' → (∀ key, key ∈ m.keys ↔ key ∈ m'.keys) →
      HasOLMLabel c object = HasOLMLabel c other) ∧
    (Object.GetLabels object = none → HasOLMLabel c object = false) ∧
    (∀ m, Object.GetLabels object = some m → m.entries = [] →
      HasOLMLabel c object = false) := by
  have hiff := HasOLMLabel_eq_true_iff c object
  refine ⟨hiff, ?_, ?_, ?_⟩
  · intro other m m' hm hm' hkeys
    apply Bool.eq_iff_iff.mpr
    rw [hiff, HasOLMLabel_eq_true_iff c other]
    constructor
    · rintro ⟨m1, h1, key, hk, hp⟩
      rw [hm] at h1
      cases h1
      exact ⟨m', hm', key, (hkeys key).mp hk, hp⟩
    · rintro ⟨m1, h1, key, hk, hp⟩
      rw [hm'] at h1
      cases h1
      exact ⟨m, hm, key, (hkeys key).mpr hk, hp⟩
  · intro hn
    cases hb : HasOLMLabel c object with
    | false => rfl
    | true =>
      obtain ⟨m, hm, _⟩ := hiff.mp hb
      rw [hn] at hm
      cases hm
  · intro m hm he
    cases hb : HasOLMLabel c object with
    | false => rfl
    | true =>
      obtain ⟨m1, hm1, key, hk, _⟩ := hiff.mp hb
      rw [hm] at hm1
      cases hm1
      simp [StringMap.keys, he] at hk

/-- C12 on concrete objects: a key `operators.coreos.com/etcd.ns` with an
empty value counts, the key `operators.coreos.co` does not, and neither does a
nil label map. -/
theorem HasOLMLabel_iff_some_key_is_component_key_witness :
    HasOLMLabel olmConstants (exampleObject "crd" (some
        ⟨[("a", "1"), ("operators.coreos.com/etcd.ns", "")], by decide⟩)) = true ∧
      HasOLMLabel olmConstants (exampleObject "crd" (some
        ⟨[("a", "1"), ("operators.coreos.co", "")], by decide⟩)) = false ∧
      HasOLMLabel olmConstants (exampleObject "crd" none) = false :=
  ⟨(HasOLMLabel_iff_some_key_is_component_key olmConstants
      (exampleObject "crd" (some
        ⟨[("a", "1"), ("operators.coreos.com/etcd.ns", "")], by decide⟩))).1.mpr
      ⟨_, rfl, "operators.coreos.com/etcd.ns", by decide, "etcd.ns", by decide⟩,
    by decide,
    (HasOLMLabel_iff_some_key_is_component_key olmConstants
      (exampleObject "crd" none)).2.2.1 rfl⟩

/-! ## The snapshots in memory agree with the snapshots by value -/

theorem getElem?_append_length {α : Type} (l : List α) (a : α) :
    (l ++ [a])[l.length]? = some a := by
  simp

theorem set_append_length {α : Type} (l : List α) (a b : α) :
    (l ++ [a]).set l.length b = l ++ [b] := by
  simp [List.set_append]

theorem getElem?_append_two_snd {α : Type} (l : List α) (a b : α) :
    (l ++ [a, b])[l.length + 1]? = some b := by
  rw [List.getElem?_append_right (Nat.le_add_right _ _)]
  simp

theorem set_append_two_snd {α : Type} (l : List α) (a b d : α) :
    (l ++ [a, b]).set (l.length + 1) d = l ++ [a, d] := by
  simp [List.set_append]

theorem getElem?_append_two_fst {α : Type} (l : List α) (a b : α) :
    (l ++ [a, b])[l.length]? = some a := by
  rw [List.getElem?_append_right (Nat.le_refl _)]
  simp

theorem getElem?_lt_length {α : Type} (l : List α) (i : Nat) (a : α)
    (h : l[i]? = some a) : i < l.length := by
  by_contra hge
  rw [List.getElem?_eq_none (by omega)] at h
  cases h

theorem buildSnapshots_nil (c : Constants) (μ : Memory) (cast : Nat) (s : StoredObject)
    (hs : μ.objs[cast]? = some s) (hl : s.labels = none) :
    buildSnapshots c μ cast = some
      ({ maps := μ.maps ++
            [StringMap.empty.set c.OLMManagedLabelKey c.OLMManagedLabelValue],
         objs := μ.objs ++
            [{ fields := (s.fields.SetUID "").SetResourceVersion "", labels := none },
             { fields := (s.fields.SetUID s.fields.ObjectMeta.UID).SetResourceVersion
                 s.fields.ObjectMeta.ResourceVersion,
               labels := some μ.maps.length }] },
        μ.objs.length, μ.objs.length + 1) := by
  have hlt := getElem?_lt_length _ _ _ hs
  simp [buildSnapshots, Memory.GetUID, Memory.GetResourceVersion, Memory.DeepCopy,
    Memory.SetUID, Memory.SetResourceVersion, Memory.GetLabels, Memory.orMakeMap,
    Memory.makeMap, Memory.mapAssign, Memory.SetLabels, hs, hl,
    List.getElem?_append_left hlt, set_append_length, getElem?_append_two_snd,
    set_append_two_snd, getElem?_append_length, -List.getElem?_eq_getElem]

theorem buildSnapshots_ref (c : Constants) (μ : Memory) (cast : Nat) (s : StoredObject)
    (r : Nat) (m : StringMap)
    (hs : μ.objs[cast]? = some s) (hl : s.labels = some r) (hm : μ.maps[r]? = some m) :
    buildSnapshots c μ cast = some
      ({ maps := μ.maps ++ [m, m.set c.OLMManagedLabelKey c.OLMManagedLabelValue],
         objs := μ.objs ++
            [{ fields := (s.fields.SetUID "").SetResourceVersion "",
               labels := some μ.maps.length },
             { fields := (s.fields.SetUID s.fields.ObjectMeta.UID).SetResourceVersion
                 s.fields.ObjectMeta.ResourceVersion,
               labels := some (μ.maps.length + 1) }] },
        μ.objs.length, μ.objs.length + 1) := by
  have hlt := getElem?_lt_length _ _ _ hs
  have hlt' := getElem?_lt_length _ _ _ hm
  simp [buildSnapshots, Memory.GetUID, Memory.GetResourceVersion, Memory.DeepCopy,
    Memory.SetUID, Memory.SetResourceVersion, Memory.GetLabels, Memory.orMakeMap,
    Memory.makeMap, Memory.mapAssign, Memory.SetLabels, hs, hl, hm,
    List.getElem?_append_left hlt, List.getElem?_append_left hlt', set_append_length,
    getElem?_append_two_snd, set_append_two_snd, getElem?_append_length,
    -List.getElem?_eq_getElem]

theorem Memory.load_append (μ : Memory) (ms : List StringMap) (os : List StoredObject)
    (p : Nat) (w : PartialObjectMetadata) (h : μ.load p = some w) :
    Memory.load { maps := μ.maps ++ ms, objs := μ.objs ++ os } p = some w := by
  unfold Memory.load at h ⊢
  cases hs : μ.objs[p]? with
  | none => simp [hs] at h
  | some s =>
    have hlt := getElem?_lt_length _ _ _ hs
    simp only [List.getElem?_append_left hlt, hs] at h ⊢
    cases hl : s.labels with
    | none =>
      simp only [hl] at h ⊢
      exact h
    | some r =>
      simp only [hl] at h ⊢
      cases hm : μ.maps[r]? with
      | none => simp [hm] at h
      | some m =>
        have hlt' := getElem?_lt_length _ _ _ hm
        simp only [List.getElem?_append_left hlt', hm] at h ⊢
        exact h

theorem buildSnapshots_spec (c : Constants) (μ : Memory) (cast : Nat)
    (v : PartialObjectMetadata) (hv : μ.load cast = some v) :
    ∃ μ' previous updated, buildSnapshots c μ cast = some (μ', previous, updated) ∧
      μ'.load previous = some (previousSnapshot v) ∧
      μ'.load updated = some (updatedSnapshot c v) ∧
      (∀ p w, μ.load p = some w → μ'.load p = some w) := by
  have hv' := hv
  unfold Memory.load at hv'
  cases hs : μ.objs[cast]? with
  | none => simp [hs] at hv'
  | some s =>
    cases hl : s.labels with
    | none =>
      simp only [hs, hl, Option.some.injEq] at hv'
      subst hv'
      refine ⟨_, _, _, buildSnapshots_nil c μ cast s hs hl, ?_, ?_, ?_⟩
      · simp only [Memory.load, getElem?_append_two_fst]
        rfl
      · simp only [Memory.load, getElem?_append_two_snd, getElem?_append_length]
        rfl
      · intro p w hp
        exact Memory.load_append μ _ _ p w hp
    | some r =>
      cases hm : μ.maps[r]? with
      | none => simp [hs, hl, hm] at hv'
      | some m =>
        simp only [hs, hl, hm, Option.some.injEq] at hv'
        subst hv'
        refine ⟨_, _, _, buildSnapshots_ref c μ cast s r m hs hl hm, ?_, ?_, ?_⟩
        · simp only [Memory.load, getElem?_append_two_fst]
          rfl
        · simp only [Memory.load, getElem?_append_two_snd]
          rfl
        · intro p w hp
          exact Memory.load_append μ _ _ p w hp

/-- C13: for an eligible, unmarked `PartialObjectMetadata`, the "after"
snapshot that `ObjectPatchLabeler` marshals has a label map (never nil) with
the marker key set to the marker value and every other key as in the observed
object, and the observed object's UID and resource version. Run on memory,
where maps are references, the construction of the snapshots returns, leaves
the observed object and every other object as they were, and yields exactly
these snapshots: they are deep copies. -/
theorem after_snapshot_is_additive {E R : Type} (c : Constants)
    (check : PartialObjectMetadata → Bool)
    (list : Selector → Except E (List PartialObjectMetadata))
    (patch : String → PatchType → Json → PatchOptions → List String → Except E R)
    (done : Unit → Bool) (cast : PartialObjectMetadata) (μ : Memory) (p : Nat)
    (he : check cast = true) (hu : hasLabel c cast = false)
    (hp : μ.load p = some cast) :
    Call.marshal (updatedSnapshot c cast) ∈
        (ObjectPatchLabeler c check list patch done (Payload.expected cast)).trace ∧
      (∃ l, (updatedSnapshot c cast).ObjectMeta.Labels = some l ∧
        l.lookup c.OLMManagedLabelKey = some c.OLMManagedLabelValue ∧
        ∀ k, k ≠ c.OLMManagedLabelKey →
          l.lookup k = cast.ObjectMeta.Labels.bind (fun labels => labels.lookup k)) ∧
      Object.GetUID (updatedSnapshot c cast) = Object.GetUID cast ∧
      Object.GetResourceVersion (updatedSnapshot c cast) = Object.GetResourceVersion cast ∧
      ∃ μ' previous updated, buildSnapshots c μ p = some (μ', previous, updated) ∧
        μ'.load p = some cast ∧
        (∀ q w, μ.load q = some w → μ'.load q = some w) ∧
        μ'.load previous = some (previousSnapshot cast) ∧
        μ'.load updated = some (updatedSnapshot c cast) := by
  have hs : (!check cast || hasLabel c cast) = false := by simp [he, hu]
  refine ⟨?_, ?_, rfl, rfl, ?_⟩
  · rw [ObjectPatchLabeler_mark c check list patch done cast hs]
    simp
  · refine ⟨_, updatedSnapshot_Labels c cast, ?_, ?_⟩
    · rw [StringMap.lookup_set]
      simp
    · intro k hk
      rw [StringMap.lookup_set, if_neg hk]
      cases cast.ObjectMeta.Labels with
      | none => simp [StringMap.lookup_empty]
      | some labels => simp
  · obtain ⟨μ', previous, updated, hb, h1, h2, h3⟩ := buildSnapshots_spec c μ p cast hp
    exact ⟨μ', previous, updated, hb, h3 p cast hp, h3, h1, h2⟩

/-- C13 on the memory that holds `crd` with its label map `{"a": "1"}` at
address 0: after the snapshots are built, the struct at address 0 is still
`crd` with labels `{"a": "1"}`. -/
theorem after_snapshot_is_additive_witness :
    ∃ μ' previous updated,
      buildSnapshots olmConstants exampleMemory 0 = some (μ', previous, updated) ∧
        μ'.load 0 = some (exampleObject "crd" (some unmarkedLabels)) :=
  have h := after_snapshot_is_additive (E := String) (R := Unit) olmConstants
    (fun _ => true) (fun _ => Except.ok []) (fun _ _ _ _ _ => Except.ok ()) (fun _ => true)
    (exampleObject "crd" (some unmarkedLabels)) exampleMemory 0 rfl (by decide) rfl
  match h.2.2.2.2 with
  | ⟨μ', previous, updated, hb, hload, _⟩ => ⟨μ', previous, updated, hb, hload⟩

/-! ## Applying the submitted patch to the observed object -/

theorem mergeMembers_nil (t : List (String × Json)) : mergeMembers t [] = t := by
  rw [mergeMembers]

theorem mergeMembers_cons_of_ne_null (t : List (String × Json)) (name : String)
    (value : Json) (rest : List (String × Json)) (h : value ≠ Json.null) :
    mergeMembers t ((name, value) :: rest) =
      mergeMembers
        (assocSet name (MergePatch ((assocLookup name t).getD Json.null) value) t) rest := by
  cases value with
  | null => exact absurd rfl h
  | bool b =>
    rw [mergeMembers]
    exact h
  | num n =>
    rw [mergeMembers]
    exact h
  | str s =>
    rw [mergeMembers]
    exact h
  | arr items =>
    rw [mergeMembers]
    exact h
  | obj ms =>
    rw [mergeMembers]
    exact h

theorem MergePatch_str (t : Json) (s : String) : MergePatch t (Json.str s) = Json.str s := by
  rw [MergePatch]
  intro ms h
  cases h

theorem MergePatch_obj (t : Json) (ms : List (String × Json)) :
    MergePatch t (Json.obj ms) = Json.obj (mergeMembers t.members ms) := by
  rw [MergePatch]

theorem assocLookup_of_not_mem_keys {β : Type} (k : String) :
    ∀ l : List (String × β), k ∉ l.map Prod.fst → assocLookup k l = none
  | [], _ => rfl
  | (k', v) :: rest, h => by
    have hk : ¬ k' = k := fun e => h (by simp [e])
    have hrest : k ∉ rest.map Prod.fst := fun hm => h (by simp [hm])
    simp only [assocLookup, hk, if_false]
    exact assocLookup_of_not_mem_keys k rest hrest

/-- Lookup in the result of the merge loop, for a patch without `null`
members and with distinct names. -/
theorem assocLookup_mergeMembers (k : String) :
    ∀ (ps t : List (String × Json)), (ps.map Prod.fst).Nodup →
      (∀ kv, kv ∈ ps → kv.2 ≠ Json.null) →
      assocLookup k (mergeMembers t ps) =
        match assocLookup k ps with
        | some v => some (MergePatch ((assocLookup k t).getD Json.null) v)
        | none => assocLookup k t
  | [], t, _, _ => by simp [mergeMembers_nil, assocLookup]
  | (name, value) :: rest, t, hn, hv => by
    rw [List.map_cons, List.nodup_cons] at hn
    have hne := hv (name, value) (List.mem_cons_self _ _)
    rw [mergeMembers_cons_of_ne_null t name value rest hne,
      assocLookup_mergeMembers k rest _ hn.2 (fun kv hkv => hv kv (List.mem_cons_of_mem _ hkv))]
    by_cases hk : name = k
    · subst hk
      rw [assocLookup_of_not_mem_keys name rest hn.1]
      simp [assocLookup, assocLookup_assocSet]
    · have hk' : ¬ k = name := fun e => hk e.symm
      simp [assocLookup, hk, hk', assocLookup_assocSet]

theorem unmarshalString_omitemptyString (s : String) :
    unmarshalString (omitemptyString s) = some s := by
  unfold omitemptyString
  by_cases h : s = ""
  · simp [h, unmarshalString]
  · simp [h, unmarshalString]

theorem unmarshalInt_omitemptyInt (n : Int) : unmarshalInt (omitemptyInt n) = some n := by
  unfold omitemptyInt
  by_cases h : n = 0
  · simp [h, unmarshalInt]
  · simp [h, unmarshalInt]

theorem unmarshalOptionalString_marshalTime (t : Option String) :
    unmarshalOptionalString (some (marshalTime t)) = some t := by
  cases t <;> rfl

theorem unmarshalOptionalString_map (o : Option String) :
    unmarshalOptionalString (o.map Json.str) = some o := by
  cases o <;> rfl

theorem unmarshalOptionalInt_map (o : Option Int) :
    unmarshalOptionalInt (o.map Json.num) = some o := by
  cases o <;> rfl

theorem unmarshalEntries_map_str :
    ∀ (es : List (String × String)) (acc : StringMap),
      unmarshalEntries acc (es.map (fun kv => (kv.1, Json.str kv.2))) =
        some (es.foldl (fun m kv => m.set kv.1 kv.2) acc)
  | [], acc => rfl
  | (k, v) :: rest, acc => by
    simp only [List.map_cons, List.foldl_cons, unmarshalEntries]
    exact unmarshalEntries_map_str rest (acc.set k v)

theorem unmarshalStringMap_omitemptyMap (m : Option StringMap) :
    unmarshalStringMap (omitemptyMap m) =
      some (m.bind (fun l =>
        if l.entries.isEmpty then none
        else some (l.entries.foldl (fun acc kv => acc.set kv.1 kv.2) StringMap.empty))) := by
  cases m with
  | none => rfl
  | some l =>
    cases he : l.entries with
    | nil => simp [omitemptyMap, he, unmarshalStringMap]
    | cons kv rest =>
      simp only [omitemptyMap, he, List.isEmpty_cons, Bool.false_eq_true, if_false,
        unmarshalStringMap, unmarshalEntries_map_str, Option.map_some', Option.some_bind]

theorem unmarshalItems_map {α : Type} (f : Json → Option α) (g : α → Json)
    (h : ∀ x, f (g x) = some x) :
    ∀ l : List α, unmarshalItems f (l.map g) = some l
  | [] => rfl
  | x :: xs => by
    simp [unmarshalItems, h x, unmarshalItems_map f g h xs]

theorem unmarshalSlice_omitemptySlice {α : Type} (f : Json → Option α) (g : α → Json)
    (h : ∀ x, f (g x) = some x) (l : List α) :
    unmarshalSlice f (omitemptySlice (l.map g)) = some l := by
  cases l with
  | nil => rfl
  | cons x xs =>
    simp only [omitemptySlice, List.map_cons, List.isEmpty_cons, Bool.false_eq_true, if_false,
      unmarshalSlice]
    exact unmarshalItems_map f g h (x :: xs)

theorem unmarshalOwnerReference_marshalOwnerReference (r : OwnerReference) :
    unmarshalOwnerReference (marshalOwnerReference r) = some r := by
  obtain ⟨a, k, n, u, ctl, blk⟩ := r
  cases ctl <;> cases blk <;>
    simp [marshalOwnerReference, structMembers, unmarshalOwnerReference, assocLookup,
      unmarshalString, unmarshalOptionalBool]

theorem unmarshalStringItem_str (s : String) : unmarshalStringItem (Json.str s) = some s := rfl

theorem structMembers_keys_sublist :
    ∀ fs : List (String × Option Json),
      ((structMembers fs).map Prod.fst).Sublist (fs.map Prod.fst)
  | [] => List.Sublist.slnil
  | (k, none) :: rest => by
    rw [structMembers_cons_none]
    exact List.Sublist.cons _ (structMembers_keys_sublist rest)
  | (k, some v) :: rest => by
    rw [structMembers_cons_some]
    exact List.Sublist.cons₂ _ (structMembers_keys_sublist rest)

theorem structMembers_ne_null :
    ∀ fs : List (String × Option Json), (∀ f, f ∈ fs → f.2 ≠ some Json.null) →
      ∀ kv, kv ∈ structMembers fs → kv.2 ≠ Json.null
  | [], _, kv, hkv => by cases hkv
  | (k, none) :: rest, h, kv, hkv => by
    rw [structMembers_cons_none] at hkv
    exact structMembers_ne_null rest (fun f hf => h f (List.mem_cons_of_mem _ hf)) kv hkv
  | (k, some v) :: rest, h, kv, hkv => by
    rw [structMembers_cons_some] at hkv
    rcases List.mem_cons.mp hkv with h1 | h1
    · subst h1
      intro hnull
      exact h (k, some v) (List.mem_cons_self _ _) (congrArg some hnull)
    · exact structMembers_ne_null rest (fun f hf => h f (List.mem_cons_of_mem _ hf)) kv h1

theorem omitemptyString_ne_null (s : String) : omitemptyString s ≠ some Json.null := by
  unfold omitemptyString
  split <;> simp

theorem members_omitemptyMap (l : Option StringMap) :
    ((omitemptyMap l).getD Json.null).members =
      (l.getD StringMap.empty).entries.map (fun kv => (kv.1, Json.str kv.2)) := by
  cases l with
  | none => rfl
  | some m =>
    cases he : m.entries with
    | nil => simp [omitemptyMap, he, Json.members]
    | cons kv rest => simp [omitemptyMap, he, Json.members]

/-- Lookup in the metadata of the patched document. -/
theorem assocLookup_merged_objectMeta (c : Constants) (m : ObjectMeta) (k : String) :
    assocLookup k (mergeMembers (structMembers (objectMetaFields m))
        (structMembers
          [("uid", omitemptyString m.UID),
           ("resourceVersion", omitemptyString m.ResourceVersion),
           ("labels", some (Json.obj
              [(c.OLMManagedLabelKey, Json.str c.OLMManagedLabelValue)]))])) =
      if k = "labels" then
        some (Json.obj (assocSet c.OLMManagedLabelKey (Json.str c.OLMManagedLabelValue)
          ((m.Labels.getD StringMap.empty).entries.map (fun kv => (kv.1, Json.str kv.2)))))
      else assocLookup k (structMembers (objectMetaFields m)) := by
  have hskel : (([("uid", omitemptyString m.UID),
      ("resourceVersion", omitemptyString m.ResourceVersion),
      ("labels", some (Json.obj
        [(c.OLMManagedLabelKey, Json.str c.OLMManagedLabelValue)]))] :
      List (String × Option Json)).map Prod.fst).Nodup := by simp
  have hnodup := List.Nodup.sublist (structMembers_keys_sublist _) hskel
  have hnn := structMembers_ne_null
    [("uid", omitemptyString m.UID),
     ("resourceVersion", omitemptyString m.ResourceVersion),
     ("labels", some (Json.obj
        [(c.OLMManagedLabelKey, Json.str c.OLMManagedLabelValue)]))] (by
      intro f hf
      simp only [List.mem_cons, List.mem_singleton, List.not_mem_nil, or_false] at hf
      rcases hf with h | h | h <;> subst h
      · exact omitemptyString_ne_null _
      · exact omitemptyString_ne_null _
      · simp)
  have hL : assocLookup "labels" (structMembers (objectMetaFields m)) =
      omitemptyMap m.Labels := by
    rw [assocLookup_objectMetaMembers]
    simp [objectMetaFields, assocLookup]
  have hU : assocLookup "uid" (structMembers (objectMetaFields m)) =
      omitemptyString m.UID := by
    rw [assocLookup_objectMetaMembers]
    simp [objectMetaFields, assocLookup]
  have hR : assocLookup "resourceVersion" (structMembers (objectMetaFields m)) =
      omitemptyString m.ResourceVersion := by
    rw [assocLookup_objectMetaMembers]
    simp [objectMetaFields, assocLookup]
  rw [assocLookup_mergeMembers k _ _ hnodup hnn, assocLookup_structMembers k _ hskel]
  by_cases h1 : k = "labels"
  · subst h1
    simp only [assocLookup, String.reduceEq, if_true, if_false, Option.some_bind, id,
      MergePatch_obj, hL, members_omitemptyMap]
    rw [mergeMembers_cons_of_ne_null _ _ _ _ (by simp), mergeMembers_nil, MergePatch_str]
  · by_cases h2 : k = "uid"
    · subst h2
      simp only [assocLookup, String.reduceEq, if_true, if_false, Option.some_bind, id, hU]
      by_cases hu : m.UID = ""
      · simp [omitemptyString, hu]
      · simp [omitemptyString, hu, MergePatch_str]
    · by_cases h3 : k = "resourceVersion"
      · subst h3
        simp only [assocLookup, String.reduceEq, if_true, if_false, Option.some_bind, id, hR]
        by_cases hr : m.ResourceVersion = ""
        · simp [omitemptyString, hr]
        · simp [omitemptyString, hr, MergePatch_str]
      · have e1 : ¬ "labels" = k := fun e => h1 e.symm
        have e2 : ¬ "uid" = k := fun e => h2 e.symm
        have e3 : ¬ "resourceVersion" = k := fun e => h3 e.symm
        simp [assocLookup, h1, e1, e2, e3]

theorem assocSet_map_str (k v : String) :
    ∀ es : List (String × String),
      assocSet k (Json.str v) (es.map (fun kv => (kv.1, Json.str kv.2))) =
        (assocSet k v es).map (fun kv => (kv.1, Json.str kv.2))
  | [] => rfl
  | (k', v') :: rest => by
    by_cases h : k' = k
    · simp [assocSet, h]
    · simp [assocSet, h, assocSet_map_str k v rest]

theorem unmarshalStringMap_assocSet (k v : String) (es : List (String × String)) :
    unmarshalStringMap (some (Json.obj (assocSet k (Json.str v)
        (es.map (fun kv => (kv.1, Json.str kv.2)))))) =
      some (some ((assocSet k v es).foldl (fun acc kv => acc.set kv.1 kv.2)
        StringMap.empty)) := by
  rw [assocSet_map_str]
  simp only [unmarshalStringMap, unmarshalEntries_map_str, Option.map_some']

/-- The member under each JSON name of a marshalled `ObjectMeta`. -/
theorem assocLookup_objectMetaMembers_each (m : ObjectMeta) :
    assocLookup "name" (structMembers (objectMetaFields m)) =
      omitemptyString m.Name ∧
    assocLookup "generateName" (structMembers (objectMetaFields m)) =
      omitemptyString m.GenerateName ∧
    assocLookup "namespace" (structMembers (objectMetaFields m)) =
      omitemptyString m.Namespace ∧
    assocLookup "selfLink" (structMembers (objectMetaFields m)) =
      omitemptyString m.SelfLink ∧
    assocLookup "uid" (structMembers (objectMetaFields m)) =
      omitemptyString m.UID ∧
    assocLookup "resourceVersion" (structMembers (objectMetaFields m)) =
      omitemptyString m.ResourceVersion ∧
    assocLookup "generation" (structMembers (objectMetaFields m)) =
      omitemptyInt m.Generation ∧
    assocLookup "creationTimestamp" (structMembers (objectMetaFields m)) =
      some (marshalTime m.CreationTimestamp) ∧
    assocLookup "deletionTimestamp" (structMembers (objectMetaFields m)) =
      m.DeletionTimestamp.map Json.str ∧
    assocLookup "deletionGracePeriodSeconds" (structMembers (objectMetaFields m)) =
      m.DeletionGracePeriodSeconds.map Json.num ∧
    assocLookup "labels" (structMembers (objectMetaFields m)) =
      omitemptyMap m.Labels ∧
    assocLookup "annotations" (structMembers (objectMetaFields m)) =
      omitemptyMap m.Annotations ∧
    assocLookup "ownerReferences" (structMembers (objectMetaFields m)) =
      omitemptySlice (m.OwnerReferences.map marshalOwnerReference) ∧
    assocLookup "finalizers" (structMembers (objectMetaFields m)) =
      omitemptySlice (m.Finalizers.map Json.str) := by
  refine ⟨?_, ?_, ?_, ?_, ?_, ?_, ?_, ?_, ?_, ?_, ?_, ?_, ?_, ?_⟩ <;>
    (rw [assocLookup_objectMetaMembers]
     simp only [objectMetaFields, assocLookup, String.reduceEq, if_true, if_false,
       Option.some_bind, id])

/-- Decoding succeeds with the result `r` once each member decodes to the
field of `r`. -/
theorem unmarshalObjectMeta_of_members (ms : List (String × Json)) (r : ObjectMeta)
    (h0 : unmarshalString (assocLookup "name" ms) = some r.Name)
    (h1 : unmarshalString (assocLookup "generateName" ms) = some r.GenerateName)
    (h2 : unmarshalString (assocLookup "namespace" ms) = some r.Namespace)
    (h3 : unmarshalString (assocLookup "selfLink" ms) = some r.SelfLink)
    (h4 : unmarshalString (assocLookup "uid" ms) = some r.UID)
    (h5 : unmarshalString (assocLookup "resourceVersion" ms) = some r.ResourceVersion)
    (h6 : unmarshalInt (assocLookup "generation" ms) = some r.Generation)
    (h7 : unmarshalOptionalString (assocLookup "creationTimestamp" ms) = some r.CreationTimestamp)
    (h8 : unmarshalOptionalString (assocLookup "deletionTimestamp" ms) = some r.DeletionTimestamp)
    (h9 : unmarshalOptionalInt (assocLookup "deletionGracePeriodSeconds" ms) = some r.DeletionGracePeriodSeconds)
    (h10 : unmarshalStringMap (assocLookup "labels" ms) = some r.Labels)
    (h11 : unmarshalStringMap (assocLookup "annotations" ms) = some r.Annotations)
    (h12 : unmarshalSlice unmarshalOwnerReference (assocLookup "ownerReferences" ms) = some r.OwnerReferences)
    (h13 : unmarshalSlice unmarshalStringItem (assocLookup "finalizers" ms) = some r.Finalizers) :
    unmarshalObjectMeta ms = some r := by
  unfold unmarshalObjectMeta
  rw [h0, h1, h2, h3, h4, h5, h6, h7, h8, h9, h10, h11, h12, h13]
  rfl

/-- Decoding the metadata of the patched document. -/
theorem unmarshalObjectMeta_merged (c : Constants) (m : ObjectMeta) :
    unmarshalObjectMeta (mergeMembers (structMembers (objectMetaFields m))
        (structMembers
          [("uid", omitemptyString m.UID),
           ("resourceVersion", omitemptyString m.ResourceVersion),
           ("labels", some (Json.obj
              [(c.OLMManagedLabelKey, Json.str c.OLMManagedLabelValue)]))])) =
      some { m with
        Labels := some ((assocSet c.OLMManagedLabelKey c.OLMManagedLabelValue
          (m.Labels.getD StringMap.empty).entries).foldl
            (fun acc kv => acc.set kv.1 kv.2) StringMap.empty)
        Annotations := m.Annotations.bind (fun l =>
          if l.entries.isEmpty then none
          else some (l.entries.foldl (fun acc kv => acc.set kv.1 kv.2) StringMap.empty)) } := by
  have h := assocLookup_objectMetaMembers_each m
  exact unmarshalObjectMeta_of_members _ _
    (by
      rw [assocLookup_merged_objectMeta, if_neg (by decide), h.1]
      exact unmarshalString_omitemptyString _)
    (by
      rw [assocLookup_merged_objectMeta, if_neg (by decide), h.2.1]
      exact unmarshalString_omitemptyString _)
    (by
      rw [assocLookup_merged_objectMeta, if_neg (by decide), h.2.2.1]
      exact unmarshalString_omitemptyString _)
    (by
      rw [assocLookup_merged_objectMeta, if_neg (by decide), h.2.2.2.1]
      exact unmarshalString_omitemptyString _)
    (by
      rw [assocLookup_merged_objectMeta, if_neg (by decide), h.2.2.2.2.1]
      exact unmarshalString_omitemptyString _)
    (by
      rw [assocLookup_merged_objectMeta, if_neg (by decide), h.2.2.2.2.2.1]
      exact unmarshalString_omitemptyString _)
    (by
      rw [assocLookup_merged_objectMeta, if_neg (by decide), h.2.2.2.2.2.2.1]
      exact unmarshalInt_omitemptyInt _)
    (by
      rw [assocLookup_merged_objectMeta, if_neg (by decide), h.2.2.2.2.2.2.2.1]
      exact unmarshalOptionalString_marshalTime _)
    (by
      rw [assocLookup_merged_objectMeta, if_neg (by decide), h.2.2.2.2.2.2.2.2.1]
      exact unmarshalOptionalString_map _)
    (by
      rw [assocLookup_merged_objectMeta, if_neg (by decide), h.2.2.2.2.2.2.2.2.2.1]
      exact unmarshalOptionalInt_map _)
    (by
      rw [assocLookup_merged_objectMeta, if_pos rfl]
      exact unmarshalStringMap_assocSet _ _ _)
    (by
      rw [assocLookup_merged_objectMeta, if_neg (by decide), h.2.2.2.2.2.2.2.2.2.2.2.1]
      exact unmarshalStringMap_omitemptyMap _)
    (by
      rw [assocLookup_merged_objectMeta, if_neg (by decide), h.2.2.2.2.2.2.2.2.2.2.2.2.1]
      exact unmarshalSlice_omitemptySlice _ _ unmarshalOwnerReference_marshalOwnerReference _)
    (by
      rw [assocLookup_merged_objectMeta, if_neg (by decide), h.2.2.2.2.2.2.2.2.2.2.2.2.2]
      exact unmarshalSlice_omitemptySlice _ _ unmarshalStringItem_str _)

theorem lookup_foldl_set (k : String) :
    ∀ (l : List (String × String)) (acc : StringMap), (l.map Prod.fst).Nodup →
      (l.foldl (fun m kv => m.set kv.1 kv.2) acc).lookup k =
        match assocLookup k l with
        | some v => some v
        | none => acc.lookup k
  | [], acc, _ => rfl
  | (k1, v1) :: rest, acc, hn => by
    rw [List.map_cons, List.nodup_cons] at hn
    rw [List.foldl_cons, lookup_foldl_set k rest _ hn.2]
    by_cases hk : k1 = k
    · subst hk
      rw [assocLookup_of_not_mem_keys k1 rest hn.1]
      simp [assocLookup, StringMap.lookup_set]
    · have hk' : ¬ k = k1 := fun e => hk e.symm
      simp only [assocLookup, hk, if_false, StringMap.lookup_set, hk']

theorem partialObjectMetadata_lookups (o : PartialObjectMetadata) :
    assocLookup "kind" (structMembers (partialObjectMetadataFields o)) =
        omitemptyString o.TypeMeta.Kind ∧
      assocLookup "apiVersion" (structMembers (partialObjectMetadataFields o)) =
        omitemptyString o.TypeMeta.APIVersion ∧
      assocLookup "metadata" (structMembers (partialObjectMetadataFields o)) =
        some (Json.obj (structMembers (objectMetaFields o.ObjectMeta))) := by
  refine ⟨?_, ?_, ?_⟩ <;>
    (rw [assocLookup_structMembers _ _ (partialObjectMetadataFields_nodup o)]
     simp only [partialObjectMetadataFields, assocLookup, String.reduceEq, if_true, if_false,
       Option.some_bind, id])

/-- The document stored for the patch that `ObjectPatchLabeler` submits: the
observed object with the marker written into its label map. -/
theorem applyMergePatch_submitted (c : Constants) (cast : PartialObjectMetadata) :
    applyMergePatch cast (Json.obj [("metadata", Json.obj (structMembers
        [("uid", omitemptyString cast.ObjectMeta.UID),
         ("resourceVersion", omitemptyString cast.ObjectMeta.ResourceVersion),
         ("labels", some (Json.obj
            [(c.OLMManagedLabelKey, Json.str c.OLMManagedLabelValue)]))]))]) =
      some { cast with
        ObjectMeta := { cast.ObjectMeta with
          Labels := some ((assocSet c.OLMManagedLabelKey c.OLMManagedLabelValue
            (cast.ObjectMeta.Labels.getD StringMap.empty).entries).foldl
              (fun acc kv => acc.set kv.1 kv.2) StringMap.empty)
          Annotations := cast.ObjectMeta.Annotations.bind (fun l =>
            if l.entries.isEmpty then none
            else some (l.entries.foldl (fun acc kv => acc.set kv.1 kv.2)
              StringMap.empty)) } } := by
  obtain ⟨hk, ha, hm⟩ := partialObjectMetadata_lookups cast
  unfold applyMergePatch jsonMarshal
  rw [Option.some_bind, MergePatch_obj]
  simp only [Json.members]
  rw [mergeMembers_cons_of_ne_null _ _ _ _ (by simp), mergeMembers_nil, hm]
  simp only [Option.getD_some, MergePatch_obj, Json.members]
  unfold jsonUnmarshal
  simp only [assocLookup_assocSet, String.reduceEq, if_true, if_false, hk, ha,
    unmarshalString_omitemptyString, Option.some_bind, Option.getD_some, Json.members,
    unmarshalObjectMeta_merged]

/-- C16: for an eligible, unmarked `PartialObjectMetadata`, also one that has
the marker key with a wrong value, `ObjectPatchLabeler` submits a merge patch,
and applying that patch to the observed object gives an object for which
`hasLabel` is true. A later reconcile of that object, with whatever
collaborators, takes the skip-and-check branch and submits nothing. -/
theorem patched_object_is_marked {E R : Type} (c : Constants)
    (check : PartialObjectMetadata → Bool)
    (list : Selector → Except E (List PartialObjectMetadata))
    (patch : String → PatchType → Json → PatchOptions → List String → Except E R)
    (done : Unit → Bool) (cast : PartialObjectMetadata)
    (he : check cast = true) (hu : hasLabel c cast = false) :
    (∃ name pt data opts subs, Call.patch name pt data opts subs ∈
        (ObjectPatchLabeler c check list patch done (Payload.expected cast)).trace) ∧
      ∀ name pt data opts subs, Call.patch name pt data opts subs ∈
          (ObjectPatchLabeler c check list patch done (Payload.expected cast)).trace →
        ∃ result, applyMergePatch cast data = some result ∧
          hasLabel c result = true ∧
          ∀ (check' : PartialObjectMetadata → Bool)
            (list' : Selector → Except E (List PartialObjectMetadata))
            (patch' : String → PatchType → Json → PatchOptions → List String → Except E R)
            (done' : Unit → Bool),
            (ObjectPatchLabeler c check' list' patch' done'
                (Payload.expected result)).branch = Branch.skipAndCheck ∧
              ∀ name' pt' data' opts' subs', Call.patch name' pt' data' opts' subs' ∉
                (ObjectPatchLabeler c check' list' patch' done'
                  (Payload.expected result)).trace := by
  refine ⟨⟨_, _, _, _, _, (ObjectPatchLabeler_patch_mem c check list patch done cast he hu
      _ _ _ _ _).mpr ⟨rfl, rfl, rfl, rfl, rfl⟩⟩, ?_⟩
  intro name pt data opts subs hmem
  obtain ⟨_, _, hdata, _, _⟩ :=
    (ObjectPatchLabeler_patch_mem c check list patch done cast he hu _ _ _ _ _).mp hmem
  subst hdata
  obtain ⟨result, hresult, hlabels⟩ : ∃ result : PartialObjectMetadata,
      applyMergePatch cast (Json.obj [("metadata", Json.obj (structMembers
        [("uid", omitemptyString cast.ObjectMeta.UID),
         ("resourceVersion", omitemptyString cast.ObjectMeta.ResourceVersion),
         ("labels", some (Json.obj
            [(c.OLMManagedLabelKey, Json.str c.OLMManagedLabelValue)]))]))]) = some result ∧
      result.ObjectMeta.Labels =
        some ((assocSet c.OLMManagedLabelKey c.OLMManagedLabelValue
          (cast.ObjectMeta.Labels.getD StringMap.empty).entries).foldl
            (fun acc kv => acc.set kv.1 kv.2) StringMap.empty) :=
    ⟨_, applyMergePatch_submitted c cast, rfl⟩
  have hmarked : hasLabel c result = true := by
    rw [hasLabel_eq_true_iff]
    refine ⟨_, hlabels, ?_⟩
    have hn := ((cast.ObjectMeta.Labels.getD StringMap.empty).set
      c.OLMManagedLabelKey c.OLMManagedLabelValue).nodupKeys
    have hl := lookup_foldl_set c.OLMManagedLabelKey
      (assocSet c.OLMManagedLabelKey c.OLMManagedLabelValue
        (cast.ObjectMeta.Labels.getD StringMap.empty).entries) StringMap.empty hn
    rw [hl, assocLookup_assocSet, if_pos rfl]
  refine ⟨result, hresult, hmarked, ?_⟩
  intro check' list' patch' done'
  have hs : (!check' result || hasLabel c result) = true := by rw [hmarked]; simp
  have h := ObjectPatchLabeler_skip_branch c check' list' patch' done' result hs
  exact ⟨h.1, fun name' pt' data' opts' subs' hm =>
    (h.2 _ hm).2.1 name' pt' data' opts' subs' rfl⟩

/-- C16 on the object whose marker key has the wrong value `false`: the
submitted patch, applied to it, gives the object with `olm.managed: true`,
which is marked. -/
theorem patched_object_is_marked_witness :
    applyMergePatch (exampleObject "crd" (some wrongValueLabels))
        (Json.obj [("metadata", Json.obj
          [("uid", Json.str "u-1"), ("resourceVersion", Json.str "42"),
           ("labels", Json.obj [("olm.managed", Json.str "true")])])]) =
        some (exampleObject "crd" (some (wrongValueLabels.set "olm.managed" "true"))) ∧
      ∃ result, applyMergePatch (exampleObject "crd" (some wrongValueLabels))
          (Json.obj [("metadata", Json.obj
            [("uid", Json.str "u-1"), ("resourceVersion", Json.str "42"),
             ("labels", Json.obj [("olm.managed", Json.str "true")])])]) = some result ∧
        hasLabel olmConstants result = true :=
  ⟨rfl,
    match (patched_object_is_marked (E := String) (R := Unit) olmConstants (fun _ => true)
      (fun _ => Except.ok []) (fun _ _ _ _ _ => Except.ok ()) (fun _ => true)
      (exampleObject "crd" (some wrongValueLabels)) rfl (by decide)).2
      "crd" PatchType.MergePatchType _
      { DryRun := [], Force := none, FieldManager := "olm-ownership-labeller",
        FieldValidation := "" } []
      ((ObjectPatchLabeler_patch_mem olmConstants (fun _ => true) (fun _ => Except.ok [])
        (fun _ _ _ _ _ => Except.ok ()) (fun _ => true)
        (exampleObject "crd" (some wrongValueLabels)) rfl (by decide) _ _ _ _ _).mpr
        ⟨rfl, rfl, rfl, rfl, rfl⟩) with
    | ⟨result, happly, hmarked, _⟩ => ⟨result, happly, hmarked⟩⟩

end Labeller
